import Mathlib

/-!
# MLVPN reorder buffer (`src/reorder.c`)

A shallow embedding of the packet reordering window of `reorder.c` and the
properties of its operations.

Conventions of the embedding

* `unsigned int` values are naturals below `2 ^ 32`, `uint64_t` values naturals
  below `2 ^ 64`; every C operation that can wrap carries its `% 2 ^ w`.
* A packet pointer is a value of `mlvpn_pkt_t`: the field `seq` the buffer
  reads, and `ref`, which stands for the identity of the caller's record.
  A slot of the circular buffer is `Option mlvpn_pkt_t`, `none` being `NULL`.
* The slot array `order_buf.pkts` is the list of pointer-sized cells that
  follow the structure inside its allocation.  Reading a cell outside the list
  yields `none` and writing one is dropped; the theorems are stated for
  buffers whose cells cover `size`, where neither happens.
* Calls to the log sink are not part of the state; the values that
  `mlvpn_reorder_force_drain` hands to its final `log_info` are kept in the
  result, since they are computed by the function.
* The trace array `char drain_log[max_pkts]` of `mlvpn_reorder_force_drain` is
  kept as the list of the writes made to it.  A write outside the array is
  undefined behaviour: `mlvpn_reorder_force_drain` then has the result `none`,
  and so has every sequence of calls that contains such a call (`run_ops`).
* `mlvpn_reorder_create` computes the size of its allocation in `unsigned int`.
  `Fits` says that the structure and `2 * size` pointers fit 32 bits, so that
  this computation does not wrap and `mlvpn_reorder_init` accepts it.  Without
  it the created buffer can have `size` 0 or no cells at all.
* `memset(b, 0, bufsize)` in `mlvpn_reorder_init` clears the bytes below
  `bufsize`: the members of the structure that lie below it (`Layout` gives
  their offsets) and the cells that follow the structure.
* The debug filter of `log.c` is embedded at the end of the definitions
  (`log_state`, `log_accept`, `log_debug`).
-/

namespace MLVPN

/-- The caller's packet record: `seq` is the `uint64_t` sequence number, `ref`
the identity of the record (the pointer value). -/
structure mlvpn_pkt_t where
  seq : Nat
  ref : Nat
deriving DecidableEq, Repr

/-- The record `struct cir_buffer`. -/
structure cir_buffer where
  size : Nat
  mask : Nat
  head : Nat
  tail : Nat
  count : Nat
  pkts : List (Option mlvpn_pkt_t)
deriving DecidableEq, Repr

/-- The record `struct mlvpn_reorder_buffer`; the `int is_initialized` only ever
holds 0 or 1 and is a `Bool`. -/
structure mlvpn_reorder_buffer where
  min_seqn : Nat
  memsize : Nat
  order_buf : cir_buffer
  is_initialized : Bool
deriving DecidableEq, Repr

/-- What `reorder.c` depends on of the platform: `sizeof(struct
mlvpn_reorder_buffer)`, `sizeof(mlvpn_pkt_t *)`, `sizeof(unsigned int)` (also
the size of `int`) and the byte offsets inside the structure of the members
that `memset` clears and `mlvpn_reorder_init` does not assign afterwards.  The
member `min_seqn` comes first, at offset 0, and has 8 bytes.  All these members
lie inside the structure. -/
structure Layout where
  sizeof_buffer : Nat
  sizeof_ptr : Nat
  sizeof_int : Nat
  offset_head : Nat
  offset_tail : Nat
  offset_count : Nat
  offset_is_initialized : Nat
  members_inside : 8 ≤ sizeof_buffer ∧ 0 < sizeof_int ∧
    offset_head + sizeof_int ≤ sizeof_buffer ∧
    offset_tail + sizeof_int ≤ sizeof_buffer ∧
    offset_count + sizeof_int ≤ sizeof_buffer ∧
    offset_is_initialized + sizeof_int ≤ sizeof_buffer

/-- The layout of an LP64 platform: 8 byte pointers, 4 byte integers and a 56
byte structure (`min_seqn` at 0, `memsize` at 8, `order_buf` at 16 with `head`,
`tail`, `count` at 24, 28, 32 and `pkts` at 40, `is_initialized` at 48). -/
def lp64 : Layout :=
  { sizeof_buffer := 56, sizeof_ptr := 8, sizeof_int := 4
    offset_head := 24, offset_tail := 28, offset_count := 32, offset_is_initialized := 48
    members_inside := by decide }

/-- Content of slot `i` of the circular buffer, `order_buf->pkts[i]`. -/
def slot (b : mlvpn_reorder_buffer) (i : Nat) : Option mlvpn_pkt_t :=
  b.order_buf.pkts.getD i none

/-- What `memset(b, 0, bufsize)` does to the cells after the structure: the
first `n` of them become `NULL`. -/
def zero_cells (n : Nat) (cells : List (Option mlvpn_pkt_t)) : List (Option mlvpn_pkt_t) :=
  List.replicate (min n cells.length) none ++ cells.drop n

/-- What `memset(b, 0, bufsize)` leaves in an unsigned member of `width` bytes
at byte offset `offset` that held `v`: the bytes of the member below `bufsize`
are cleared, the low-order bytes first (the byte order of the LP64 platforms
x86-64 and aarch64).  A member that lies below `bufsize` becomes 0, one at or
above `bufsize` keeps its value. -/
def memset_field (offset width bufsize v : Nat) : Nat :=
  v % 256 ^ width / 256 ^ min width (bufsize - offset) * 256 ^ min width (bufsize - offset)

/-- The function `mlvpn_reorder_init` on a non-`NULL` `b`: `none` is the `NULL`
it returns (with `b` untouched) when `bufsize` is below the minimum.  Otherwise
`memset` clears the first `bufsize` bytes, that is the members of the structure
below `bufsize` and the cells that follow it, and `memsize`, `size`, `mask` and
`pkts` are assigned.  The flag `is_initialized` holds 0 or 1, so it is cleared
as soon as its first byte is. -/
def mlvpn_reorder_init (L : Layout) (b : mlvpn_reorder_buffer) (bufsize size : Nat) :
    Option mlvpn_reorder_buffer :=
  let min_bufsize := (L.sizeof_buffer + size * L.sizeof_ptr) % 2 ^ 32
  if bufsize < min_bufsize then none
  else some
    { min_seqn := memset_field 0 8 bufsize b.min_seqn
      memsize := bufsize
      order_buf :=
        { size := size
          mask := (size + 2 ^ 32 - 1) % 2 ^ 32
          head := memset_field L.offset_head L.sizeof_int bufsize b.order_buf.head
          tail := memset_field L.offset_tail L.sizeof_int bufsize b.order_buf.tail
          count := memset_field L.offset_count L.sizeof_int bufsize b.order_buf.count
          pkts := zero_cells ((bufsize - L.sizeof_buffer) / L.sizeof_ptr) b.order_buf.pkts }
      is_initialized :=
        if L.offset_is_initialized < bufsize then false else b.is_initialized }

/-- The memory `calloc(1, bufsize)` hands out, seen as a buffer: every field
zero and as many `NULL` cells as fit after the structure. -/
def calloc_buffer (L : Layout) (bufsize : Nat) : mlvpn_reorder_buffer :=
  { min_seqn := 0
    memsize := 0
    order_buf :=
      { size := 0, mask := 0, head := 0, tail := 0, count := 0
        pkts := List.replicate ((bufsize - L.sizeof_buffer) / L.sizeof_ptr) none }
    is_initialized := false }

/-- The function `mlvpn_reorder_create` when `calloc` succeeds.  The result of
`mlvpn_reorder_init` is not looked at, so a refused `bufsize` leaves the
all-zero buffer. -/
def mlvpn_reorder_create (L : Layout) (size : Nat) : mlvpn_reorder_buffer :=
  let bufsize := (L.sizeof_buffer + (2 * size % 2 ^ 32) * L.sizeof_ptr) % 2 ^ 32
  let b := calloc_buffer L bufsize
  match mlvpn_reorder_init L b bufsize size with
  | some b1 => b1
  | none => b

/-- The function `mlvpn_reorder_reset`. -/
def mlvpn_reorder_reset (L : Layout) (b : mlvpn_reorder_buffer) : mlvpn_reorder_buffer :=
  match mlvpn_reorder_init L b b.memsize b.order_buf.size with
  | some b1 => b1
  | none => b

/-- The function `dequeue_from_order_buf`: the new buffer and the packet that was
at `head`; `none` when that slot is `NULL` (the C code would dereference it). -/
def dequeue_from_order_buf (b : mlvpn_reorder_buffer) :
    Option (mlvpn_reorder_buffer × mlvpn_pkt_t) :=
  match slot b b.order_buf.head with
  | none => none
  | some packet =>
    some
      ({ b with
          min_seqn := (packet.seq + 1) % 2 ^ 64
          order_buf :=
            { b.order_buf with
              pkts := b.order_buf.pkts.set b.order_buf.head none
              head := (b.order_buf.head + 1) &&& b.order_buf.mask
              count := if b.order_buf.count > 0 then b.order_buf.count - 1
                       else b.order_buf.count } },
       packet)

/-- Reinterpretation of a `uint64_t` value as `int64_t` (two's complement). -/
def to_int64 (x : Nat) : Int :=
  if x < 2 ^ 63 then (x : Int) else (x : Int) - 2 ^ 64

/-- The `offset` of `mlvpn_reorder_insert`: `pkt->seq - b->min_seqn` in
`uint64_t`, stored in an `int64_t`. -/
def insert_offset (min_seqn seq : Nat) : Int :=
  to_int64 ((seq + 2 ^ 64 - min_seqn) % 2 ^ 64)

/-- The function `mlvpn_reorder_insert`: the buffer after the call and the
returned `int`. -/
def mlvpn_reorder_insert (b : mlvpn_reorder_buffer) (pkt : mlvpn_pkt_t) :
    mlvpn_reorder_buffer × Int :=
  let b1 : mlvpn_reorder_buffer :=
    if b.is_initialized then b
    else { b with min_seqn := pkt.seq, is_initialized := true }
  let offset : Int := insert_offset b1.min_seqn pkt.seq
  if 0 ≤ offset ∧ offset < (b1.order_buf.size : Int) then
    let position := ((b1.order_buf.head + offset.toNat) &&& b1.order_buf.mask) % 2 ^ 32
    ({ b1 with
        order_buf :=
          { b1.order_buf with
            pkts := b1.order_buf.pkts.set position (some pkt)
            count := (b1.order_buf.count + 1) % 2 ^ 32 } },
     0)
  else if offset < 0 then (b1, -2)
  else (b1, -1)

/-- The loop of `mlvpn_reorder_drain`; the first argument is `max_pkts - drain_cnt`,
the list is what the remaining iterations store into `pkts[drain_cnt ...]`. -/
def drain_loop : Nat → mlvpn_reorder_buffer → mlvpn_reorder_buffer × List mlvpn_pkt_t
  | 0, b => (b, [])
  | n + 1, b =>
    match dequeue_from_order_buf b with
    | none => (b, [])
    | some (b1, packet) =>
      let r := drain_loop n b1
      (r.1, packet :: r.2)

/-- Result of a drain call: the buffer afterwards, the cells written to the
caller's array `pkts[0 .. ret)`, and the returned count. -/
structure drain_result where
  b : mlvpn_reorder_buffer
  pkts : List mlvpn_pkt_t
  ret : Nat
deriving DecidableEq, Repr

/-- The function `mlvpn_reorder_drain`. -/
def mlvpn_reorder_drain (b : mlvpn_reorder_buffer) (max_pkts : Nat) : drain_result :=
  let r := drain_loop max_pkts b
  { b := r.1, pkts := r.2, ret := r.2.length }

/-- The local variables of `mlvpn_reorder_force_drain` that its loop updates.
`pkts` is the caller's array up to `drain_cnt`; `drain_log` lists the writes
into the trace array as (index, byte), oldest first. -/
structure force_drain_vars where
  b : mlvpn_reorder_buffer
  pkts : List mlvpn_pkt_t
  first_drained : Nat
  drain_cnt : Nat
  skipped_holes : Nat
  last_packet : Nat
  drain_log : List (Nat × Nat)
deriving DecidableEq, Repr

/-- One pass through the body of the `for` loop of `mlvpn_reorder_force_drain`
with loop counter `i`; 46 is the byte of a dot, 69 of an E. -/
def force_drain_body (i : Nat) (v : force_drain_vars) : force_drain_vars :=
  match dequeue_from_order_buf v.b with
  | some (b1, packet) =>
    { b := b1
      pkts := v.pkts ++ [packet]
      first_drained := if v.first_drained = 0 then packet.seq else v.first_drained
      drain_cnt := v.drain_cnt + 1
      skipped_holes := v.skipped_holes
      last_packet := i
      drain_log := v.drain_log ++ [(i, 46)] }
  | none =>
    { v with
      b := { v.b with
              order_buf :=
                { v.b.order_buf with
                  head := (v.b.order_buf.head + 1) &&& v.b.order_buf.mask } }
      skipped_holes := v.skipped_holes + 1
      drain_log := v.drain_log ++ [(i, 69)] }

/-- The `for` loop of `mlvpn_reorder_force_drain`: the first argument is
`order_buf->size - i`, the number of values the counter `i` can still take. -/
def force_drain_loop (max_pkts : Nat) : Nat → Nat → force_drain_vars → force_drain_vars
  | 0, _, v => v
  | n + 1, i, v =>
    if v.drain_cnt < max_pkts then force_drain_loop max_pkts n (i + 1) (force_drain_body i v)
    else v

/-- Result of a force-drain call: the buffer afterwards, the caller's array
`pkts[0 .. ret)`, the returned count, the arguments of the final `log_info`
and the writes into the trace array. -/
structure force_drain_result where
  b : mlvpn_reorder_buffer
  pkts : List mlvpn_pkt_t
  ret : Nat
  log_min_seqn : Nat
  log_first_drained : Nat
  log_drain_cnt : Nat
  log_holes : Nat
  drain_log : List (Nat × Nat)
deriving DecidableEq, Repr

/-- The statements of `mlvpn_reorder_force_drain` run with every write to the
trace array recorded in `drain_log` as the pair of index and byte: the loop
writes index `i` on every pass, and the statement after the loop writes index
`last_packet + 1`.  This is what the C function computes when all these
indices lie inside `char drain_log[max_pkts]`. -/
def force_drain_unchecked (b : mlvpn_reorder_buffer) (max_pkts : Nat) :
    force_drain_result :=
  let size := b.order_buf.size
  let v0 : force_drain_vars :=
    { b := b, pkts := [], first_drained := 0, drain_cnt := 0, skipped_holes := 0
      last_packet := size, drain_log := [] }
  let v := force_drain_loop max_pkts size 0 v0
  { b := v.b
    pkts := v.pkts
    ret := v.drain_cnt % 2 ^ 32
    log_min_seqn := b.min_seqn
    log_first_drained := v.first_drained
    log_drain_cnt := v.drain_cnt
    log_holes :=
      (v.skipped_holes + 2 ^ 64 - (v.b.order_buf.size + 2 ^ 64 - v.last_packet) % 2 ^ 64 + 1)
        % 2 ^ 64
    drain_log := v.drain_log ++ [((v.last_packet + 1) % 2 ^ 64, 0)] }

/-- The function `mlvpn_reorder_force_drain`.  Its trace array is the local
`char drain_log[max_pkts]`; a write at an index that is not below `max_pkts`
lies outside the array and the behaviour of the call is undefined, which is
the result `none`.  In particular the call is undefined whenever the loop stops
because `drain_cnt` has reached `max_pkts`, since then `last_packet + 1` is at
least `max_pkts`. -/
def mlvpn_reorder_force_drain (b : mlvpn_reorder_buffer) (max_pkts : Nat) :
    Option force_drain_result :=
  if (force_drain_unchecked b max_pkts).drain_log.all (fun e => decide (e.1 < max_pkts)) then
    some (force_drain_unchecked b max_pkts)
  else none

/-- A call a client can make on an existing buffer. -/
inductive Op where
  | insert (pkt : mlvpn_pkt_t)
  | drain (max_pkts : Nat)
  | force_drain (max_pkts : Nat)
  | reset
deriving DecidableEq, Repr

/-- The buffer after one call; `none` when the call is a force-drain that
writes outside its trace array. -/
def apply_op (L : Layout) (b : mlvpn_reorder_buffer) : Op → Option mlvpn_reorder_buffer
  | .insert pkt => some (mlvpn_reorder_insert b pkt).1
  | .drain m => some (mlvpn_reorder_drain b m).b
  | .force_drain m =>
    match mlvpn_reorder_force_drain b m with
    | some r => some r.b
    | none => none
  | .reset => some (mlvpn_reorder_reset L b)

/-- The buffer after a sequence of calls, first call first; `none` when one of
the calls has no defined result. -/
def run_ops (L : Layout) (b : mlvpn_reorder_buffer) : List Op → Option mlvpn_reorder_buffer
  | [] => some b
  | op :: ops =>
    match apply_op L b op with
    | some b1 => run_ops L b1 ops
    | none => none

/-! ## Predicates and views used by the statements -/

/-- The buffer after one call whose trace writes, if it is a force-drain, are
taken to lie inside the trace array. -/
def apply_unchecked (L : Layout) (b : mlvpn_reorder_buffer) : Op → mlvpn_reorder_buffer
  | .insert pkt => (mlvpn_reorder_insert b pkt).1
  | .drain m => (mlvpn_reorder_drain b m).b
  | .force_drain m => (force_drain_unchecked b m).b
  | .reset => mlvpn_reorder_reset L b

/-- The buffer after a sequence of such calls, first call first. -/
def run_unchecked (L : Layout) (b : mlvpn_reorder_buffer) (ops : List Op) : mlvpn_reorder_buffer :=
  ops.foldl (apply_unchecked L) b

/-- Representation invariant of a buffer built by `mlvpn_reorder_create` with a
power-of-two size: the fields hold values of their C types, the mask fits the
size, `head` is a slot index and the cell array covers all `size` slots. -/
structure WF (b : mlvpn_reorder_buffer) : Prop where
  pow2 : ∃ k, b.order_buf.size = 2 ^ k
  size_lt : b.order_buf.size < 2 ^ 32
  mask_eq : b.order_buf.mask = b.order_buf.size - 1
  head_lt : b.order_buf.head < b.order_buf.size
  cells : b.order_buf.size ≤ b.order_buf.pkts.length
  min_lt : b.min_seqn < 2 ^ 64

/-- The slot at window offset `j`, counted from `head` with wrap-around. -/
def wslot (b : mlvpn_reorder_buffer) (j : Nat) : Option mlvpn_pkt_t :=
  slot b ((b.order_buf.head + j) % b.order_buf.size)

/-- What one pass of a drain loop does to the buffer: the packet at `head` is
dequeued, or, when the slot is empty, `head` alone moves on. -/
def advance (b : mlvpn_reorder_buffer) : mlvpn_reorder_buffer :=
  match dequeue_from_order_buf b with
  | some (b1, _) => b1
  | none =>
    { b with order_buf := { b.order_buf with head := (b.order_buf.head + 1) &&& b.order_buf.mask } }

/-- The window invariant of the specification: an occupied slot `p` holds the
packet whose sequence number is `min_seqn + ((p - head) mod size)`, in 64 bits. -/
def WInv (b : mlvpn_reorder_buffer) : Prop :=
  ∀ p, p < b.order_buf.size → ∀ pkt, slot b p = some pkt →
    pkt.seq = (b.min_seqn +
      (((p : Int) - (b.order_buf.head : Int)) % (b.order_buf.size : Int)).toNat) % 2 ^ 64

/-- The window invariant by window offset, with `g` sequence numbers given up
between `min_seqn` and the slot at `head` (holes skipped since the last dequeue). -/
def WInvG (g : Nat) (b : mlvpn_reorder_buffer) : Prop :=
  ∀ j, j < b.order_buf.size → ∀ pkt, wslot b j = some pkt →
    pkt.seq = (b.min_seqn + g + j) % 2 ^ 64

/-- The value `min_seqn` has when `mlvpn_reorder_insert` computes its offset. -/
def insert_floor (b : mlvpn_reorder_buffer) (pkt : mlvpn_pkt_t) : Nat :=
  if b.is_initialized then b.min_seqn else pkt.seq

/-- The allocation `mlvpn_reorder_create` asks for is computed without
wrap-around: the structure and `2 * size` pointers fit an `unsigned int`. -/
def Fits (L : Layout) (size : Nat) : Prop :=
  0 < L.sizeof_ptr ∧ L.sizeof_buffer + 2 * size * L.sizeof_ptr < 2 ^ 32

/-- The state `mlvpn_reorder_create` builds when the allocation fits: `2 * size`
empty cells, all counters zero, not initialized. -/
def fresh (L : Layout) (size : Nat) : mlvpn_reorder_buffer :=
  { min_seqn := 0
    memsize := L.sizeof_buffer + 2 * size * L.sizeof_ptr
    order_buf :=
      { size := size, mask := size - 1, head := 0, tail := 0, count := 0
        pkts := List.replicate (2 * size) none }
    is_initialized := false }

/-- What holds of every buffer a client can reach from `mlvpn_reorder_create L size`. -/
structure CreatedInv (L : Layout) (size : Nat) (b : mlvpn_reorder_buffer) : Prop where
  wf : WF b
  size_eq : b.order_buf.size = size
  mem_eq : b.memsize = L.sizeof_buffer + 2 * size * L.sizeof_ptr
  len_eq : b.order_buf.pkts.length = 2 * size
  inv : WInvG 0 b
  uninit : b.is_initialized = false → ∀ q, slot b q = none

/-- A client that inserts a list of packets one after the other, first packet
first, and records every return value. -/
def insert_all (b : mlvpn_reorder_buffer) : List mlvpn_pkt_t → mlvpn_reorder_buffer × List Int
  | [] => (b, [])
  | p :: ps =>
    ((insert_all (mlvpn_reorder_insert b p).1 ps).1,
     (mlvpn_reorder_insert b p).2 :: (insert_all (mlvpn_reorder_insert b p).1 ps).2)

/-- State of an initialized window whose floor is `s` and whose occupied slots
hold exactly the packets of `held`, each at the offset of its sequence number. -/
structure Holds (s : Nat) (held : List mlvpn_pkt_t) (b : mlvpn_reorder_buffer) : Prop where
  wf : WF b
  init : b.is_initialized = true
  floor_eq : b.min_seqn = s
  slots : ∀ j, j < b.order_buf.size → ∀ q,
    wslot b j = some q ↔ (q ∈ held ∧ q.seq = (s + j) % 2 ^ 64)

/-- Number of occupied slots of the circular buffer. -/
def occupied (b : mlvpn_reorder_buffer) : Nat :=
  ((List.range b.order_buf.size).filter (fun p => (slot b p).isSome)).length

/-- The buffered packets in window order: the occupied slots met when scanning
`size` slots from `head`. -/
def window_pkts (b : mlvpn_reorder_buffer) : List mlvpn_pkt_t :=
  (List.range b.order_buf.size).filterMap (wslot b)

/-- The window offsets of the occupied slots, in scanning order. -/
def window_offs (b : mlvpn_reorder_buffer) : List Nat :=
  (List.range b.order_buf.size).filter (fun j => (wslot b j).isSome)

/-- The packets one call hands to the caller, in the order they are stored
into the caller's array; `none` when the call has no defined result. -/
def emit_op (b : mlvpn_reorder_buffer) : Op → Option (List mlvpn_pkt_t)
  | .drain m => some (mlvpn_reorder_drain b m).pkts
  | .force_drain m =>
    match mlvpn_reorder_force_drain b m with
    | some r => some r.pkts
    | none => none
  | .insert _ => some []
  | .reset => some []

/-- All packets a sequence of calls hands to the caller, in emission order;
`none` when one of the calls has no defined result. -/
def run_emit (L : Layout) (b : mlvpn_reorder_buffer) : List Op → Option (List mlvpn_pkt_t)
  | [] => some []
  | op :: ops =>
    match emit_op b op, apply_op L b op with
    | some out, some b1 =>
      match run_emit L b1 ops with
      | some rest => some (out ++ rest)
      | none => none
    | _, _ => none

/-- The packets one call hands to the caller when its trace writes are taken
to lie inside the trace array. -/
def emit_unchecked (b : mlvpn_reorder_buffer) : Op → List mlvpn_pkt_t
  | .drain m => (mlvpn_reorder_drain b m).pkts
  | .force_drain m => (force_drain_unchecked b m).pkts
  | .insert _ => []
  | .reset => []

/-- All packets a sequence of such calls hands to the caller, in emission
order. -/
def run_emit_unchecked (L : Layout) (b : mlvpn_reorder_buffer) : List Op → List mlvpn_pkt_t
  | [] => []
  | op :: ops => emit_unchecked b op ++ run_emit_unchecked L (apply_unchecked L b op) ops

/-- State kept along a run without reset in which no sequence number comes
within `size` of `2 ^ 64`: all emitted packets lie below `min_seqn`. -/
structure EmitInv (L : Layout) (size : Nat) (b : mlvpn_reorder_buffer)
    (E : List mlvpn_pkt_t) : Prop where
  created : CreatedInv L size b
  nowrap : b.min_seqn + size ≤ 2 ^ 64
  slots_bound : ∀ j, j < size → ∀ p, wslot b j = some p → p.seq + size < 2 ^ 64
  emitted_lt : ∀ e, e ∈ E → e.seq < b.min_seqn
  sorted : (E.map mlvpn_pkt_t.seq).Pairwise (fun x y => x < y)
  uninit_nil : b.is_initialized = false → E = []

/-- The indices of `order_buf->pkts` that `mlvpn_reorder_drain` touches, in
order: each evaluation of `pkts[head]` in the loop test, which is also the
index `dequeue_from_order_buf` then reads and clears.  The index is not
evaluated once `drain_cnt < max_pkts` fails. -/
def drain_reads : Nat → mlvpn_reorder_buffer → List Nat
  | 0, _ => []
  | n + 1, b =>
    b.order_buf.head ::
      (match dequeue_from_order_buf b with
       | none => []
       | some (b1, _) => drain_reads n b1)

/-- The indices of `order_buf->pkts` that the loop of
`mlvpn_reorder_force_drain` touches, in order: `pkts[head]` is read on every
pass and cleared when occupied. -/
def force_drain_reads (max_pkts : Nat) : Nat → Nat → force_drain_vars → List Nat
  | 0, _, _ => []
  | n + 1, i, v =>
    if v.drain_cnt < max_pkts then
      v.b.order_buf.head :: force_drain_reads max_pkts n (i + 1) (force_drain_body i v)
    else []

/-- A buffer of `c` slots, all empty, nothing inserted yet. -/
def hollow (c : Nat) : mlvpn_reorder_buffer :=
  { min_seqn := 0
    memsize := 0
    order_buf :=
      { size := c, mask := c - 1, head := 0, tail := 0, count := 0
        pkts := List.replicate c none }
    is_initialized := false }

/-- The cell `mlvpn_reorder_insert` stores into when it accepts `pkt`: its local
`position`. -/
def insert_target (b : mlvpn_reorder_buffer) (pkt : mlvpn_pkt_t) : Nat :=
  ((b.order_buf.head + (insert_offset (insert_floor b pkt) pkt.seq).toNat)
    &&& b.order_buf.mask) % 2 ^ 32

/-- No insert of the run is accepted into a slot that is occupied at that
moment. -/
def no_overwrite (L : Layout) : mlvpn_reorder_buffer → List Op → Prop
  | _, [] => True
  | b, Op.insert pkt :: ops =>
    ((mlvpn_reorder_insert b pkt).2 = 0 → slot b (insert_target b pkt) = none) ∧
      no_overwrite L (mlvpn_reorder_insert b pkt).1 ops
  | b, op :: ops =>
    match apply_op L b op with
    | some b1 => no_overwrite L b1 ops
    | none => True

/-- The same for calls whose trace writes are taken to lie inside the trace
array. -/
def no_overwrite_unchecked (L : Layout) : mlvpn_reorder_buffer → List Op → Prop
  | _, [] => True
  | b, Op.insert pkt :: ops =>
    ((mlvpn_reorder_insert b pkt).2 = 0 → slot b (insert_target b pkt) = none) ∧
      no_overwrite_unchecked L (mlvpn_reorder_insert b pkt).1 ops
  | b, op :: ops => no_overwrite_unchecked L (apply_unchecked L b op) ops

/-- The file-level variables of `log.c` that decide whether a debug message is
emitted: `level`, whether a handler is registered (`logh != NULL`), and the
array `tokens[MAX_DBG_TOKENS + 1]` (`none` is `NULL`). -/
structure log_state where
  level : Int
  logh : Bool
  tokens : List (Option String)
deriving DecidableEq, Repr

/-- The constant `MAX_DBG_TOKENS`. -/
def MAX_DBG_TOKENS : Nat := 40

/-- The function `log_register`; only whether the callback is `NULL` matters. -/
def log_register (s : log_state) (cb : Bool) : log_state :=
  { s with logh := cb }

/-- The function `log_clear_accept`. -/
def log_clear_accept (s : log_state) : log_state :=
  { s with tokens := s.tokens.set 0 none }

/-- The loop of `log_accept` from counter `i`, with `MAX_DBG_TOKENS - i` passes
left. -/
def log_accept_loop (token : Option String) : Nat → Nat → List (Option String) →
    List (Option String)
  | 0, _, toks => toks
  | n + 1, i, toks =>
    match toks.getD i none with
    | none => (toks.set (i + 1) none).set i token
    | some _ => log_accept_loop token n (i + 1) toks

/-- The function `log_accept`. -/
def log_accept (s : log_state) (token : Option String) : log_state :=
  { s with tokens := log_accept_loop token MAX_DBG_TOKENS 0 s.tokens }

/-- The loop of `log_debug_accept_token` from counter `i`; `strcmp` equal to 0
is equality of the strings. -/
def log_debug_accept_loop (token : String) : Nat → Nat → List (Option String) → Bool
  | 0, _, _ => false
  | n + 1, i, toks =>
    match toks.getD i none with
    | none => false
    | some t => if t = token then true else log_debug_accept_loop token n (i + 1) toks

/-- The function `log_debug_accept_token`; `true` is the returned 1. -/
def log_debug_accept_token (s : log_state) (token : Option String) : Bool :=
  match token with
  | none => false
  | some t =>
    match s.tokens.getD 0 none with
    | none => false
    | some _ => log_debug_accept_loop t MAX_DBG_TOKENS 0 s.tokens

/-- The function `log_debug`: whether it calls `vlog`, that is, emits. -/
def log_debug (s : log_state) (token : Option String) : Bool :=
  (decide (s.level = 2) && log_debug_accept_token s token) || s.logh || decide (s.level > 2)

/-- A client that clears the accepted tokens and then registers the tokens of
a list, first token first. -/
def accept_all (s : log_state) (toks : List String) : log_state :=
  toks.foldl (fun st t => log_accept st (some t)) (log_clear_accept s)

/-- The array `tokens` holds the strings of `reg` followed by a `NULL`. -/
structure TokInv (reg : List String) (toks : List (Option String)) : Prop where
  len : toks.length = 41
  reg_le : reg.length ≤ 40
  cells : ∀ i, i ≤ reg.length → toks.getD i none = reg[i]?

/-! ## Lemmas on the operations -/

theorem getD_set_none (l : List (Option mlvpn_pkt_t)) (i j : Nat) :
    (l.set i none).getD j none = if i = j then none else l.getD j none := by
  simp only [List.getD_eq_getElem?_getD, List.getElem?_set]
  by_cases h : i = j
  · subst h; by_cases h2 : i < l.length <;> simp [h2]
  · simp [h]

theorem getD_set_some (l : List (Option mlvpn_pkt_t)) (i j : Nat) (p : mlvpn_pkt_t)
    (hi : i < l.length) :
    (l.set i (some p)).getD j none = if i = j then some p else l.getD j none := by
  simp only [List.getD_eq_getElem?_getD, List.getElem?_set]
  by_cases h : i = j
  · subst h; simp [hi]
  · simp [h]

theorem land_mask (x size : Nat) (h : ∃ k, size = 2 ^ k) : x &&& (size - 1) = x % size := by
  obtain ⟨k, rfl⟩ := h
  exact Nat.and_pow_two_sub_one_eq_mod x k

theorem pow2_pos (size : Nat) (h : ∃ k, size = 2 ^ k) : 0 < size := by
  obtain ⟨k, rfl⟩ := h
  exact Nat.pos_pow_of_pos k (by decide)

theorem succ_mod (h size : Nat) (hh : h < size) :
    (h + 1) % size = if h + 1 = size then 0 else h + 1 := by
  by_cases e : h + 1 = size
  · simp [e]
  · simp [e]; exact Nat.mod_eq_of_lt (by omega)

theorem add_mod_cases (h j size : Nat) (hh : h < size) (hj : j < size) :
    (h + j) % size = if h + j < size then h + j else h + j - size := by
  by_cases e : h + j < size
  · simp [e]; exact Nat.mod_eq_of_lt e
  · simp [e]
    rw [Nat.mod_eq_sub_mod (by omega)]
    exact Nat.mod_eq_of_lt (by omega)

theorem win_pos_succ (h j size : Nat) :
    ((h + 1) % size + j) % size = (h + (j + 1)) % size := by
  rw [Nat.mod_add_mod]; congr 1; omega

theorem win_pos_ne_head (h j size : Nat) (hh : h < size) (hj : j + 1 < size) :
    (h + (j + 1)) % size ≠ h := by
  rw [add_mod_cases h (j + 1) size hh hj]
  split <;> omega

theorem win_pos_last (h size : Nat) (hh : h < size) : (h + size) % size = h := by
  rw [Nat.add_mod_right]; exact Nat.mod_eq_of_lt hh

theorem dequeue_eq_none (b : mlvpn_reorder_buffer) :
    dequeue_from_order_buf b = none ↔ slot b b.order_buf.head = none := by
  unfold dequeue_from_order_buf
  cases h : slot b b.order_buf.head <;> simp

theorem dequeue_eq_some (b b1 : mlvpn_reorder_buffer) (p : mlvpn_pkt_t)
    (h : dequeue_from_order_buf b = some (b1, p)) :
    slot b b.order_buf.head = some p ∧
    b1.min_seqn = (p.seq + 1) % 2 ^ 64 ∧
    b1.memsize = b.memsize ∧ b1.is_initialized = b.is_initialized ∧
    b1.order_buf.size = b.order_buf.size ∧ b1.order_buf.mask = b.order_buf.mask ∧
    b1.order_buf.tail = b.order_buf.tail ∧
    b1.order_buf.head = (b.order_buf.head + 1) &&& b.order_buf.mask ∧
    b1.order_buf.count = b.order_buf.count - 1 ∧
    b1.order_buf.pkts = b.order_buf.pkts.set b.order_buf.head none := by
  unfold dequeue_from_order_buf at h
  cases hs : slot b b.order_buf.head with
  | none => simp [hs] at h
  | some q =>
    simp only [hs, Option.some.injEq, Prod.mk.injEq] at h
    obtain ⟨rfl, rfl⟩ := h
    refine ⟨rfl, rfl, rfl, rfl, rfl, rfl, rfl, rfl, ?_, rfl⟩
    simp only
    split <;> omega

theorem wslot_zero (b : mlvpn_reorder_buffer) (hw : WF b) :
    wslot b 0 = slot b b.order_buf.head := by
  unfold wslot
  rw [Nat.add_zero, Nat.mod_eq_of_lt hw.head_lt]

/-- Frame of one pass: everything but `head`, `min_seqn`, `count` and the slot at
`head` stays, and the window moves one slot to the left. -/
theorem advance_spec (b : mlvpn_reorder_buffer) (hw : WF b) :
    (advance b).memsize = b.memsize ∧ (advance b).is_initialized = b.is_initialized ∧
    (advance b).order_buf.size = b.order_buf.size ∧
    (advance b).order_buf.mask = b.order_buf.mask ∧
    (advance b).order_buf.tail = b.order_buf.tail ∧
    (advance b).order_buf.head = (b.order_buf.head + 1) % b.order_buf.size ∧
    (advance b).order_buf.pkts.length = b.order_buf.pkts.length ∧
    (advance b).min_seqn =
      (match wslot b 0 with
       | some p => (p.seq + 1) % 2 ^ 64
       | none => b.min_seqn) ∧
    (∀ q, slot (advance b) q = if q = b.order_buf.head then none else slot b q) := by
  have hmask : ∀ x, x &&& b.order_buf.mask = x % b.order_buf.size := by
    intro x; rw [hw.mask_eq]; exact land_mask x _ hw.pow2
  rw [wslot_zero b hw]
  unfold advance
  cases hd : dequeue_from_order_buf b with
  | none =>
    have hs := (dequeue_eq_none b).1 hd
    refine ⟨rfl, rfl, rfl, rfl, rfl, hmask _, rfl, by rw [hs], ?_⟩
    intro q
    by_cases hq : q = b.order_buf.head
    · subst hq; simp [slot] at hs ⊢; exact hs
    · simp [hq, slot]
  | some r =>
    obtain ⟨b1, p⟩ := r
    obtain ⟨hs, h1, h2, h3, h4, h5, h6, h7, _, h9⟩ := dequeue_eq_some b b1 p hd
    refine ⟨h2, h3, h4, h5, h6, by rw [h7, hmask], by rw [h9]; simp, by rw [hs]; exact h1, ?_⟩
    intro q
    unfold slot
    rw [h9, getD_set_none]
    by_cases hq : q = b.order_buf.head
    · simp [hq]
    · have : ¬ b.order_buf.head = q := fun e => hq e.symm
      simp [hq, this]

theorem advance_wf (b : mlvpn_reorder_buffer) (hw : WF b) : WF (advance b) := by
  obtain ⟨_, _, h3, h4, _, h6, h7, h8, _⟩ := advance_spec b hw
  refine ⟨by rw [h3]; exact hw.pow2, by rw [h3]; exact hw.size_lt, by rw [h4, h3]; exact hw.mask_eq,
    ?_, by rw [h3, h7]; exact hw.cells, ?_⟩
  · rw [h6, h3]; exact Nat.mod_lt _ (pow2_pos _ hw.pow2)
  · rw [h8]
    split
    · exact Nat.mod_lt _ (by decide)
    · exact hw.min_lt

theorem advance_wslot (b : mlvpn_reorder_buffer) (hw : WF b) (j : Nat)
    (hj : j < b.order_buf.size) :
    wslot (advance b) j = if j + 1 < b.order_buf.size then wslot b (j + 1) else none := by
  obtain ⟨_, _, h3, _, _, h6, _, _, h9⟩ := advance_spec b hw
  unfold wslot
  rw [h9, h6, h3, win_pos_succ]
  by_cases hlt : j + 1 < b.order_buf.size
  · have := win_pos_ne_head _ j _ hw.head_lt hlt
    simp [hlt, this]
  · have e : j + 1 = b.order_buf.size := by omega
    rw [e, win_pos_last _ _ hw.head_lt]
    simp

theorem off_of_pos (h p size : Nat) (hh : h < size) (hp : p < size) :
    (((p : Int) - (h : Int)) % (size : Int)).toNat = if h ≤ p then p - h else p + size - h := by
  by_cases c : h ≤ p
  · simp only [c, if_true]
    rw [Int.emod_eq_of_lt (by omega) (by omega)]
    omega
  · simp only [c, if_false]
    rw [← Int.add_emod_self, Int.emod_eq_of_lt (by omega) (by omega)]
    omega

theorem pos_of_off (h j size : Nat) (hh : h < size) (hj : j < size) :
    ((((h + j) % size : Nat) : Int) - (h : Int)) % (size : Int) = (j : Int) := by
  have hm := add_mod_cases h j size hh hj
  by_cases c : h + j < size
  · rw [if_pos c] at hm
    rw [hm, Int.emod_eq_of_lt (by omega) (by omega)]
    omega
  · rw [if_neg c] at hm
    rw [hm, ← Int.add_emod_self, Int.emod_eq_of_lt (by omega) (by omega)]
    omega

theorem winv_iff (b : mlvpn_reorder_buffer) (hw : WF b) : WInv b ↔ WInvG 0 b := by
  constructor
  · intro h j hj pkt hs
    unfold wslot at hs
    have hp : (b.order_buf.head + j) % b.order_buf.size < b.order_buf.size :=
      Nat.mod_lt _ (by omega)
    have := h _ hp pkt hs
    rw [pos_of_off _ _ _ hw.head_lt hj] at this
    simpa using this
  · intro h p hp pkt hs
    rw [off_of_pos _ _ _ hw.head_lt hp]
    have key : ∀ j, j < b.order_buf.size → (b.order_buf.head + j) % b.order_buf.size = p →
        pkt.seq = (b.min_seqn + j) % 2 ^ 64 := by
      intro j hj e
      have := h j hj pkt (by unfold wslot; rw [e]; exact hs)
      simpa using this
    have hh := hw.head_lt
    by_cases c : b.order_buf.head ≤ p
    · simp only [c, if_true]
      apply key _ (by omega)
      rw [add_mod_cases _ _ _ hh (by omega)]
      split <;> omega
    · simp only [c, if_false]
      apply key _ (by omega)
      rw [add_mod_cases _ _ _ hh (by omega)]
      split <;> omega

theorem mod_succ_add (a j M : Nat) : ((a % M + 1) % M + j) % M = (a + (j + 1)) % M := by
  rw [Nat.mod_add_mod, Nat.add_assoc, Nat.mod_add_mod]
  congr 1; omega

theorem advance_winvG (b : mlvpn_reorder_buffer) (hw : WF b) (g : Nat) (h : WInvG g b) :
    WInvG (match wslot b 0 with
           | some _ => 0
           | none => g + 1) (advance b) := by
  obtain ⟨_, _, h3, _, _, _, _, h8, _⟩ := advance_spec b hw
  intro j hj pkt hs
  rw [h3] at hj
  rw [advance_wslot b hw j hj] at hs
  by_cases hlt : j + 1 < b.order_buf.size
  · rw [if_pos hlt] at hs
    have e1 := h (j + 1) hlt pkt hs
    rw [h8]
    cases h0 : wslot b 0 with
    | none => simp only; omega
    | some p =>
      have e0 := h 0 (by omega) p h0
      simp only
      rw [e0, e1]
      simp only [Nat.add_zero]
      rw [mod_succ_add]
  · rw [if_neg hlt] at hs
    cases hs

theorem insert_offset_range (m s : Nat) :
    -(2 : Int) ^ 63 ≤ insert_offset m s ∧ insert_offset m s < (2 : Int) ^ 63 := by
  unfold insert_offset to_int64
  split <;> omega

theorem insert_offset_add (m : Nat) (d : Int) (hm : m < 2 ^ 64)
    (h1 : -(2 : Int) ^ 63 ≤ d) (h2 : d < (2 : Int) ^ 63) :
    insert_offset m ((((m : Int) + d) % (2 : Int) ^ 64).toNat) = d := by
  unfold insert_offset to_int64
  split <;> omega

theorem insert_offset_seq (m s : Nat) (hm : m < 2 ^ 64) (hs : s < 2 ^ 64)
    (h0 : 0 ≤ insert_offset m s) : s = (m + (insert_offset m s).toNat) % 2 ^ 64 := by
  unfold insert_offset to_int64 at h0 ⊢
  split at h0 <;> rename_i c <;> simp only [c, if_true, if_false] <;> omega

theorem insert_offset_self (s : Nat) : insert_offset s s = 0 := by
  unfold insert_offset to_int64
  split <;> omega

theorem insert_accept (b : mlvpn_reorder_buffer) (pkt : mlvpn_pkt_t) (hw : WF b)
    (h0 : 0 ≤ insert_offset (insert_floor b pkt) pkt.seq)
    (h1 : insert_offset (insert_floor b pkt) pkt.seq < (b.order_buf.size : Int)) :
    mlvpn_reorder_insert b pkt =
      ({ min_seqn := insert_floor b pkt
         memsize := b.memsize
         order_buf :=
           { b.order_buf with
             pkts := b.order_buf.pkts.set
               ((b.order_buf.head + (insert_offset (insert_floor b pkt) pkt.seq).toNat)
                  % b.order_buf.size) (some pkt)
             count := (b.order_buf.count + 1) % 2 ^ 32 }
         is_initialized := true }, 0) := by
  have hmask : ∀ x, x &&& b.order_buf.mask = x % b.order_buf.size := by
    intro x; rw [hw.mask_eq]; exact land_mask x _ hw.pow2
  have hlt : ∀ x, x % b.order_buf.size % 2 ^ 32 = x % b.order_buf.size := by
    intro x
    apply Nat.mod_eq_of_lt
    have := Nat.mod_lt x (pow2_pos _ hw.pow2)
    have := hw.size_lt
    omega
  unfold mlvpn_reorder_insert
  cases hi : b.is_initialized
  · simp only [insert_floor, hi, Bool.false_eq_true, if_false] at h0 h1 ⊢
    rw [if_pos ⟨h0, h1⟩]
    simp only [hmask, hlt]
  · simp only [insert_floor, hi, if_true] at h0 h1 ⊢
    rw [if_pos ⟨h0, h1⟩]
    simp only [hmask, hlt, ← hi]

theorem insert_reject (b : mlvpn_reorder_buffer) (pkt : mlvpn_pkt_t)
    (h : ¬ (0 ≤ insert_offset (insert_floor b pkt) pkt.seq ∧
            insert_offset (insert_floor b pkt) pkt.seq < (b.order_buf.size : Int))) :
    mlvpn_reorder_insert b pkt =
      ({ b with min_seqn := insert_floor b pkt, is_initialized := true },
       if insert_offset (insert_floor b pkt) pkt.seq < 0 then -2 else -1) := by
  unfold mlvpn_reorder_insert
  cases hi : b.is_initialized
  · simp only [insert_floor, hi, Bool.false_eq_true, if_false] at h ⊢
    rw [if_neg h]
    split <;> rfl
  · simp only [insert_floor, hi, if_true] at h ⊢
    rw [if_neg h]
    cases b
    simp only at hi
    subst hi
    split <;> rfl

theorem advance_iter (b : mlvpn_reorder_buffer) (hw : WF b) (t : Nat) :
    WF (advance^[t] b) ∧
    (advance^[t] b).memsize = b.memsize ∧
    (advance^[t] b).is_initialized = b.is_initialized ∧
    (advance^[t] b).order_buf.size = b.order_buf.size ∧
    (advance^[t] b).order_buf.mask = b.order_buf.mask ∧
    (advance^[t] b).order_buf.tail = b.order_buf.tail ∧
    (advance^[t] b).order_buf.head = (b.order_buf.head + t) % b.order_buf.size ∧
    (advance^[t] b).order_buf.pkts.length = b.order_buf.pkts.length := by
  induction t with
  | zero =>
    refine ⟨hw, rfl, rfl, rfl, rfl, rfl, ?_, rfl⟩
    simp only [Function.iterate_zero, id_eq, Nat.add_zero]
    exact (Nat.mod_eq_of_lt hw.head_lt).symm
  | succ t ih =>
    obtain ⟨w, h1, h2, h3, h4, h5, h6, h7⟩ := ih
    obtain ⟨a1, a2, a3, a4, a5, a6, a7, _, _⟩ := advance_spec _ w
    rw [Function.iterate_succ_apply']
    refine ⟨advance_wf _ w, a1.trans h1, a2.trans h2, a3.trans h3, a4.trans h4, a5.trans h5, ?_,
      a7.trans h7⟩
    rw [a6, h6, h3, Nat.mod_add_mod, Nat.add_assoc]

theorem advance_iter_wslot (b : mlvpn_reorder_buffer) (hw : WF b) (t j : Nat)
    (hj : j < b.order_buf.size) :
    wslot (advance^[t] b) j = if j + t < b.order_buf.size then wslot b (j + t) else none := by
  induction t generalizing j with
  | zero => simp [hj]
  | succ t ih =>
    obtain ⟨w, _, _, h3, _⟩ := advance_iter b hw t
    rw [Function.iterate_succ_apply', advance_wslot _ w j (by rw [h3]; exact hj), h3]
    by_cases c : j + 1 < b.order_buf.size
    · rw [if_pos c, ih (j + 1) c]
      have e : j + 1 + t = j + (t + 1) := by omega
      rw [e]
    · rw [if_neg c, if_neg (by omega)]

theorem advance_iter_slot (b : mlvpn_reorder_buffer) (hw : WF b) (t q : Nat) :
    slot (advance^[t] b) q =
      if ∃ i, i < t ∧ q = (b.order_buf.head + i) % b.order_buf.size then none else slot b q := by
  induction t with
  | zero => simp
  | succ t ih =>
    obtain ⟨w, _, _, _, _, _, h6, _⟩ := advance_iter b hw t
    obtain ⟨_, _, _, _, _, _, _, _, a9⟩ := advance_spec _ w
    rw [Function.iterate_succ_apply', a9, h6, ih]
    by_cases c : q = (b.order_buf.head + t) % b.order_buf.size
    · rw [if_pos c, if_pos ⟨t, by omega, c⟩]
    · rw [if_neg c]
      by_cases d : ∃ i, i < t ∧ q = (b.order_buf.head + i) % b.order_buf.size
      · obtain ⟨i, hi, e⟩ := d
        rw [if_pos ⟨i, hi, e⟩, if_pos ⟨i, by omega, e⟩]
      · rw [if_neg d, if_neg]
        rintro ⟨i, hi, e⟩
        by_cases f : i = t
        · subst f; exact c e
        · exact d ⟨i, by omega, e⟩

theorem advance_of_dequeue (b b1 : mlvpn_reorder_buffer) (p : mlvpn_pkt_t)
    (h : dequeue_from_order_buf b = some (b1, p)) : advance b = b1 := by
  unfold advance; rw [h]

theorem drain_loop_len_le (n : Nat) (b : mlvpn_reorder_buffer) (hw : WF b) (c : Nat)
    (hc : ∀ j, c ≤ j → j < b.order_buf.size → wslot b j = none) :
    (drain_loop n b).2.length ≤ c := by
  induction n generalizing b c with
  | zero => simp [drain_loop]
  | succ n ih =>
    unfold drain_loop
    cases hd : dequeue_from_order_buf b with
    | none => simp
    | some r =>
      obtain ⟨b1, p⟩ := r
      have ha := advance_of_dequeue b b1 p hd
      have hs := (dequeue_eq_some b b1 p hd).1
      have w1 : WF b1 := ha ▸ advance_wf b hw
      have hsz : b1.order_buf.size = b.order_buf.size := by
        rw [← ha]; exact (advance_spec b hw).2.2.1
      have hpos := pow2_pos _ hw.pow2
      have hc1 : 1 ≤ c := by
        by_contra hc0
        have := hc 0 (by omega) hpos
        rw [wslot_zero b hw, hs] at this
        cases this
      have := ih b1 w1 (c - 1) (by
        intro j h1 h2
        rw [hsz] at h2
        rw [← ha, advance_wslot b hw j h2]
        by_cases c2 : j + 1 < b.order_buf.size
        · rw [if_pos c2]; exact hc (j + 1) (by omega) c2
        · rw [if_neg c2])
      simp only [List.length_cons]
      omega

theorem drain_loop_spec (n : Nat) (b : mlvpn_reorder_buffer) (hw : WF b) :
    (drain_loop n b).2.length ≤ n ∧
    (drain_loop n b).1 = advance^[(drain_loop n b).2.length] b ∧
    (∀ j, j < (drain_loop n b).2.length → wslot b j = (drain_loop n b).2[j]?) ∧
    ((drain_loop n b).2.length < n → wslot (drain_loop n b).1 0 = none) := by
  induction n generalizing b with
  | zero => simp [drain_loop]
  | succ n ih =>
    unfold drain_loop
    cases hd : dequeue_from_order_buf b with
    | none =>
      have hs := (dequeue_eq_none b).1 hd
      simp only [List.length_nil, Function.iterate_zero, id_eq]
      refine ⟨by omega, trivial, ?_, ?_⟩
      · intro j hj; omega
      · intro _; rw [wslot_zero b hw]; exact hs
    | some r =>
      obtain ⟨b1, p⟩ := r
      have ha := advance_of_dequeue b b1 p hd
      have hs := (dequeue_eq_some b b1 p hd).1
      have w1 : WF b1 := ha ▸ advance_wf b hw
      obtain ⟨i1, i2, i3, i4⟩ := ih b1 w1
      simp only [List.length_cons]
      refine ⟨by omega, ?_, ?_, ?_⟩
      · rw [Function.iterate_succ_apply, ha]; exact i2
      · intro j hj
        cases j with
        | zero => simp [wslot_zero b hw, hs]
        | succ j =>
          have hj1 : j < (drain_loop n b1).2.length := by omega
          have hsz : b1.order_buf.size = b.order_buf.size := by
            rw [← ha]; exact (advance_spec b hw).2.2.1
          have hle := drain_loop_len_le n b1 w1 (b.order_buf.size - 1) (by
            intro i h1 h2
            rw [hsz] at h2
            rw [← ha, advance_wslot b hw i h2, if_neg (by omega)])
          have := i3 j hj1
          simp only [List.getElem?_cons_succ]
          rw [← this, ← ha, advance_wslot b hw j (by omega), if_pos (by omega)]
      · intro hlt
        exact i4 (by omega)

theorem zero_cells_all (n : Nat) (l : List (Option mlvpn_pkt_t)) (h : l.length = n) :
    zero_cells n l = List.replicate n none := by
  unfold zero_cells
  rw [h, Nat.min_self, List.drop_of_length_le (by omega), List.append_nil]

theorem fits_bounds (L : Layout) (size : Nat) (hf : Fits L size) :
    2 * size < 2 ^ 32 ∧
    (L.sizeof_buffer + size * L.sizeof_ptr) % 2 ^ 32 = L.sizeof_buffer + size * L.sizeof_ptr ∧
    L.sizeof_buffer + size * L.sizeof_ptr ≤ L.sizeof_buffer + 2 * size * L.sizeof_ptr ∧
    (L.sizeof_buffer + 2 * size * L.sizeof_ptr - L.sizeof_buffer) / L.sizeof_ptr = 2 * size := by
  obtain ⟨hp, hlt⟩ := hf
  have h1 : 2 * size ≤ 2 * size * L.sizeof_ptr := Nat.le_mul_of_pos_right _ hp
  have h2 : 2 * size * L.sizeof_ptr = 2 * (size * L.sizeof_ptr) := Nat.mul_assoc _ _ _
  refine ⟨by omega, ?_, by omega, ?_⟩
  · exact Nat.mod_eq_of_lt (by omega)
  · rw [Nat.add_sub_cancel_left, Nat.mul_div_cancel _ hp]

theorem memset_field_covered (offset width bufsize v : Nat) (h : offset + width ≤ bufsize) :
    memset_field offset width bufsize v = 0 := by
  unfold memset_field
  rw [Nat.min_eq_left (by omega),
    Nat.div_eq_of_lt (Nat.mod_lt _ (Nat.pow_pos (by decide))), Nat.zero_mul]

theorem init_fresh (L : Layout) (size : Nat) (hf : Fits L size) (hs : 0 < size)
    (b : mlvpn_reorder_buffer) (hlen : b.order_buf.pkts.length = 2 * size) :
    mlvpn_reorder_init L b (L.sizeof_buffer + 2 * size * L.sizeof_ptr) size =
      some (fresh L size) := by
  obtain ⟨h1, h2, h3, h4⟩ := fits_bounds L size hf
  obtain ⟨m1, m2, m3, m4, m5, m6⟩ := L.members_inside
  unfold mlvpn_reorder_init fresh
  simp only [h2]
  rw [if_neg (by omega), h4, zero_cells_all _ _ hlen,
    memset_field_covered 0 8 _ _ (by omega),
    memset_field_covered L.offset_head _ _ _ (by omega),
    memset_field_covered L.offset_tail _ _ _ (by omega),
    memset_field_covered L.offset_count _ _ _ (by omega),
    if_pos (by omega)]
  have hm : (size + 2 ^ 32 - 1) % 2 ^ 32 = size - 1 := by omega
  rw [hm]

theorem create_eq (L : Layout) (size : Nat) (hf : Fits L size) (hs : 0 < size) :
    mlvpn_reorder_create L size = fresh L size := by
  obtain ⟨h1, h2, h3, h4⟩ := fits_bounds L size hf
  unfold mlvpn_reorder_create
  have hb : (L.sizeof_buffer + (2 * size % 2 ^ 32) * L.sizeof_ptr) % 2 ^ 32 =
      L.sizeof_buffer + 2 * size * L.sizeof_ptr := by
    rw [Nat.mod_eq_of_lt h1]
    exact Nat.mod_eq_of_lt hf.2
  simp only [hb]
  rw [init_fresh L size hf hs]
  simp only [calloc_buffer, h4, List.length_replicate]

theorem reset_eq (L : Layout) (size : Nat) (hf : Fits L size) (hs : 0 < size)
    (b : mlvpn_reorder_buffer) (h1 : b.order_buf.size = size)
    (h2 : b.memsize = L.sizeof_buffer + 2 * size * L.sizeof_ptr)
    (h3 : b.order_buf.pkts.length = 2 * size) :
    mlvpn_reorder_reset L b = fresh L size := by
  unfold mlvpn_reorder_reset
  rw [h1, h2, init_fresh L size hf hs b h3]

theorem fresh_wf (L : Layout) (size : Nat) (hf : Fits L size) (hp : ∃ k, size = 2 ^ k) :
    WF (fresh L size) := by
  have hs := pow2_pos _ hp
  have := (fits_bounds L size hf).1
  exact ⟨hp, by simp only [fresh]; omega, rfl, hs, by simp [fresh]; omega, by simp [fresh]⟩

theorem fresh_slot (L : Layout) (size q : Nat) : slot (fresh L size) q = none := by
  simp only [slot, fresh, List.getD_eq_getElem?_getD, List.getElem?_replicate]
  split <;> rfl

theorem force_drain_body_spec (i : Nat) (v : force_drain_vars) (hw : WF v.b) :
    (force_drain_body i v).b = advance v.b ∧
    (force_drain_body i v).pkts = v.pkts ++ (wslot v.b 0).toList ∧
    (force_drain_body i v).drain_cnt = v.drain_cnt + (wslot v.b 0).toList.length := by
  rw [wslot_zero _ hw]
  unfold force_drain_body advance
  cases hd : dequeue_from_order_buf v.b with
  | none =>
    have hs := (dequeue_eq_none _).1 hd
    simp [hs]
  | some r =>
    obtain ⟨b1, p⟩ := r
    have hs := (dequeue_eq_some _ b1 p hd).1
    simp [hs]

theorem filterMap_range_succ (f : Nat → Option mlvpn_pkt_t) (t : Nat) :
    (List.range (t + 1)).filterMap f =
      (f 0).toList ++ (List.range t).filterMap (fun j => f (j + 1)) := by
  rw [List.range_succ_eq_map, List.filterMap_cons, List.filterMap_map]
  cases f 0 <;> rfl

theorem force_drain_loop_spec (max_pkts n i : Nat) (v : force_drain_vars) (hw : WF v.b)
    (hn : n ≤ v.b.order_buf.size) :
    ∃ t, t ≤ n ∧
      (force_drain_loop max_pkts n i v).b = advance^[t] v.b ∧
      (t = n ∨ max_pkts ≤ (force_drain_loop max_pkts n i v).drain_cnt) ∧
      (force_drain_loop max_pkts n i v).pkts = v.pkts ++ (List.range t).filterMap (wslot v.b) ∧
      (force_drain_loop max_pkts n i v).drain_cnt =
        v.drain_cnt + ((List.range t).filterMap (wslot v.b)).length ∧
      (v.drain_cnt ≤ max_pkts → (force_drain_loop max_pkts n i v).drain_cnt ≤ max_pkts) := by
  induction n generalizing i v with
  | zero =>
    refine ⟨0, Nat.le_refl _, rfl, Or.inl rfl, ?_, ?_, fun h => h⟩ <;> simp [force_drain_loop]
  | succ n ih =>
    unfold force_drain_loop
    by_cases c : v.drain_cnt < max_pkts
    · rw [if_pos c]
      obtain ⟨e1, e2, e3⟩ := force_drain_body_spec i v hw
      have w1 : WF (force_drain_body i v).b := e1 ▸ advance_wf _ hw
      have hsz : (force_drain_body i v).b.order_buf.size = v.b.order_buf.size := by
        rw [e1]; exact (advance_spec _ hw).2.2.1
      obtain ⟨t, ht, h1, h2, h3, h4, h5⟩ := ih (i + 1) (force_drain_body i v) w1 (by omega)
      have hfm : (List.range t).filterMap (wslot (force_drain_body i v).b) =
          (List.range t).filterMap (fun j => wslot v.b (j + 1)) := by
        apply List.filterMap_congr
        intro j hj
        have hj := List.mem_range.1 hj
        rw [e1, advance_wslot _ hw j (by omega), if_pos (by omega)]
      refine ⟨t + 1, by omega, ?_, ?_, ?_, ?_, ?_⟩
      · rw [h1, e1, Function.iterate_succ_apply]
      · rcases h2 with h2 | h2
        · exact Or.inl (by omega)
        · exact Or.inr h2
      · rw [h3, e2, hfm, filterMap_range_succ, List.append_assoc]
      · rw [h4, e3, hfm, filterMap_range_succ, List.length_append]; omega
      · intro _
        apply h5
        rw [e3]
        cases wslot v.b 0 <;> simp <;> omega
    · rw [if_neg c]
      refine ⟨0, by omega, rfl, Or.inr (by omega), by simp, by simp, fun h => h⟩

theorem force_drain_loop_winv (max_pkts n i : Nat) (v : force_drain_vars) (g : Nat)
    (hw : WF v.b) (hi : i + n = v.b.order_buf.size) (hg : WInvG g v.b)
    (hnone : ∀ j, v.b.order_buf.size - i ≤ j → j < v.b.order_buf.size → wslot v.b j = none)
    (hcnt : g = 0 ∨ v.drain_cnt < max_pkts) :
    WInvG 0 (force_drain_loop max_pkts n i v).b := by
  induction n generalizing i v g with
  | zero =>
    unfold force_drain_loop
    intro j hj pkt hs
    rw [hnone j (by omega) hj] at hs
    cases hs
  | succ n ih =>
    unfold force_drain_loop
    by_cases c : v.drain_cnt < max_pkts
    · rw [if_pos c]
      obtain ⟨e1, _, e3⟩ := force_drain_body_spec i v hw
      have w1 : WF (force_drain_body i v).b := e1 ▸ advance_wf _ hw
      have hsz : (force_drain_body i v).b.order_buf.size = v.b.order_buf.size := by
        rw [e1]; exact (advance_spec _ hw).2.2.1
      have hg1 := advance_winvG _ hw g hg
      rw [← e1] at hg1
      apply ih (i + 1) (force_drain_body i v) _ w1 (by omega) hg1
      · intro j h1 h2
        rw [hsz] at h1 h2
        rw [e1, advance_wslot _ hw j h2]
        by_cases c2 : j + 1 < v.b.order_buf.size
        · rw [if_pos c2]; exact hnone (j + 1) (by omega) c2
        · rw [if_neg c2]
      · rw [e3]
        cases wslot v.b 0 with
        | none => right; simpa using c
        | some p => left; rfl
    · rw [if_neg c]
      rcases hcnt with h | h
      · rw [← h]; exact hg
      · exact absurd h c

theorem win_pos_inj (h j1 j2 size : Nat) (hh : h < size) (h1 : j1 < size) (h2 : j2 < size)
    (e : (h + j1) % size = (h + j2) % size) : j1 = j2 := by
  rw [add_mod_cases h j1 size hh h1, add_mod_cases h j2 size hh h2] at e
  split at e <;> split at e <;> omega

theorem insert_accept_wslot (b : mlvpn_reorder_buffer) (pkt : mlvpn_pkt_t) (hw : WF b)
    (h0 : 0 ≤ insert_offset (insert_floor b pkt) pkt.seq)
    (h1 : insert_offset (insert_floor b pkt) pkt.seq < (b.order_buf.size : Int))
    (j : Nat) (hj : j < b.order_buf.size) :
    wslot (mlvpn_reorder_insert b pkt).1 j =
      if j = (insert_offset (insert_floor b pkt) pkt.seq).toNat then some pkt else wslot b j := by
  rw [insert_accept b pkt hw h0 h1]
  unfold wslot slot
  simp only
  have hd : (insert_offset (insert_floor b pkt) pkt.seq).toNat < b.order_buf.size := by omega
  have hpos : (b.order_buf.head + (insert_offset (insert_floor b pkt) pkt.seq).toNat)
      % b.order_buf.size < b.order_buf.pkts.length := by
    have := Nat.mod_lt (b.order_buf.head + (insert_offset (insert_floor b pkt) pkt.seq).toNat)
      (pow2_pos _ hw.pow2)
    have := hw.cells
    omega
  rw [getD_set_some _ _ _ _ hpos]
  by_cases c : j = (insert_offset (insert_floor b pkt) pkt.seq).toNat
  · rw [if_pos c, if_pos (by rw [c])]
  · rw [if_neg c, if_neg]
    intro e
    exact c (win_pos_inj _ _ _ _ hw.head_lt hd hj e).symm

theorem insert_floor_lt (b : mlvpn_reorder_buffer) (pkt : mlvpn_pkt_t) (hw : WF b)
    (hs : pkt.seq < 2 ^ 64) : insert_floor b pkt < 2 ^ 64 := by
  unfold insert_floor
  split
  · exact hw.min_lt
  · exact hs

theorem uninit_wslot (b : mlvpn_reorder_buffer) (h : ∀ q, slot b q = none) (j : Nat) :
    wslot b j = none := h _

theorem insert_created (L : Layout) (size : Nat) (b : mlvpn_reorder_buffer)
    (pkt : mlvpn_pkt_t) (hs : pkt.seq < 2 ^ 64) (hc : CreatedInv L size b) :
    CreatedInv L size (mlvpn_reorder_insert b pkt).1 := by
  have hw := hc.wf
  have hfl := insert_floor_lt b pkt hw hs
  have hold : ∀ j, j < b.order_buf.size → ∀ q, wslot b j = some q →
      q.seq = (insert_floor b pkt + 0 + j) % 2 ^ 64 := by
    intro j hj q hq
    unfold insert_floor
    cases hi : b.is_initialized
    · rw [uninit_wslot b (hc.uninit hi) j] at hq; cases hq
    · simpa using hc.inv j hj q hq
  by_cases h : 0 ≤ insert_offset (insert_floor b pkt) pkt.seq ∧
      insert_offset (insert_floor b pkt) pkt.seq < (b.order_buf.size : Int)
  · obtain ⟨h0, h1⟩ := h
    have hwsl := insert_accept_wslot b pkt hw h0 h1
    have e := insert_accept b pkt hw h0 h1
    have hseq := insert_offset_seq _ _ hfl hs h0
    rw [e] at hwsl ⊢
    refine ⟨⟨hw.pow2, hw.size_lt, hw.mask_eq, hw.head_lt, ?_, hfl⟩, hc.size_eq, hc.mem_eq, ?_, ?_, ?_⟩
    · simp only [List.length_set]; exact hw.cells
    · simp only [List.length_set]; exact hc.len_eq
    · intro j hj q hq
      have hj' : j < b.order_buf.size := hj
      rw [hwsl j hj'] at hq
      by_cases c : j = (insert_offset (insert_floor b pkt) pkt.seq).toNat
      · rw [if_pos c] at hq
        cases hq
        simp only [Nat.add_zero]
        rw [c]; exact hseq
      · rw [if_neg c] at hq
        exact hold j hj' q hq
    · intro hi; cases hi
  · have e := insert_reject b pkt h
    rw [e]
    refine ⟨⟨hw.pow2, hw.size_lt, hw.mask_eq, hw.head_lt, hw.cells, hfl⟩, hc.size_eq, hc.mem_eq,
      hc.len_eq, ?_, ?_⟩
    · intro j hj q hq
      exact hold j hj q hq
    · intro hi; cases hi

theorem advance_iter_created (L : Layout) (size : Nat) (b : mlvpn_reorder_buffer) (t : Nat)
    (hc : CreatedInv L size b) (hinv : WInvG 0 (advance^[t] b)) :
    CreatedInv L size (advance^[t] b) := by
  obtain ⟨w, h1, h2, h3, _, _, _, h7⟩ := advance_iter b hc.wf t
  refine ⟨w, h3.trans hc.size_eq, h1.trans hc.mem_eq, h7.trans hc.len_eq, hinv, ?_⟩
  intro hi q
  rw [advance_iter_slot b hc.wf t q]
  split
  · rfl
  · exact hc.uninit (h2 ▸ hi) q

theorem advance_iter_dequeues (b : mlvpn_reorder_buffer) (hw : WF b) (hinv : WInvG 0 b)
    (k : Nat) (hk : k ≤ b.order_buf.size) (hocc : ∀ j, j < k → (wslot b j).isSome) :
    WInvG 0 (advance^[k] b) ∧ (advance^[k] b).min_seqn = (b.min_seqn + k) % 2 ^ 64 := by
  induction k with
  | zero =>
    refine ⟨hinv, ?_⟩
    simp only [Function.iterate_zero, id_eq, Nat.add_zero]
    exact (Nat.mod_eq_of_lt hw.min_lt).symm
  | succ k ih =>
    obtain ⟨i1, i2⟩ := ih (by omega) (fun j hj => hocc j (by omega))
    obtain ⟨w, _⟩ := advance_iter b hw k
    have h0 : wslot (advance^[k] b) 0 = wslot b k := by
      rw [advance_iter_wslot b hw k 0 (by omega), Nat.zero_add, if_pos (by omega)]
    have hs := hocc k (by omega)
    rw [← h0] at hs
    obtain ⟨p, hp⟩ := Option.isSome_iff_exists.1 hs
    have a := advance_winvG _ w 0 i1
    have a8 := (advance_spec _ w).2.2.2.2.2.2.2.1
    rw [hp] at a a8
    simp only at a a8
    rw [Function.iterate_succ_apply']
    refine ⟨a, ?_⟩
    rw [a8]
    have := i1 0 (by rw [(advance_iter b hw k).2.2.2.1]; omega) p hp
    rw [this, i2]
    simp only [Nat.add_zero, Nat.mod_mod]
    rw [Nat.mod_add_mod, Nat.add_assoc]

theorem drain_loop_occ (n : Nat) (b : mlvpn_reorder_buffer) (hw : WF b) :
    (drain_loop n b).2.length ≤ b.order_buf.size ∧
    ∀ j, j < (drain_loop n b).2.length → (wslot b j).isSome := by
  refine ⟨drain_loop_len_le n b hw _ (fun j h1 h2 => by omega), ?_⟩
  intro j hj
  rw [(drain_loop_spec n b hw).2.2.1 j hj, List.getElem?_eq_getElem hj]
  rfl

theorem drain_created (L : Layout) (size : Nat) (b : mlvpn_reorder_buffer) (m : Nat)
    (hc : CreatedInv L size b) : CreatedInv L size (mlvpn_reorder_drain b m).b := by
  have hw := hc.wf
  obtain ⟨h1, h2⟩ := drain_loop_occ m b hw
  have e : (mlvpn_reorder_drain b m).b = advance^[(drain_loop m b).2.length] b :=
    (drain_loop_spec m b hw).2.1
  rw [e]
  exact advance_iter_created L size b _ hc (advance_iter_dequeues b hw hc.inv _ h1 h2).1

theorem force_drain_created (L : Layout) (size : Nat) (b : mlvpn_reorder_buffer) (m : Nat)
    (hc : CreatedInv L size b) : CreatedInv L size (force_drain_unchecked b m).b := by
  have hw := hc.wf
  unfold force_drain_unchecked
  simp only
  obtain ⟨t, _, h1, _⟩ := force_drain_loop_spec m b.order_buf.size 0
    { b := b, pkts := [], first_drained := 0, drain_cnt := 0, skipped_holes := 0
      last_packet := b.order_buf.size, drain_log := [] } hw (Nat.le_refl _)
  have hinv := force_drain_loop_winv m b.order_buf.size 0
    { b := b, pkts := [], first_drained := 0, drain_cnt := 0, skipped_holes := 0
      last_packet := b.order_buf.size, drain_log := [] } 0 hw (by simp) hc.inv
    (fun j h1 h2 => by simp only at h1 h2; omega) (Or.inl rfl)
  rw [h1] at hinv ⊢
  exact advance_iter_created L size b t hc hinv

theorem fresh_created (L : Layout) (size : Nat) (hf : Fits L size) (hp : ∃ k, size = 2 ^ k) :
    CreatedInv L size (fresh L size) := by
  refine ⟨fresh_wf L size hf hp, rfl, rfl, by simp [fresh], ?_, fun _ q => fresh_slot L size q⟩
  intro j _ q hq
  rw [uninit_wslot _ (fresh_slot L size) j] at hq
  cases hq

theorem apply_op_created (L : Layout) (size : Nat) (hf : Fits L size) (hp : ∃ k, size = 2 ^ k)
    (b : mlvpn_reorder_buffer) (op : Op) (hc : CreatedInv L size b)
    (hs : ∀ pkt, op = Op.insert pkt → pkt.seq < 2 ^ 64) :
    CreatedInv L size (apply_unchecked L b op) := by
  cases op with
  | insert pkt => exact insert_created L size b pkt (hs pkt rfl) hc
  | drain m => exact drain_created L size b m hc
  | force_drain m => exact force_drain_created L size b m hc
  | reset =>
    show CreatedInv L size (mlvpn_reorder_reset L b)
    rw [reset_eq L size hf (pow2_pos _ hp) b hc.size_eq hc.mem_eq hc.len_eq]
    exact fresh_created L size hf hp

theorem run_ops_created (L : Layout) (size : Nat) (hf : Fits L size) (hp : ∃ k, size = 2 ^ k)
    (ops : List Op) (b : mlvpn_reorder_buffer) (hc : CreatedInv L size b)
    (hs : ∀ pkt, Op.insert pkt ∈ ops → pkt.seq < 2 ^ 64) :
    CreatedInv L size (run_unchecked L b ops) := by
  induction ops generalizing b with
  | nil => exact hc
  | cons op ops ih =>
    unfold run_unchecked
    rw [List.foldl_cons]
    apply ih
    · exact apply_op_created L size hf hp b op hc
        (fun pkt e => hs pkt (by rw [e]; exact List.mem_cons_self _ _))
    · intro pkt hm
      exact hs pkt (List.mem_cons_of_mem _ hm)

theorem insert_in_window (b : mlvpn_reorder_buffer) (pkt : mlvpn_pkt_t) (hw : WF b)
    (hi : b.is_initialized = true)
    (h0 : 0 ≤ insert_offset b.min_seqn pkt.seq)
    (h1 : insert_offset b.min_seqn pkt.seq < (b.order_buf.size : Int)) :
    (mlvpn_reorder_insert b pkt).2 = 0 ∧
    slot (mlvpn_reorder_insert b pkt).1
      ((b.order_buf.head + (insert_offset b.min_seqn pkt.seq).toNat) % b.order_buf.size)
        = some pkt ∧
    (mlvpn_reorder_insert b pkt).1.order_buf.head = b.order_buf.head ∧
    (mlvpn_reorder_insert b pkt).1.min_seqn = b.min_seqn ∧
    (∀ q, q ≠ (b.order_buf.head + (insert_offset b.min_seqn pkt.seq).toNat) % b.order_buf.size →
      slot (mlvpn_reorder_insert b pkt).1 q = slot b q) := by
  have hfl : insert_floor b pkt = b.min_seqn := by unfold insert_floor; rw [if_pos hi]
  rw [← hfl] at h0 h1 ⊢
  have hpos : (b.order_buf.head + (insert_offset (insert_floor b pkt) pkt.seq).toNat)
      % b.order_buf.size < b.order_buf.pkts.length := by
    have := Nat.mod_lt (b.order_buf.head + (insert_offset (insert_floor b pkt) pkt.seq).toNat)
      (pow2_pos _ hw.pow2)
    have := hw.cells
    omega
  rw [insert_accept b pkt hw h0 h1]
  refine ⟨rfl, ?_, rfl, rfl, ?_⟩
  · unfold slot
    simp only
    rw [getD_set_some _ _ _ _ hpos, if_pos rfl]
  · intro q hq
    unfold slot
    simp only
    rw [getD_set_some _ _ _ _ hpos, if_neg (fun e => hq e.symm)]

/-- C2. In-window insert: on an initialized buffer with power-of-two size, a
packet whose signed 64-bit offset `d` from `min_seqn` satisfies `0 ≤ d < size`
is accepted (return value 0) and stored at slot `(head + d) mod size`, whatever
that slot held before; `head`, `min_seqn` and every other slot are unchanged. -/
theorem C2_insert_in_window (b : mlvpn_reorder_buffer) (pkt : mlvpn_pkt_t) (hw : WF b)
    (hi : b.is_initialized = true)
    (h0 : 0 ≤ insert_offset b.min_seqn pkt.seq)
    (h1 : insert_offset b.min_seqn pkt.seq < (b.order_buf.size : Int)) :
    (mlvpn_reorder_insert b pkt).2 = 0 ∧
    slot (mlvpn_reorder_insert b pkt).1
      ((b.order_buf.head + (insert_offset b.min_seqn pkt.seq).toNat) % b.order_buf.size)
        = some pkt ∧
    (mlvpn_reorder_insert b pkt).1.order_buf.head = b.order_buf.head ∧
    (mlvpn_reorder_insert b pkt).1.min_seqn = b.min_seqn ∧
    (∀ q, q ≠ (b.order_buf.head + (insert_offset b.min_seqn pkt.seq).toNat) % b.order_buf.size →
      slot (mlvpn_reorder_insert b pkt).1 q = slot b q) :=
  insert_in_window b pkt hw hi h0 h1

theorem C2_insert_in_window_witness :
    (mlvpn_reorder_insert
        { min_seqn := 6, memsize := 184, is_initialized := true
          order_buf :=
            { size := 8, mask := 7, head := 1, tail := 0, count := 1
              pkts := [none, none, some ⟨7, 1⟩, none, none, none, none, none] } }
        ⟨7, 2⟩).2 = 0 ∧
    slot (mlvpn_reorder_insert
        { min_seqn := 6, memsize := 184, is_initialized := true
          order_buf :=
            { size := 8, mask := 7, head := 1, tail := 0, count := 1
              pkts := [none, none, some ⟨7, 1⟩, none, none, none, none, none] } }
        ⟨7, 2⟩).1 2 = some ⟨7, 2⟩ := by
  have h := C2_insert_in_window
    { min_seqn := 6, memsize := 184, is_initialized := true
      order_buf :=
        { size := 8, mask := 7, head := 1, tail := 0, count := 1
          pkts := [none, none, some ⟨7, 1⟩, none, none, none, none, none] } }
    ⟨7, 2⟩ ⟨⟨3, rfl⟩, by decide, rfl, by decide, by decide, by decide⟩ rfl
    (by decide) (by decide)
  exact ⟨h.1, h.2.1⟩

/-- C3. Insert verdicts: on an initialized buffer, with `d` the integer in
`[-2^63, 2^63)` congruent to `seq - min_seqn` modulo `2 ^ 64`, insert returns
-2 (stale) exactly when `d < 0`, -1 (future) exactly when `size ≤ d`, and 0
(accepted) exactly when `0 ≤ d < size`.  With size 4 and `min_seqn` 0 sequence 10
is future; with `min_seqn` 6 sequence 3 is stale. -/
theorem C3_insert_verdict :
    (∀ (b : mlvpn_reorder_buffer) (pkt : mlvpn_pkt_t) (d : Int),
      b.is_initialized = true → b.min_seqn < 2 ^ 64 → pkt.seq < 2 ^ 64 →
      -(2 : Int) ^ 63 ≤ d → d < (2 : Int) ^ 63 →
      ((pkt.seq : Int) - (b.min_seqn : Int) - d) % (2 : Int) ^ 64 = 0 →
      ((mlvpn_reorder_insert b pkt).2 = -2 ↔ d < 0) ∧
      ((mlvpn_reorder_insert b pkt).2 = -1 ↔ (b.order_buf.size : Int) ≤ d) ∧
      ((mlvpn_reorder_insert b pkt).2 = 0 ↔ 0 ≤ d ∧ d < (b.order_buf.size : Int))) ∧
    (mlvpn_reorder_insert
        { min_seqn := 0, memsize := 120, is_initialized := true
          order_buf := { size := 4, mask := 3, head := 0, tail := 0, count := 0
                         pkts := List.replicate 8 none } }
        ⟨10, 0⟩).2 = -1 ∧
    (mlvpn_reorder_insert
        { min_seqn := 6, memsize := 120, is_initialized := true
          order_buf := { size := 4, mask := 3, head := 2, tail := 0, count := 0
                         pkts := List.replicate 8 none } }
        ⟨3, 0⟩).2 = -2 := by
  refine ⟨?_, by decide, by decide⟩
  intro b pkt d hi hm hs hd1 hd2 hcong
  have hd : insert_offset b.min_seqn pkt.seq = d := by
    unfold insert_offset to_int64
    split <;> omega
  have hfl : insert_floor b pkt = b.min_seqn := by unfold insert_floor; rw [if_pos hi]
  have hval : (mlvpn_reorder_insert b pkt).2 =
      if 0 ≤ d ∧ d < (b.order_buf.size : Int) then 0 else if d < 0 then -2 else -1 := by
    unfold mlvpn_reorder_insert
    simp only [hi, if_true, hd]
    split <;> [rfl; (split <;> rfl)]
  rw [hval]
  by_cases c1 : 0 ≤ d ∧ d < (b.order_buf.size : Int)
  · rw [if_pos c1]
    refine ⟨?_, ?_, ?_⟩
    · constructor
      · intro h; cases h
      · intro h; omega
    · constructor
      · intro h; cases h
      · intro h; omega
    · exact ⟨fun _ => c1, fun _ => rfl⟩
  · rw [if_neg c1]
    by_cases c2 : d < 0
    · rw [if_pos c2]
      refine ⟨⟨fun _ => c2, fun _ => rfl⟩, ?_, ?_⟩
      · constructor
        · intro h; cases h
        · intro h; omega
      · constructor
        · intro h; cases h
        · intro h; exact absurd h c1
    · rw [if_neg c2]
      refine ⟨?_, ?_, ?_⟩
      · constructor
        · intro h; cases h
        · intro h; exact absurd h c2
      · exact ⟨fun _ => by omega, fun _ => rfl⟩
      · constructor
        · intro h; cases h
        · intro h; exact absurd h c1

/-- C4. Rejected inserts: when insert returns stale or future, the circular
buffer (slots, head, count) is untouched and the state differs from the one
before at most by the lazy initialization of `min_seqn` and `is_initialized`; on
an initialized buffer the state is unchanged. -/
theorem C4_rejected_insert_frame (b : mlvpn_reorder_buffer) (pkt : mlvpn_pkt_t)
    (hr : (mlvpn_reorder_insert b pkt).2 = -2 ∨ (mlvpn_reorder_insert b pkt).2 = -1) :
    (mlvpn_reorder_insert b pkt).1.order_buf = b.order_buf ∧
    (mlvpn_reorder_insert b pkt).1.memsize = b.memsize ∧
    (mlvpn_reorder_insert b pkt).1 =
      { b with min_seqn := if b.is_initialized then b.min_seqn else pkt.seq
               is_initialized := true } ∧
    (b.is_initialized = true → (mlvpn_reorder_insert b pkt).1 = b) := by
  by_cases h : 0 ≤ insert_offset (insert_floor b pkt) pkt.seq ∧
      insert_offset (insert_floor b pkt) pkt.seq < (b.order_buf.size : Int)
  · exfalso
    have e : (mlvpn_reorder_insert b pkt).2 = 0 := by
      unfold mlvpn_reorder_insert
      unfold insert_floor at h
      cases hi : b.is_initialized
      · simp only [hi, Bool.false_eq_true, if_false] at h ⊢
        rw [if_pos h]
      · simp only [hi, if_true] at h ⊢
        rw [if_pos h]
    rw [e] at hr
    rcases hr with hr | hr <;> cases hr
  · rw [insert_reject b pkt h]
    refine ⟨rfl, rfl, rfl, ?_⟩
    intro hi
    cases b
    simp only at hi
    subst hi
    rfl

theorem C4_rejected_insert_frame_witness :
    (mlvpn_reorder_insert
        { min_seqn := 6, memsize := 120, is_initialized := true
          order_buf := { size := 4, mask := 3, head := 2, tail := 0, count := 1
                         pkts := [none, none, none, some ⟨7, 1⟩, none, none, none, none] } }
        ⟨3, 0⟩).1 =
      { min_seqn := 6, memsize := 120, is_initialized := true
        order_buf := { size := 4, mask := 3, head := 2, tail := 0, count := 1
                       pkts := [none, none, none, some ⟨7, 1⟩, none, none, none, none] } } :=
  (C4_rejected_insert_frame
      { min_seqn := 6, memsize := 120, is_initialized := true
        order_buf := { size := 4, mask := 3, head := 2, tail := 0, count := 1
                       pkts := [none, none, none, some ⟨7, 1⟩, none, none, none, none] } }
      ⟨3, 0⟩ (Or.inl (by decide))).2.2.2 rfl

/-- C10. Wrap-around safe offset: for a 64-bit `min_seqn` `m` and an integer `d`
in `[-2^63, 2^63)`, the offset insert computes for sequence `(m + d) mod 2^64`
is `d`; so a packet `d` ahead of `min_seqn`, `0 ≤ d < size`, is accepted at slot
`(head + d) mod size` even when its sequence number wrapped.  With
`min_seqn = 2^64 - 3` sequence 0x10 has offset 0x13. -/
theorem C10_wraparound_offset :
    (∀ (m : Nat) (d : Int), m < 2 ^ 64 → -(2 : Int) ^ 63 ≤ d → d < (2 : Int) ^ 63 →
      insert_offset m ((((m : Int) + d) % (2 : Int) ^ 64).toNat) = d) ∧
    (∀ (b : mlvpn_reorder_buffer) (pkt : mlvpn_pkt_t) (d : Nat),
      WF b → b.is_initialized = true → d < b.order_buf.size →
      pkt.seq = (b.min_seqn + d) % 2 ^ 64 →
      (mlvpn_reorder_insert b pkt).2 = 0 ∧
      slot (mlvpn_reorder_insert b pkt).1 ((b.order_buf.head + d) % b.order_buf.size)
        = some pkt) ∧
    insert_offset (2 ^ 64 - 3) 0x10 = 0x13 ∧
    (mlvpn_reorder_insert
        { min_seqn := 2 ^ 64 - 3, memsize := 184, is_initialized := true
          order_buf := { size := 32, mask := 31, head := 30, tail := 0, count := 0
                         pkts := List.replicate 64 none } }
        ⟨0x10, 9⟩).2 = 0 ∧
    slot (mlvpn_reorder_insert
        { min_seqn := 2 ^ 64 - 3, memsize := 184, is_initialized := true
          order_buf := { size := 32, mask := 31, head := 30, tail := 0, count := 0
                         pkts := List.replicate 64 none } }
        ⟨0x10, 9⟩).1 17 = some ⟨0x10, 9⟩ := by
  refine ⟨fun m d hm h1 h2 => insert_offset_add m d hm h1 h2, ?_, by decide, by decide, by decide⟩
  intro b pkt d hw hi hd hseq
  have hsz := hw.size_lt
  have hoff : insert_offset b.min_seqn pkt.seq = (d : Int) := by
    have e : pkt.seq = (((b.min_seqn : Int) + (d : Int)) % (2 : Int) ^ 64).toNat := by
      rw [hseq]; omega
    rw [e]
    exact insert_offset_add b.min_seqn (d : Int) hw.min_lt (by omega) (by omega)
  have h := insert_in_window b pkt hw hi (by rw [hoff]; omega) (by rw [hoff]; omega)
  rw [hoff] at h
  exact ⟨h.1, h.2.1⟩

theorem pos_off_roundtrip (h p size : Nat) (hh : h < size) (hp : p < size) :
    (((p : Int) - (h : Int)) % (size : Int)).toNat < size ∧
    (h + (((p : Int) - (h : Int)) % (size : Int)).toNat) % size = p := by
  rw [off_of_pos h p size hh hp]
  by_cases c : h ≤ p
  · simp only [c, if_true]
    refine ⟨by omega, ?_⟩
    rw [add_mod_cases h (p - h) size hh (by omega)]
    split <;> omega
  · simp only [c, if_false]
    refine ⟨by omega, ?_⟩
    rw [add_mod_cases h (p + size - h) size hh (by omega)]
    split <;> omega

theorem seq_mod_inj (m j k : Nat) (hj : j < 2 ^ 32) (hk : k < 2 ^ 32)
    (e : (m + j) % 2 ^ 64 = (m + k) % 2 ^ 64) : j = k := by
  omega

theorem drain_full_spec (b : mlvpn_reorder_buffer) (max_pkts : Nat) (hw : WF b)
    (hinv : WInv b) :
    (mlvpn_reorder_drain b max_pkts).pkts.length = (mlvpn_reorder_drain b max_pkts).ret ∧
    (mlvpn_reorder_drain b max_pkts).ret ≤ min max_pkts b.order_buf.size ∧
    (∀ j, j < (mlvpn_reorder_drain b max_pkts).ret →
      (mlvpn_reorder_drain b max_pkts).pkts[j]? =
        slot b ((b.order_buf.head + j) % b.order_buf.size)) ∧
    (∀ k, k ≤ min max_pkts b.order_buf.size →
      (∀ j, j < k → (slot b ((b.order_buf.head + j) % b.order_buf.size)).isSome) →
      k ≤ (mlvpn_reorder_drain b max_pkts).ret) ∧
    (∀ j, j < (mlvpn_reorder_drain b max_pkts).ret →
      ((mlvpn_reorder_drain b max_pkts).pkts[j]?).map mlvpn_pkt_t.seq =
        some ((b.min_seqn + j) % 2 ^ 64)) ∧
    ((mlvpn_reorder_drain b max_pkts).ret < max_pkts →
      ∀ p, p < b.order_buf.size → ∀ pkt, slot b p = some pkt →
        pkt.seq ≠ (b.min_seqn + (mlvpn_reorder_drain b max_pkts).ret) % 2 ^ 64) ∧
    (mlvpn_reorder_drain b max_pkts).b.order_buf.head =
      (b.order_buf.head + (mlvpn_reorder_drain b max_pkts).ret) % b.order_buf.size ∧
    (mlvpn_reorder_drain b max_pkts).b.min_seqn =
      (b.min_seqn + (mlvpn_reorder_drain b max_pkts).ret) % 2 ^ 64 ∧
    (∀ j, j < (mlvpn_reorder_drain b max_pkts).ret →
      slot (mlvpn_reorder_drain b max_pkts).b
        ((b.order_buf.head + j) % b.order_buf.size) = none) ∧
    (∀ q, (∀ j, j < (mlvpn_reorder_drain b max_pkts).ret →
        q ≠ (b.order_buf.head + j) % b.order_buf.size) →
      slot (mlvpn_reorder_drain b max_pkts).b q = slot b q) := by
  have hg := (winv_iff b hw).1 hinv
  obtain ⟨s1, s2, s3, s4⟩ := drain_loop_spec max_pkts b hw
  obtain ⟨o1, o2⟩ := drain_loop_occ max_pkts b hw
  obtain ⟨d1, d2⟩ := advance_iter_dequeues b hw hg _ o1 o2
  have hstop : (drain_loop max_pkts b).2.length < max_pkts →
      (drain_loop max_pkts b).2.length < b.order_buf.size →
      wslot b (drain_loop max_pkts b).2.length = none := by
    intro h1 h2
    have := s4 h1
    rw [s2, advance_iter_wslot b hw _ 0 (by omega), Nat.zero_add, if_pos h2] at this
    exact this
  show (drain_loop max_pkts b).2.length = (drain_loop max_pkts b).2.length ∧ _
  refine ⟨rfl, ?_⟩
  show (drain_loop max_pkts b).2.length ≤ min max_pkts b.order_buf.size ∧
    (∀ j, j < (drain_loop max_pkts b).2.length →
      (drain_loop max_pkts b).2[j]? = slot b ((b.order_buf.head + j) % b.order_buf.size)) ∧
    (∀ k, k ≤ min max_pkts b.order_buf.size →
      (∀ j, j < k → (slot b ((b.order_buf.head + j) % b.order_buf.size)).isSome) →
      k ≤ (drain_loop max_pkts b).2.length) ∧
    (∀ j, j < (drain_loop max_pkts b).2.length →
      ((drain_loop max_pkts b).2[j]?).map mlvpn_pkt_t.seq =
        some ((b.min_seqn + j) % 2 ^ 64)) ∧
    ((drain_loop max_pkts b).2.length < max_pkts →
      ∀ p, p < b.order_buf.size → ∀ pkt, slot b p = some pkt →
        pkt.seq ≠ (b.min_seqn + (drain_loop max_pkts b).2.length) % 2 ^ 64) ∧
    (drain_loop max_pkts b).1.order_buf.head =
      (b.order_buf.head + (drain_loop max_pkts b).2.length) % b.order_buf.size ∧
    (drain_loop max_pkts b).1.min_seqn =
      (b.min_seqn + (drain_loop max_pkts b).2.length) % 2 ^ 64 ∧
    (∀ j, j < (drain_loop max_pkts b).2.length →
      slot (drain_loop max_pkts b).1 ((b.order_buf.head + j) % b.order_buf.size) = none) ∧
    (∀ q, (∀ j, j < (drain_loop max_pkts b).2.length →
        q ≠ (b.order_buf.head + j) % b.order_buf.size) →
      slot (drain_loop max_pkts b).1 q = slot b q)
  refine ⟨by omega, fun j hj => (s3 j hj).symm, ?_, ?_, ?_, ?_, ?_, ?_, ?_⟩
  · intro k hk hocc
    by_contra hlt
    have h1 : (drain_loop max_pkts b).2.length < max_pkts := by omega
    have h2 : (drain_loop max_pkts b).2.length < b.order_buf.size := by omega
    have := hocc _ (by omega : (drain_loop max_pkts b).2.length < k)
    have hn := hstop h1 h2
    unfold wslot at hn
    rw [hn] at this
    cases this
  · intro j hj
    have e := s3 j hj
    rw [List.getElem?_eq_getElem hj] at e ⊢
    have := hg j (by omega) _ e
    simp only [Option.map_some', Nat.add_zero] at this ⊢
    rw [this]
  · intro hlt p hp pkt hs hseq
    have hi := hinv p hp pkt hs
    obtain ⟨r1, r2⟩ := pos_off_roundtrip _ p _ hw.head_lt hp
    have hsz := hw.size_lt
    rw [hseq] at hi
    have hk := seq_mod_inj _ _ _ (by omega) (by omega) hi
    have hn := hstop hlt (by omega)
    unfold wslot at hn
    rw [hk, r2, hs] at hn
    cases hn
  · rw [s2]; exact (advance_iter b hw _).2.2.2.2.2.2.1
  · rw [s2]; exact d2
  · intro j hj
    rw [s2, advance_iter_slot b hw, if_pos ⟨j, hj, rfl⟩]
  · intro q hq
    rw [s2, advance_iter_slot b hw, if_neg]
    rintro ⟨i, hi, e⟩
    exact hq i hi e

theorem created_wf_winv (L : Layout) (size : Nat) (ops : List Op)
    (hp : ∃ k, size = 2 ^ k) (hf : Fits L size)
    (hs : ∀ pkt, Op.insert pkt ∈ ops → pkt.seq < 2 ^ 64) :
    WF (run_unchecked L (mlvpn_reorder_create L size) ops) ∧
    WInv (run_unchecked L (mlvpn_reorder_create L size) ops) := by
  have hc := run_ops_created L size hf hp ops (mlvpn_reorder_create L size)
    (by rw [create_eq L size hf (pow2_pos _ hp)]; exact fresh_created L size hf hp) hs
  exact ⟨hc.wf, (winv_iff _ hc.wf).2 hc.inv⟩

/-- C5. In-order drain: on a buffer that satisfies the window invariant, drain
returns `k`, the largest number at most `min max_pkts size` such that the first
`k` slots from `head` are occupied, and outputs the packets of those slots in
that order; their sequence numbers are `min_seqn, ..., min_seqn + k - 1`, and when
`k < max_pkts` no slot held sequence `min_seqn + k`.  Afterwards `head` and
`min_seqn` are advanced by `k`, the emitted slots are empty and all others are
unchanged. -/
theorem C5_drain_contiguous (b : mlvpn_reorder_buffer) (max_pkts : Nat) (hw : WF b)
    (hinv : WInv b) :
    (mlvpn_reorder_drain b max_pkts).pkts.length = (mlvpn_reorder_drain b max_pkts).ret ∧
    (mlvpn_reorder_drain b max_pkts).ret ≤ min max_pkts b.order_buf.size ∧
    (∀ j, j < (mlvpn_reorder_drain b max_pkts).ret →
      (mlvpn_reorder_drain b max_pkts).pkts[j]? =
        slot b ((b.order_buf.head + j) % b.order_buf.size)) ∧
    (∀ k, k ≤ min max_pkts b.order_buf.size →
      (∀ j, j < k → (slot b ((b.order_buf.head + j) % b.order_buf.size)).isSome) →
      k ≤ (mlvpn_reorder_drain b max_pkts).ret) ∧
    (∀ j, j < (mlvpn_reorder_drain b max_pkts).ret →
      ((mlvpn_reorder_drain b max_pkts).pkts[j]?).map mlvpn_pkt_t.seq =
        some ((b.min_seqn + j) % 2 ^ 64)) ∧
    ((mlvpn_reorder_drain b max_pkts).ret < max_pkts →
      ∀ p, p < b.order_buf.size → ∀ pkt, slot b p = some pkt →
        pkt.seq ≠ (b.min_seqn + (mlvpn_reorder_drain b max_pkts).ret) % 2 ^ 64) ∧
    (mlvpn_reorder_drain b max_pkts).b.order_buf.head =
      (b.order_buf.head + (mlvpn_reorder_drain b max_pkts).ret) % b.order_buf.size ∧
    (mlvpn_reorder_drain b max_pkts).b.min_seqn =
      (b.min_seqn + (mlvpn_reorder_drain b max_pkts).ret) % 2 ^ 64 ∧
    (∀ j, j < (mlvpn_reorder_drain b max_pkts).ret →
      slot (mlvpn_reorder_drain b max_pkts).b
        ((b.order_buf.head + j) % b.order_buf.size) = none) ∧
    (∀ q, (∀ j, j < (mlvpn_reorder_drain b max_pkts).ret →
        q ≠ (b.order_buf.head + j) % b.order_buf.size) →
      slot (mlvpn_reorder_drain b max_pkts).b q = slot b q) :=
  drain_full_spec b max_pkts hw hinv

theorem holds_insert (s : Nat) (held : List mlvpn_pkt_t) (b : mlvpn_reorder_buffer)
    (p : mlvpn_pkt_t) (j : Nat) (hb : Holds s held b) (hj : j < b.order_buf.size)
    (hseq : p.seq = (s + j) % 2 ^ 64) (hnew : ∀ q, q ∈ held → q.seq ≠ p.seq) :
    (mlvpn_reorder_insert b p).2 = 0 ∧ Holds s (held ++ [p]) (mlvpn_reorder_insert b p).1 := by
  have hw := hb.wf
  have hsz := hw.size_lt
  have hfl : insert_floor b p = s := by
    unfold insert_floor; rw [if_pos hb.init]; exact hb.floor_eq
  have hs64 : s < 2 ^ 64 := hb.floor_eq ▸ hw.min_lt
  have hoff : insert_offset (insert_floor b p) p.seq = (j : Int) := by
    have e : p.seq = (((s : Int) + (j : Int)) % (2 : Int) ^ 64).toNat := by
      rw [hseq]; omega
    rw [hfl, e]
    exact insert_offset_add s (j : Int) hs64 (by omega) (by omega)
  have h0 : 0 ≤ insert_offset (insert_floor b p) p.seq := by rw [hoff]; omega
  have h1 : insert_offset (insert_floor b p) p.seq < (b.order_buf.size : Int) := by
    rw [hoff]; omega
  have hwsl := insert_accept_wslot b p hw h0 h1
  have e := insert_accept b p hw h0 h1
  rw [hoff] at hwsl
  simp only [Int.toNat_ofNat] at hwsl
  rw [e] at hwsl ⊢
  refine ⟨rfl, ⟨hw.pow2, hw.size_lt, hw.mask_eq, hw.head_lt, ?_, by rw [hfl]; exact hs64⟩, rfl,
    hfl, ?_⟩
  · simp only [List.length_set]; exact hw.cells
  · intro i hi q
    have hi' : i < b.order_buf.size := hi
    rw [hwsl i hi']
    by_cases c : i = j
    · rw [if_pos c]
      subst c
      constructor
      · intro hq
        cases hq
        exact ⟨List.mem_append_right _ (List.mem_singleton_self _), hseq⟩
      · rintro ⟨hm, hq⟩
        rcases List.mem_append.1 hm with hm | hm
        · exact absurd (hq.trans hseq.symm) (hnew q hm)
        · rw [List.mem_singleton.1 hm]
    · rw [if_neg c, hb.slots i hi' q]
      constructor
      · rintro ⟨hm, hq⟩
        exact ⟨List.mem_append_left _ hm, hq⟩
      · rintro ⟨hm, hq⟩
        rcases List.mem_append.1 hm with hm | hm
        · exact ⟨hm, hq⟩
        · rw [List.mem_singleton.1 hm, hseq] at hq
          exact absurd (seq_mod_inj s j i (by omega) (by omega) hq).symm c

theorem holds_insert_all (s : Nat) (rest held : List mlvpn_pkt_t) (b : mlvpn_reorder_buffer)
    (hb : Holds s held b)
    (hwin : ∀ p, p ∈ rest → ∃ j, j < b.order_buf.size ∧ p.seq = (s + j) % 2 ^ 64)
    (hnd : ((held ++ rest).map mlvpn_pkt_t.seq).Nodup) :
    (insert_all b rest).2 = List.replicate rest.length 0 ∧
    Holds s (held ++ rest) (insert_all b rest).1 ∧
    (insert_all b rest).1.order_buf.size = b.order_buf.size ∧
    (insert_all b rest).1.order_buf.head = b.order_buf.head := by
  induction rest generalizing held b with
  | nil =>
    rw [List.append_nil]
    exact ⟨rfl, hb, rfl, rfl⟩
  | cons p rest ih =>
    obtain ⟨j, hj, hseq⟩ := hwin p (List.mem_cons_self _ _)
    have hnew : ∀ q, q ∈ held → q.seq ≠ p.seq := by
      intro q hq e
      rw [List.map_append, List.map_cons] at hnd
      have := (List.nodup_append.1 hnd).2.2
      exact this (List.mem_map_of_mem _ hq)
        (by rw [e]; exact List.mem_cons_self _ _)
    obtain ⟨r1, r2⟩ := holds_insert s held b p j hb hj hseq hnew
    have hfl : insert_floor b p = s := by
      unfold insert_floor; rw [if_pos hb.init]; exact hb.floor_eq
    have hfr : (mlvpn_reorder_insert b p).1.order_buf.size = b.order_buf.size ∧
        (mlvpn_reorder_insert b p).1.order_buf.head = b.order_buf.head := by
      have hs64 : s < 2 ^ 64 := hb.floor_eq ▸ hb.wf.min_lt
      have hsz := hb.wf.size_lt
      have hoff : insert_offset (insert_floor b p) p.seq = (j : Int) := by
        have e : p.seq = (((s : Int) + (j : Int)) % (2 : Int) ^ 64).toNat := by
          rw [hseq]; omega
        rw [hfl, e]
        exact insert_offset_add s (j : Int) hs64 (by omega) (by omega)
      rw [insert_accept b p hb.wf (by rw [hoff]; omega) (by rw [hoff]; omega)]
      exact ⟨rfl, rfl⟩
    have := ih (held ++ [p]) (mlvpn_reorder_insert b p).1 r2
      (fun q hq => by rw [hfr.1]; exact hwin q (List.mem_cons_of_mem _ hq))
      (by rw [List.append_assoc]; exact hnd)
    obtain ⟨i1, i2, i3, i4⟩ := this
    unfold insert_all
    simp only [List.length_cons, List.replicate_succ]
    refine ⟨by rw [i1, r1], ?_, i3.trans hfr.1, i4.trans hfr.2⟩
    rw [List.append_assoc] at i2
    exact i2

theorem fresh_insert_holds (L : Layout) (size : Nat) (hf : Fits L size)
    (hp : ∃ k, size = 2 ^ k) (p : mlvpn_pkt_t) (hs : p.seq < 2 ^ 64) :
    (mlvpn_reorder_insert (fresh L size) p).2 = 0 ∧
    Holds p.seq [p] (mlvpn_reorder_insert (fresh L size) p).1 ∧
    (mlvpn_reorder_insert (fresh L size) p).1.order_buf.size = size ∧
    (mlvpn_reorder_insert (fresh L size) p).1.order_buf.head = 0 := by
  have hw := fresh_wf L size hf hp
  have hpos := pow2_pos _ hp
  have hfl : insert_floor (fresh L size) p = p.seq := rfl
  have hoff : insert_offset (insert_floor (fresh L size) p) p.seq = 0 := by
    rw [hfl]; exact insert_offset_self _
  have hsz : (fresh L size).order_buf.size = size := rfl
  have h0 : 0 ≤ insert_offset (insert_floor (fresh L size) p) p.seq := by rw [hoff]
  have h1 : insert_offset (insert_floor (fresh L size) p) p.seq <
      ((fresh L size).order_buf.size : Int) := by rw [hoff, hsz]; omega
  have hwsl := insert_accept_wslot (fresh L size) p hw h0 h1
  have e := insert_accept (fresh L size) p hw h0 h1
  rw [hoff] at hwsl
  simp only [Int.toNat_zero] at hwsl
  rw [e] at hwsl ⊢
  refine ⟨rfl, ⟨⟨hw.pow2, hw.size_lt, hw.mask_eq, hw.head_lt, ?_, by rw [hfl]; exact hs⟩, rfl,
    hfl, ?_⟩, rfl, rfl⟩
  · simp only [List.length_set]; exact hw.cells
  · intro i hi q
    have hi' : i < size := hi
    have h32 : size < 2 ^ 32 := hw.size_lt
    rw [hwsl i hi', uninit_wslot _ (fresh_slot L size) i]
    by_cases c : i = 0
    · subst c
      rw [if_pos rfl, List.mem_singleton, Nat.add_zero, Nat.mod_eq_of_lt hs]
      constructor
      · intro hq; cases hq; exact ⟨rfl, rfl⟩
      · rintro ⟨hq, _⟩; rw [hq]
    · rw [if_neg c]
      constructor
      · intro hq; cases hq
      · rintro ⟨hm, hq⟩
        rw [List.mem_singleton.1 hm] at hq
        have : (p.seq + 0) % 2 ^ 64 = (p.seq + i) % 2 ^ 64 := by
          rw [Nat.add_zero, Nat.mod_eq_of_lt hs]; exact hq
        exact absurd (seq_mod_inj _ _ _ (by omega) (by omega) this).symm c

theorem seq_range_nodup (s k : Nat) (hk : k < 2 ^ 32) :
    ((List.range k).map (fun j => (s + j) % 2 ^ 64)).Nodup := by
  apply List.Nodup.map_on _ (List.nodup_range k)
  intro x hx y hy e
  have hx := List.mem_range.1 hx
  have hy := List.mem_range.1 hy
  exact seq_mod_inj s x y (by omega) (by omega) e

theorem round_trip (L : Layout) (size s k : Nat) (ps : List mlvpn_pkt_t)
    (max_pkts : Nat) (hp : ∃ e, size = 2 ^ e) (hf : Fits L size) (hs : s < 2 ^ 64)
    (hk : k ≤ size)
    (hperm : (ps.map mlvpn_pkt_t.seq).Perm ((List.range k).map (fun j => (s + j) % 2 ^ 64)))
    (hfirst : (ps.head?).map mlvpn_pkt_t.seq = some s) (hmax : k ≤ max_pkts) :
    (insert_all (mlvpn_reorder_create L size) ps).2 = List.replicate k 0 ∧
    (mlvpn_reorder_drain (insert_all (mlvpn_reorder_create L size) ps).1 max_pkts).ret = k ∧
    (mlvpn_reorder_drain (insert_all (mlvpn_reorder_create L size) ps).1 max_pkts).pkts.Perm ps ∧
    (mlvpn_reorder_drain (insert_all (mlvpn_reorder_create L size) ps).1 max_pkts).pkts.map
      mlvpn_pkt_t.seq = (List.range k).map (fun j => (s + j) % 2 ^ 64) := by
  have hpos := pow2_pos _ hp
  have h32 : size < 2 ^ 32 := (fresh_wf L size hf hp).size_lt
  have hlen : ps.length = k := by
    have := hperm.length_eq
    simpa using this
  have hnd : (ps.map mlvpn_pkt_t.seq).Nodup :=
    (List.Perm.nodup_iff hperm).2 (seq_range_nodup s k (by omega))
  have hmem : ∀ q, q ∈ ps → ∃ j, j < k ∧ q.seq = (s + j) % 2 ^ 64 := by
    intro q hq
    have := (List.Perm.mem_iff hperm).1 (List.mem_map_of_mem mlvpn_pkt_t.seq hq)
    obtain ⟨j, hj, e⟩ := List.mem_map.1 this
    exact ⟨j, List.mem_range.1 hj, e.symm⟩
  rw [create_eq L size hf hpos]
  cases ps with
  | nil => simp at hfirst
  | cons p0 rest =>
    simp only [List.head?_cons, Option.map_some', Option.some.injEq] at hfirst
    have hs0 : p0.seq < 2 ^ 64 := by rw [hfirst]; exact hs
    obtain ⟨f1, f2, f3, f4⟩ := fresh_insert_holds L size hf hp p0 hs0
    rw [hfirst] at f2
    obtain ⟨a1, a2, a3, a4⟩ := holds_insert_all s rest [p0] _ f2
      (fun q hq => by
        obtain ⟨j, hj, e⟩ := hmem q (List.mem_cons_of_mem _ hq)
        exact ⟨j, by rw [f3]; omega, e⟩)
      (by simpa using hnd)
    have hB : insert_all (fresh L size) (p0 :: rest) =
        ((insert_all (mlvpn_reorder_insert (fresh L size) p0).1 rest).1,
         (mlvpn_reorder_insert (fresh L size) p0).2 ::
           (insert_all (mlvpn_reorder_insert (fresh L size) p0).1 rest).2) := rfl
    rw [hB]
    simp only
    simp only [List.singleton_append] at a2
    have hwB := a2.wf
    have hgB : WInvG 0 (insert_all (mlvpn_reorder_insert (fresh L size) p0).1 rest).1 := by
      intro j hj q hq
      rw [a2.floor_eq, Nat.add_zero]
      exact ((a2.slots j hj q).1 hq).2
    have hszB : (insert_all (mlvpn_reorder_insert (fresh L size) p0).1 rest).1.order_buf.size
        = size := a3.trans f3
    obtain ⟨d1, d2, d3, d4, d5, _⟩ := drain_full_spec _ max_pkts hwB ((winv_iff _ hwB).2 hgB)
    rw [hszB] at d2 d3 d4
    have hocc : ∀ j, j < k → ∃ q, q ∈ p0 :: rest ∧
        wslot (insert_all (mlvpn_reorder_insert (fresh L size) p0).1 rest).1 j = some q := by
      intro j hj
      have : (s + j) % 2 ^ 64 ∈ (p0 :: rest).map mlvpn_pkt_t.seq :=
        (List.Perm.mem_iff hperm).2 (List.mem_map.2 ⟨j, List.mem_range.2 hj, rfl⟩)
      obtain ⟨q, hq, e⟩ := List.mem_map.1 this
      exact ⟨q, hq, (a2.slots j (by rw [hszB]; omega) q).2 ⟨hq, e⟩⟩
    have hge : k ≤ (mlvpn_reorder_drain
        (insert_all (mlvpn_reorder_insert (fresh L size) p0).1 rest).1 max_pkts).ret := by
      apply d4 k (by omega)
      intro j hj
      obtain ⟨q, _, hq⟩ := hocc j hj
      unfold wslot at hq
      rw [hszB] at hq
      rw [hq]; rfl
    have hle : (mlvpn_reorder_drain
        (insert_all (mlvpn_reorder_insert (fresh L size) p0).1 rest).1 max_pkts).ret ≤ k := by
      by_contra hc
      have hlt : k < (mlvpn_reorder_drain
        (insert_all (mlvpn_reorder_insert (fresh L size) p0).1 rest).1 max_pkts).ret := by omega
      have e := d3 k hlt
      rw [List.getElem?_eq_getElem (by rw [d1]; exact hlt)] at e
      have hk' : k < size := by omega
      have := (a2.slots k (by rw [hszB]; exact hk') _).1 (by unfold wslot; rw [hszB]; exact e.symm)
      obtain ⟨j, hj, ej⟩ := hmem _ this.1
      rw [this.2] at ej
      have := seq_mod_inj s k j (by omega) (by omega) ej
      omega
    have hret : (mlvpn_reorder_drain
        (insert_all (mlvpn_reorder_insert (fresh L size) p0).1 rest).1 max_pkts).ret = k := by
      omega
    rw [hret] at d1 d3 d5
    have hseqs : (mlvpn_reorder_drain
        (insert_all (mlvpn_reorder_insert (fresh L size) p0).1 rest).1 max_pkts).pkts.map
          mlvpn_pkt_t.seq = (List.range k).map (fun j => (s + j) % 2 ^ 64) := by
      apply List.ext_getElem?
      intro j
      rw [List.getElem?_map, List.getElem?_map]
      by_cases c : j < k
      · rw [d5 j c, a2.floor_eq, List.getElem?_range c]
        rfl
      · rw [List.getElem?_eq_none (by rw [d1]; omega),
          List.getElem?_eq_none (by rw [List.length_range]; omega)]
        rfl
    have hsub : (mlvpn_reorder_drain
        (insert_all (mlvpn_reorder_insert (fresh L size) p0).1 rest).1 max_pkts).pkts ⊆
          p0 :: rest := by
      intro q hq
      obtain ⟨j, hj, e⟩ := List.getElem_of_mem hq
      have hjk : j < k := by rw [← d1]; exact hj
      have e3 := d3 j hjk
      rw [List.getElem?_eq_getElem hj, e] at e3
      exact ((a2.slots j (by rw [hszB]; omega) q).1
        (by unfold wslot; rw [hszB]; exact e3.symm)).1
    have hndo : (mlvpn_reorder_drain
        (insert_all (mlvpn_reorder_insert (fresh L size) p0).1 rest).1 max_pkts).pkts.Nodup := by
      apply List.Nodup.of_map mlvpn_pkt_t.seq
      rw [hseqs]
      exact seq_range_nodup s k (by omega)
    refine ⟨?_, hret, ?_, hseqs⟩
    · rw [a1, f1, ← hlen]; rfl
    · apply List.Subperm.perm_of_length_le (List.subperm_of_subset hndo hsub)
      rw [d1, hlen]

/-- C6 (amended). Reordering round trip: `k` packets (`k` at most the size) whose
sequence numbers are `s, s+1, ..., s+k-1` in any order with sequence `s` first,
inserted into a freshly created buffer of power-of-two size whose allocation
fits 32 bits, are all accepted, and a following drain with `max_pkts ≥ k`
returns `k` and outputs those same packets in increasing sequence order. -/
theorem C6_round_trip (L : Layout) (size s k : Nat) (ps : List mlvpn_pkt_t)
    (max_pkts : Nat) (hp : ∃ e, size = 2 ^ e) (hf : Fits L size) (hs : s < 2 ^ 64)
    (hk1 : 1 ≤ k) (hk : k ≤ size)
    (hperm : (ps.map mlvpn_pkt_t.seq).Perm ((List.range k).map (fun j => (s + j) % 2 ^ 64)))
    (hfirst : (ps.head?).map mlvpn_pkt_t.seq = some s) (hmax : k ≤ max_pkts) :
    (insert_all (mlvpn_reorder_create L size) ps).2 = List.replicate k 0 ∧
    (mlvpn_reorder_drain (insert_all (mlvpn_reorder_create L size) ps).1 max_pkts).ret = k ∧
    (mlvpn_reorder_drain (insert_all (mlvpn_reorder_create L size) ps).1 max_pkts).pkts.Perm ps ∧
    (mlvpn_reorder_drain (insert_all (mlvpn_reorder_create L size) ps).1 max_pkts).pkts.map
      mlvpn_pkt_t.seq = (List.range k).map (fun j => (s + j) % 2 ^ 64) :=
  have _ := hk1
  round_trip L size s k ps max_pkts hp hf hs hk hperm hfirst hmax

theorem C6_round_trip_witness :
    (insert_all (mlvpn_reorder_create lp64 8) [⟨5, 0⟩, ⟨6, 1⟩, ⟨8, 2⟩, ⟨7, 3⟩]).2 = [0, 0, 0, 0] ∧
    (mlvpn_reorder_drain
      (insert_all (mlvpn_reorder_create lp64 8) [⟨5, 0⟩, ⟨6, 1⟩, ⟨8, 2⟩, ⟨7, 3⟩]).1 10).ret = 4 ∧
    (mlvpn_reorder_drain
      (insert_all (mlvpn_reorder_create lp64 8) [⟨5, 0⟩, ⟨6, 1⟩, ⟨8, 2⟩, ⟨7, 3⟩]).1 10).pkts
      = [⟨5, 0⟩, ⟨6, 1⟩, ⟨7, 3⟩, ⟨8, 2⟩] := by
  have h := C6_round_trip lp64 8 5 4 [⟨5, 0⟩, ⟨6, 1⟩, ⟨8, 2⟩, ⟨7, 3⟩] 10 ⟨3, rfl⟩
    ⟨by decide, by decide⟩ (by decide) (by decide) (by decide) (by decide) rfl (by decide)
  exact ⟨h.1, h.2.1, by decide⟩

theorem filterMap_length_filter (f : Nat → Option mlvpn_pkt_t) (l : List Nat) :
    (l.filterMap f).length = (l.filter (fun x => (f x).isSome)).length := by
  induction l with
  | nil => rfl
  | cons a l ih =>
    rw [List.filterMap_cons, List.filter_cons]
    cases h : f a with
    | none => simpa using ih
    | some x => simpa using ih

theorem window_perm (h size : Nat) (hh : h < size) :
    ((List.range size).map (fun j => (h + j) % size)).Perm (List.range size) := by
  rw [List.perm_ext_iff_of_nodup _ (List.nodup_range size)]
  · intro a
    rw [List.mem_map, List.mem_range]
    constructor
    · rintro ⟨j, _, rfl⟩
      exact Nat.mod_lt _ (by omega)
    · intro ha
      obtain ⟨r1, r2⟩ := pos_off_roundtrip h a size hh ha
      exact ⟨_, List.mem_range.2 r1, r2⟩
  · apply List.Nodup.map_on _ (List.nodup_range size)
    intro x hx y hy e
    exact win_pos_inj h x y size hh (List.mem_range.1 hx) (List.mem_range.1 hy) e

theorem window_pkts_length (b : mlvpn_reorder_buffer) (hw : WF b) :
    (window_pkts b).length = occupied b := by
  unfold window_pkts occupied
  have e : (List.range b.order_buf.size).filterMap (wslot b) =
      ((List.range b.order_buf.size).map
        (fun j => (b.order_buf.head + j) % b.order_buf.size)).filterMap (slot b) := by
    rw [List.filterMap_map]; rfl
  rw [e, (List.Perm.filterMap (slot b) (window_perm _ _ hw.head_lt)).length_eq,
    filterMap_length_filter]

theorem range_split (t n : Nat) (h : t ≤ n) :
    List.range n = List.range t ++ List.map (fun x => t + x) (List.range (n - t)) := by
  have := List.range_add t (n - t)
  rw [Nat.add_sub_cancel' h] at this
  exact this

theorem force_drain_pkts (b : mlvpn_reorder_buffer) (max_pkts : Nat) (hw : WF b) :
    (force_drain_unchecked b max_pkts).pkts = (window_pkts b).take max_pkts ∧
    (force_drain_unchecked b max_pkts).ret = min max_pkts (occupied b) ∧
    (force_drain_unchecked b max_pkts).pkts.length =
      (force_drain_unchecked b max_pkts).ret := by
  obtain ⟨t, ht, _, h2, h3, h4, h5⟩ := force_drain_loop_spec max_pkts b.order_buf.size 0
    { b := b, pkts := [], first_drained := 0, drain_cnt := 0, skipped_holes := 0
      last_packet := b.order_buf.size, drain_log := [] } hw (Nat.le_refl _)
  simp only [List.nil_append, Nat.zero_add] at h3 h4 h5
  have h5 := h5 (Nat.zero_le _)
  have hpk : (force_drain_unchecked b max_pkts).pkts = (window_pkts b).take max_pkts := by
    show (force_drain_loop max_pkts b.order_buf.size 0 _).pkts = _
    rw [h3]
    unfold window_pkts
    rcases h2 with h2 | h2
    · subst h2
      rw [List.take_of_length_le (by omega)]
    · rw [range_split t _ ht, List.filterMap_append, List.take_left' (by omega)]
  have hlen : (force_drain_unchecked b max_pkts).pkts.length = min max_pkts (occupied b) := by
    rw [hpk, List.length_take, window_pkts_length b hw]
  have hlen2 : (force_drain_loop max_pkts b.order_buf.size 0
      { b := b, pkts := [], first_drained := 0, drain_cnt := 0, skipped_holes := 0
        last_packet := b.order_buf.size, drain_log := [] }).drain_cnt =
      min max_pkts (occupied b) := by
    rw [h4, ← h3]; exact hlen
  have hocc : occupied b ≤ b.order_buf.size := by
    unfold occupied
    have := List.length_filter_le (fun p => (slot b p).isSome) (List.range b.order_buf.size)
    simpa using this
  have hsz := hw.size_lt
  have hret : (force_drain_unchecked b max_pkts).ret = min max_pkts (occupied b) := by
    show (force_drain_loop max_pkts b.order_buf.size 0 _).drain_cnt % 2 ^ 32 = _
    rw [hlen2]
    apply Nat.mod_eq_of_lt
    omega
  exact ⟨hpk, hret, by rw [hlen, hret]⟩

theorem window_seqs (b : mlvpn_reorder_buffer) (hg : WInvG 0 b) (l : List Nat)
    (hl : ∀ j, j ∈ l → j < b.order_buf.size) :
    (l.filterMap (wslot b)).map mlvpn_pkt_t.seq =
      (l.filter (fun j => (wslot b j).isSome)).map (fun j => (b.min_seqn + j) % 2 ^ 64) := by
  induction l with
  | nil => rfl
  | cons a l ih =>
    have ih := ih (fun j hj => hl j (List.mem_cons_of_mem _ hj))
    rw [List.filterMap_cons, List.filter_cons]
    cases h : wslot b a with
    | none => simpa using ih
    | some x =>
      have := hg a (hl a (List.mem_cons_self _ _)) x h
      simp only [Option.isSome_some, if_true, List.map_cons, ih]
      rw [this, Nat.add_zero]

theorem force_drain_order (b : mlvpn_reorder_buffer) (max_pkts : Nat) (hw : WF b)
    (hinv : WInv b) :
    ∃ offs : List Nat, offs.Pairwise (fun x y => x < y) ∧ (∀ o, o ∈ offs → o < b.order_buf.size) ∧
      (force_drain_unchecked b max_pkts).pkts.map mlvpn_pkt_t.seq =
        offs.map (fun o => (b.min_seqn + o) % 2 ^ 64) := by
  have hg := (winv_iff b hw).1 hinv
  refine ⟨(window_offs b).take max_pkts, ?_, ?_, ?_⟩
  · exact List.Pairwise.sublist (List.take_sublist _ _)
      (List.Pairwise.filter _ (List.pairwise_lt_range _))
  · intro o ho
    have := List.mem_of_mem_take ho
    exact List.mem_range.1 (List.mem_of_mem_filter this)
  · rw [(force_drain_pkts b max_pkts hw).1, List.map_take, List.map_take]
    unfold window_pkts window_offs
    rw [window_seqs b hg _ (fun j hj => List.mem_range.1 hj)]

theorem filterMap_range_single (f : Nat → Option mlvpn_pkt_t) (n i : Nat) (x : mlvpn_pkt_t)
    (hi : i < n) (hx : f i = some x) (hnone : ∀ j, j < n → j ≠ i → f j = none) :
    (List.range n).filterMap f = [x] := by
  rw [range_split (i + 1) n (by omega), List.range_succ, List.filterMap_append,
    List.filterMap_append]
  have h1 : (List.range i).filterMap f = [] := by
    rw [List.filterMap_eq_nil_iff]
    intro a ha
    have := List.mem_range.1 ha
    exact hnone a (by omega) (by omega)
  have h2 : (List.map (fun x => i + 1 + x) (List.range (n - (i + 1)))).filterMap f = [] := by
    rw [List.filterMap_eq_nil_iff]
    intro a ha
    obtain ⟨c, hc, rfl⟩ := List.mem_map.1 ha
    have := List.mem_range.1 hc
    exact hnone _ (by omega) (by omega)
  rw [h1, h2]
  simp [hx]

theorem insert_frame (b : mlvpn_reorder_buffer) (pkt : mlvpn_pkt_t) :
    (mlvpn_reorder_insert b pkt).1.order_buf.size = b.order_buf.size ∧
    (mlvpn_reorder_insert b pkt).1.order_buf.mask = b.order_buf.mask ∧
    (mlvpn_reorder_insert b pkt).1.order_buf.head = b.order_buf.head ∧
    (mlvpn_reorder_insert b pkt).1.order_buf.tail = b.order_buf.tail ∧
    (mlvpn_reorder_insert b pkt).1.memsize = b.memsize ∧
    (mlvpn_reorder_insert b pkt).1.order_buf.pkts.length = b.order_buf.pkts.length ∧
    (mlvpn_reorder_insert b pkt).1.is_initialized = true := by
  unfold mlvpn_reorder_insert
  cases hi : b.is_initialized <;> simp only [Bool.false_eq_true, if_false, if_true] <;>
    split <;> try split
  all_goals simp [hi]

theorem holds_gap (B : mlvpn_reorder_buffer) (p5 p7 : mlvpn_pkt_t) (m : Nat) (h5 : p5.seq = 5)
    (h7 : p7.seq = 7) (hB : Holds 5 [p5, p7] B) (h8 : 8 ≤ B.order_buf.size) (hm : 1 ≤ m) :
    (mlvpn_reorder_drain B 10).pkts = [p5] ∧
    (mlvpn_reorder_drain B 10).b.order_buf.size = B.order_buf.size ∧
    (force_drain_unchecked (mlvpn_reorder_drain B 10).b m).pkts = [p7] := by
  have hw := hB.wf
  have h32 := hw.size_lt
  have hg : WInvG 0 B := by
    intro j hj q hq
    rw [hB.floor_eq, Nat.add_zero]
    exact ((hB.slots j hj q).1 hq).2
  have hs0 : wslot B 0 = some p5 :=
    (hB.slots 0 (by omega) p5).2 ⟨List.mem_cons_self _ _, by rw [h5]; omega⟩
  have hs2 : wslot B 2 = some p7 :=
    (hB.slots 2 (by omega) p7).2
      ⟨List.mem_cons_of_mem _ (List.mem_cons_self _ _), by rw [h7]; omega⟩
  have hnone : ∀ j, j < B.order_buf.size → j ≠ 0 → j ≠ 2 → wslot B j = none := by
    intro j hj hj0 hj2
    cases hq : wslot B j with
    | none => rfl
    | some q =>
      exfalso
      obtain ⟨hm, hsq⟩ := (hB.slots j hj q).1 hq
      have hmod : (5 + j) % 2 ^ 64 = 5 + j := Nat.mod_eq_of_lt (by omega)
      rw [hmod] at hsq
      simp only [List.mem_cons, List.mem_singleton, List.not_mem_nil, or_false] at hm
      rcases hm with rfl | rfl
      · omega
      · omega
  obtain ⟨d1, d2, d3, d4, _⟩ := drain_full_spec B 10 hw ((winv_iff B hw).2 hg)
  have hge : 1 ≤ (mlvpn_reorder_drain B 10).ret := by
    apply d4 1 (by omega)
    intro j hj
    have : j = 0 := by omega
    subst this
    unfold wslot at hs0
    rw [hs0]; rfl
  have hle : (mlvpn_reorder_drain B 10).ret ≤ 1 := by
    by_contra hc
    have e := d3 1 (by omega)
    rw [List.getElem?_eq_getElem (by rw [d1]; omega)] at e
    have hn := hnone 1 (by omega) (by omega) (by omega)
    unfold wslot at hn
    rw [hn] at e
    cases e
  have hret : (mlvpn_reorder_drain B 10).ret = 1 := by omega
  have hp : (mlvpn_reorder_drain B 10).pkts = [p5] := by
    have e := d3 0 (by omega)
    unfold wslot at hs0
    rw [hs0] at e
    rw [hret] at d1
    cases hl : (mlvpn_reorder_drain B 10).pkts with
    | nil => rw [hl] at d1; cases d1
    | cons a l =>
      rw [hl] at d1 e
      simp only [List.length_cons, Nat.add_left_eq_self, List.length_eq_zero] at d1
      simp only [List.getElem?_cons_zero, Option.some.injEq] at e
      rw [d1, e]
  refine ⟨hp, ?_⟩
  have hb1 : (mlvpn_reorder_drain B 10).b = advance^[1] B := by
    have := (drain_loop_spec 10 B hw).2.1
    have hl : (drain_loop 10 B).2.length = 1 := hret
    rw [hl] at this
    exact this
  obtain ⟨w1, _, _, hsz1, _⟩ := advance_iter B hw 1
  rw [hb1]
  refine ⟨hsz1, ?_⟩
  rw [(force_drain_pkts _ m w1).1]
  unfold window_pkts
  rw [hsz1]
  have hws : ∀ j, j < B.order_buf.size →
      wslot (advance^[1] B) j = if j + 1 < B.order_buf.size then wslot B (j + 1) else none :=
    fun j hj => advance_iter_wslot B hw 1 j hj
  rw [filterMap_range_single (wslot (advance^[1] B)) B.order_buf.size 1 p7 (by omega)
    (by rw [hws 1 (by omega), if_pos (by omega)]; exact hs2)
    (by
      intro j hj hj1
      rw [hws j hj]
      by_cases c : j + 1 < B.order_buf.size
      · rw [if_pos c]; exact hnone (j + 1) c (by omega) (by omega)
      · rw [if_neg c])]
  obtain ⟨m1, rfl⟩ : ∃ m1, m = m1 + 1 := ⟨m - 1, by omega⟩
  rw [List.take_succ_cons, List.take_nil]

theorem insert_all_two (b : mlvpn_reorder_buffer) (p q : mlvpn_pkt_t) :
    (insert_all b [p, q]).1 = (mlvpn_reorder_insert (mlvpn_reorder_insert b p).1 q).1 := rfl

theorem gap_scenario (L : Layout) (size r1 r2 m : Nat) (hp : ∃ e, size = 2 ^ e)
    (hf : Fits L size) (h8 : 8 ≤ size) (hm : 1 ≤ m) :
    (mlvpn_reorder_drain
      (insert_all (mlvpn_reorder_create L size) [⟨5, r1⟩, ⟨7, r2⟩]).1 10).pkts = [⟨5, r1⟩] ∧
    (mlvpn_reorder_drain
      (insert_all (mlvpn_reorder_create L size) [⟨5, r1⟩, ⟨7, r2⟩]).1 10).b.order_buf.size
        = size ∧
    (force_drain_unchecked
      (mlvpn_reorder_drain
        (insert_all (mlvpn_reorder_create L size) [⟨5, r1⟩, ⟨7, r2⟩]).1 10).b m).pkts
        = [⟨7, r2⟩] := by
  have hpos := pow2_pos _ hp
  rw [create_eq L size hf hpos, insert_all_two]
  obtain ⟨_, f2, f3, _⟩ := fresh_insert_holds L size hf hp ⟨5, r1⟩
    (by show 5 < 2 ^ 64; omega)
  have f2' : Holds 5 [⟨5, r1⟩] (mlvpn_reorder_insert (fresh L size) ⟨5, r1⟩).1 := f2
  have hj : 2 < (mlvpn_reorder_insert (fresh L size) ⟨5, r1⟩).1.order_buf.size := by
    rw [f3]; omega
  obtain ⟨_, g2⟩ := holds_insert 5 [⟨5, r1⟩] _ ⟨7, r2⟩ 2 f2' hj rfl
    (by
      intro q hq
      rw [List.mem_singleton.1 hq]
      show (5 : Nat) ≠ 7
      omega)
  have hsz : (mlvpn_reorder_insert (mlvpn_reorder_insert (fresh L size) ⟨5, r1⟩).1
      ⟨7, r2⟩).1.order_buf.size = size := by
    rw [(insert_frame _ _).1]; exact f3
  obtain ⟨k1, k2, k3⟩ := holds_gap _ ⟨5, r1⟩ ⟨7, r2⟩ m rfl rfl g2 (by rw [hsz]; exact h8) hm
  exact ⟨k1, k2.trans hsz, k3⟩

theorem fresh_insert_accepted (L : Layout) (size : Nat) (hf : Fits L size)
    (hp : ∃ k, size = 2 ^ k) (p : mlvpn_pkt_t) :
    (mlvpn_reorder_insert (fresh L size) p).2 = 0 ∧
    (mlvpn_reorder_insert (fresh L size) p).1.min_seqn = p.seq := by
  have hw := fresh_wf L size hf hp
  have hpos := pow2_pos _ hp
  have hfl : insert_floor (fresh L size) p = p.seq := rfl
  have hoff : insert_offset (insert_floor (fresh L size) p) p.seq = 0 := by
    rw [hfl]; exact insert_offset_self _
  have hsz : (fresh L size).order_buf.size = size := rfl
  have h0 : 0 ≤ insert_offset (insert_floor (fresh L size) p) p.seq := by rw [hoff]
  have h1 : insert_offset (insert_floor (fresh L size) p) p.seq <
      ((fresh L size).order_buf.size : Int) := by rw [hoff, hsz]; omega
  rw [insert_accept (fresh L size) p hw h0 h1]
  exact ⟨rfl, rfl⟩

theorem drain_out_filterMap (n : Nat) (b : mlvpn_reorder_buffer) (hw : WF b) :
    (drain_loop n b).2 = (List.range (drain_loop n b).2.length).filterMap (wslot b) := by
  have h3 := (drain_loop_spec n b hw).2.2.1
  generalize (drain_loop n b).2 = out at h3
  induction out using List.reverseRecOn with
  | nil => rfl
  | append_singleton l a ih =>
    have hl : (l ++ [a]).length = l.length + 1 := by simp
    rw [hl, List.range_succ, List.filterMap_append]
    have e := h3 l.length (by rw [hl]; omega)
    rw [List.getElem?_append_right (Nat.le_refl _), Nat.sub_self] at e
    simp only [List.getElem?_cons_zero] at e
    rw [← ih]
    · simp [e]
    · intro j hj
      have := h3 j (by rw [hl]; omega)
      rw [List.getElem?_append_left hj] at this
      exact this

theorem drain_shape (b : mlvpn_reorder_buffer) (m : Nat) (hw : WF b) :
    ∃ t, t ≤ b.order_buf.size ∧ (mlvpn_reorder_drain b m).b = advance^[t] b ∧
      (mlvpn_reorder_drain b m).pkts = (List.range t).filterMap (wslot b) :=
  ⟨(drain_loop m b).2.length, (drain_loop_occ m b hw).1, (drain_loop_spec m b hw).2.1,
    drain_out_filterMap m b hw⟩

theorem force_drain_shape (b : mlvpn_reorder_buffer) (m : Nat) (hw : WF b) :
    ∃ t, t ≤ b.order_buf.size ∧ (force_drain_unchecked b m).b = advance^[t] b ∧
      (force_drain_unchecked b m).pkts = (List.range t).filterMap (wslot b) ∧
      (t = b.order_buf.size ∨ m ≤ (force_drain_unchecked b m).pkts.length) := by
  obtain ⟨t, ht, h1, h2, h3, h4, _⟩ := force_drain_loop_spec m b.order_buf.size 0
    { b := b, pkts := [], first_drained := 0, drain_cnt := 0, skipped_holes := 0
      last_packet := b.order_buf.size, drain_log := [] } hw (Nat.le_refl _)
  simp only [List.nil_append, Nat.zero_add] at h3 h4
  refine ⟨t, ht, h1, h3, ?_⟩
  rcases h2 with h2 | h2
  · exact Or.inl h2
  · right
    show m ≤ (force_drain_loop m b.order_buf.size 0 _).pkts.length
    rw [h3, ← h4]; exact h2

theorem advance_iter_min (b : mlvpn_reorder_buffer) (hw : WF b) (t : Nat)
    (ht : t ≤ b.order_buf.size) :
    (advance^[t] b).min_seqn =
      match ((List.range t).filterMap (wslot b)).getLast? with
      | some p => (p.seq + 1) % 2 ^ 64
      | none => b.min_seqn := by
  induction t with
  | zero => rfl
  | succ t ih =>
    have ih := ih (by omega)
    obtain ⟨w, _⟩ := advance_iter b hw t
    have h0 : wslot (advance^[t] b) 0 = wslot b t := by
      rw [advance_iter_wslot b hw t 0 (by omega), Nat.zero_add, if_pos (by omega)]
    have a8 := (advance_spec _ w).2.2.2.2.2.2.2.1
    rw [Function.iterate_succ_apply', a8, h0, List.range_succ, List.filterMap_append]
    cases hs : wslot b t with
    | none =>
      simp only [List.filterMap_cons, hs, List.filterMap_nil, List.append_nil]
      exact ih
    | some p =>
      simp only [List.filterMap_cons, hs, List.filterMap_nil]
      rw [List.getLast?_append]
      rfl

theorem emit_step (b : mlvpn_reorder_buffer) (hw : WF b) (hg : WInvG 0 b) (size : Nat)
    (hsz : b.order_buf.size = size) (hnw : b.min_seqn + size ≤ 2 ^ 64)
    (hsb : ∀ j, j < size → ∀ p, wslot b j = some p → p.seq + size < 2 ^ 64)
    (t : Nat) (ht : t ≤ size) :
    (((List.range t).filterMap (wslot b)).map mlvpn_pkt_t.seq).Pairwise (fun x y => x < y) ∧
    (∀ p, p ∈ (List.range t).filterMap (wslot b) →
      b.min_seqn ≤ p.seq ∧ p.seq < (advance^[t] b).min_seqn) ∧
    b.min_seqn ≤ (advance^[t] b).min_seqn ∧
    (advance^[t] b).min_seqn ≤ b.min_seqn + t ∧
    (advance^[t] b).min_seqn + size ≤ 2 ^ 64 ∧
    (∀ j, j < size → ∀ p, wslot (advance^[t] b) j = some p → p.seq + size < 2 ^ 64) := by
  subst hsz
  induction t with
  | zero =>
    refine ⟨by simp, by simp, Nat.le_refl _, by simp, hnw, hsb⟩
  | succ t ih =>
    obtain ⟨i1, i2, i3, i4, i5, i6⟩ := ih (by omega)
    obtain ⟨w, _, _, h3, _⟩ := advance_iter b hw t
    have h0 : wslot (advance^[t] b) 0 = wslot b t := by
      rw [advance_iter_wslot b hw t 0 (by omega), Nat.zero_add, if_pos (by omega)]
    have a8 := (advance_spec _ w).2.2.2.2.2.2.2.1
    rw [h0] at a8
    have hsl : ∀ j, j < b.order_buf.size → ∀ p,
        wslot (advance^[t + 1] b) j = some p → p.seq + b.order_buf.size < 2 ^ 64 := by
      intro j hj p hp
      rw [advance_iter_wslot b hw (t + 1) j hj] at hp
      by_cases c : j + (t + 1) < b.order_buf.size
      · rw [if_pos c] at hp; exact hsb _ c p hp
      · rw [if_neg c] at hp; cases hp
    rw [Function.iterate_succ_apply', List.range_succ, List.filterMap_append]
    rw [Function.iterate_succ_apply'] at hsl
    cases hs : wslot b t with
    | none =>
      rw [hs] at a8
      simp only [List.filterMap_cons, hs, List.filterMap_nil, List.append_nil]
      simp only at a8
      rw [a8]
      exact ⟨i1, i2, i3, by omega, i5, hsl⟩
    | some p =>
      rw [hs] at a8
      simp only at a8
      have hp1 := hg t (by omega) p hs
      have hp2 := hsb t (by omega) p hs
      have hmod : (b.min_seqn + 0 + t) % 2 ^ 64 = b.min_seqn + t :=
        Nat.mod_eq_of_lt (by omega)
      rw [hmod] at hp1
      have hmin : (advance (advance^[t] b)).min_seqn = p.seq + 1 := by
        rw [a8]; exact Nat.mod_eq_of_lt (by omega)
      simp only [List.filterMap_cons, hs, List.filterMap_nil, List.map_append, List.map_cons,
        List.map_nil]
      refine ⟨?_, ?_, by omega, by omega, by omega, hsl⟩
      · rw [List.pairwise_append]
        refine ⟨i1, List.pairwise_singleton _ _, ?_⟩
        intro x hx y hy
        obtain ⟨q, hq, rfl⟩ := List.mem_map.1 hx
        rw [List.mem_singleton.1 hy]
        have := (i2 q hq).2
        omega
      · intro q hq
        rcases List.mem_append.1 hq with hq | hq
        · have := i2 q hq
          omega
        · rw [List.mem_singleton.1 hq]
          omega

theorem emit_inv_shape (L : Layout) (size : Nat) (b : mlvpn_reorder_buffer)
    (E : List mlvpn_pkt_t) (h : EmitInv L size b E) (t : Nat) (ht : t ≤ size)
    (hc : CreatedInv L size (advance^[t] b)) :
    EmitInv L size (advance^[t] b) (E ++ (List.range t).filterMap (wslot b)) := by
  have hw := h.created.wf
  obtain ⟨s1, s2, s3, _, s5, s6⟩ := emit_step b hw h.created.inv size h.created.size_eq
    h.nowrap h.slots_bound t ht
  refine ⟨hc, s5, s6, ?_, ?_, ?_⟩
  · intro e he
    rcases List.mem_append.1 he with he | he
    · have := h.emitted_lt e he; omega
    · exact (s2 e he).2
  · rw [List.map_append, List.pairwise_append]
    refine ⟨h.sorted, s1, ?_⟩
    intro x hx y hy
    obtain ⟨q, hq, rfl⟩ := List.mem_map.1 hx
    obtain ⟨r, hr, rfl⟩ := List.mem_map.1 hy
    have := h.emitted_lt q hq
    have := (s2 r hr).1
    omega
  · intro hi
    have hi' : b.is_initialized = false := by
      rw [← (advance_iter b hw t).2.2.1]; exact hi
    rw [h.uninit_nil hi', List.nil_append, List.filterMap_eq_nil_iff]
    intro a _
    exact uninit_wslot b (h.created.uninit hi') a

theorem emit_inv_insert (L : Layout) (size : Nat) (b : mlvpn_reorder_buffer)
    (E : List mlvpn_pkt_t) (h : EmitInv L size b E) (pkt : mlvpn_pkt_t)
    (hs : pkt.seq + size < 2 ^ 64) :
    EmitInv L size (mlvpn_reorder_insert b pkt).1 E := by
  have hw := h.created.wf
  have hsz := h.created.size_eq
  have hc := insert_created L size b pkt (by omega) h.created
  have hmin : (mlvpn_reorder_insert b pkt).1.min_seqn = insert_floor b pkt := by
    by_cases c : 0 ≤ insert_offset (insert_floor b pkt) pkt.seq ∧
        insert_offset (insert_floor b pkt) pkt.seq < (b.order_buf.size : Int)
    · rw [insert_accept b pkt hw c.1 c.2]
    · rw [insert_reject b pkt c]
  have hws : ∀ j, j < size → ∀ p, wslot (mlvpn_reorder_insert b pkt).1 j = some p →
      p = pkt ∨ wslot b j = some p := by
    intro j hj p hp
    by_cases c : 0 ≤ insert_offset (insert_floor b pkt) pkt.seq ∧
        insert_offset (insert_floor b pkt) pkt.seq < (b.order_buf.size : Int)
    · rw [insert_accept_wslot b pkt hw c.1 c.2 j (by omega)] at hp
      split at hp
      · left; cases hp; rfl
      · right; exact hp
    · rw [insert_reject b pkt c] at hp
      right; exact hp
  refine ⟨hc, ?_, ?_, ?_, h.sorted, ?_⟩
  · rw [hmin]; unfold insert_floor
    split
    · exact h.nowrap
    · omega
  · intro j hj p hp
    rcases hws j hj p hp with rfl | hp
    · exact hs
    · exact h.slots_bound j hj p hp
  · intro e he
    rw [hmin]; unfold insert_floor
    cases hi : b.is_initialized
    · rw [h.uninit_nil hi] at he; cases he
    · simp only [if_true]; exact h.emitted_lt e he
  · intro hi
    rw [(insert_frame b pkt).2.2.2.2.2.2] at hi
    cases hi

theorem run_emit_sorted (L : Layout) (size : Nat) (ops : List Op)
    (b : mlvpn_reorder_buffer) (E : List mlvpn_pkt_t) (h : EmitInv L size b E)
    (hnr : Op.reset ∉ ops) (hs : ∀ pkt, Op.insert pkt ∈ ops → pkt.seq + size < 2 ^ 64) :
    ((E ++ run_emit_unchecked L b ops).map mlvpn_pkt_t.seq).Pairwise (fun x y => x < y) := by
  induction ops generalizing b E with
  | nil =>
    unfold run_emit_unchecked
    rw [List.append_nil]; exact h.sorted
  | cons op ops ih =>
    have hnr' : Op.reset ∉ ops := fun hm => hnr (List.mem_cons_of_mem _ hm)
    have hs' : ∀ pkt, Op.insert pkt ∈ ops → pkt.seq + size < 2 ^ 64 :=
      fun pkt hm => hs pkt (List.mem_cons_of_mem _ hm)
    have hw := h.created.wf
    unfold run_emit_unchecked
    rw [← List.append_assoc]
    cases op with
    | insert pkt =>
      have := emit_inv_insert L size b E h pkt (hs pkt (List.mem_cons_self _ _))
      simp only [emit_unchecked, List.append_nil, apply_unchecked]
      exact ih _ E this hnr' hs'
    | drain m =>
      obtain ⟨t, ht, e1, e2⟩ := drain_shape b m hw
      have hc := drain_created L size b m h.created
      simp only [emit_unchecked, apply_unchecked]
      rw [e2]
      rw [e1] at hc ⊢
      exact ih _ _ (emit_inv_shape L size b E h t (by rw [← h.created.size_eq]; exact ht) hc)
        hnr' hs'
    | force_drain m =>
      obtain ⟨t, ht, e1, e2, _⟩ := force_drain_shape b m hw
      have hc := force_drain_created L size b m h.created
      simp only [emit_unchecked, apply_unchecked]
      rw [e2]
      rw [e1] at hc ⊢
      exact ih _ _ (emit_inv_shape L size b E h t (by rw [← h.created.size_eq]; exact ht) hc)
        hnr' hs'
    | reset => exact absurd (List.mem_cons_self _ _) hnr

theorem fresh_emit_inv (L : Layout) (size : Nat) (hf : Fits L size) (hp : ∃ k, size = 2 ^ k) :
    EmitInv L size (fresh L size) [] := by
  have h32 := (fresh_wf L size hf hp).size_lt
  have hsz : (fresh L size).order_buf.size = size := rfl
  refine ⟨fresh_created L size hf hp, ?_, ?_, ?_, by simp, fun _ => rfl⟩
  · show 0 + size ≤ 2 ^ 64
    omega
  · intro j _ p hp'
    rw [uninit_wslot _ (fresh_slot L size) j] at hp'
    cases hp'
  · intro e he; cases he

theorem emission_order_unchecked (L : Layout) (size : Nat) (ops : List Op)
    (hp : ∃ k, size = 2 ^ k) (hf : Fits L size) (hnr : Op.reset ∉ ops)
    (hs : ∀ pkt, Op.insert pkt ∈ ops → pkt.seq + size < 2 ^ 64) :
    ((run_emit_unchecked L (mlvpn_reorder_create L size) ops).map mlvpn_pkt_t.seq).Pairwise
      (fun x y => x ≤ y) := by
  have h := run_emit_sorted L size ops (fresh L size) [] (fresh_emit_inv L size hf hp) hnr hs
  rw [List.nil_append, ← create_eq L size hf (pow2_pos _ hp)] at h
  exact List.Pairwise.imp (fun hxy => Nat.le_of_lt hxy) h

theorem drain_reads_lt (n : Nat) (b : mlvpn_reorder_buffer) (hw : WF b) :
    ∀ i, i ∈ drain_reads n b → i < b.order_buf.size := by
  induction n generalizing b with
  | zero => intro i hi; cases hi
  | succ n ih =>
    intro i hi
    unfold drain_reads at hi
    rcases List.mem_cons.1 hi with rfl | hi
    · exact hw.head_lt
    · cases hd : dequeue_from_order_buf b with
      | none => rw [hd] at hi; cases hi
      | some r =>
        obtain ⟨b1, p⟩ := r
        rw [hd] at hi
        have ha := advance_of_dequeue b b1 p hd
        have w1 : WF b1 := ha ▸ advance_wf b hw
        have hsz : b1.order_buf.size = b.order_buf.size := by
          rw [← ha]; exact (advance_spec b hw).2.2.1
        rw [← hsz]
        exact ih b1 w1 i hi

theorem force_drain_reads_lt (max_pkts n i : Nat) (v : force_drain_vars) (hw : WF v.b) :
    ∀ q, q ∈ force_drain_reads max_pkts n i v → q < v.b.order_buf.size := by
  induction n generalizing i v with
  | zero => intro q hq; cases hq
  | succ n ih =>
    intro q hq
    unfold force_drain_reads at hq
    by_cases c : v.drain_cnt < max_pkts
    · rw [if_pos c] at hq
      rcases List.mem_cons.1 hq with rfl | hq
      · exact hw.head_lt
      · obtain ⟨e1, _, _⟩ := force_drain_body_spec i v hw
        have w1 : WF (force_drain_body i v).b := e1 ▸ advance_wf _ hw
        have hsz : (force_drain_body i v).b.order_buf.size = v.b.order_buf.size := by
          rw [e1]; exact (advance_spec _ hw).2.2.1
        rw [← hsz]
        exact ih (i + 1) _ w1 q hq
    · rw [if_neg c] at hq; cases hq

theorem index_safety_unchecked (L : Layout) (size : Nat) (ops : List Op)
    (hp : ∃ k, size = 2 ^ k) (hf : Fits L size)
    (hs : ∀ pkt, Op.insert pkt ∈ ops → pkt.seq < 2 ^ 64) :
    (run_unchecked L (mlvpn_reorder_create L size) ops).order_buf.size = size ∧
    (run_unchecked L (mlvpn_reorder_create L size) ops).order_buf.head < size ∧
    (∀ m i, i ∈ drain_reads m (run_unchecked L (mlvpn_reorder_create L size) ops) → i < size) ∧
    (∀ m i, i ∈ force_drain_reads m size 0
        { b := run_unchecked L (mlvpn_reorder_create L size) ops, pkts := [], first_drained := 0
          drain_cnt := 0, skipped_holes := 0, last_packet := size, drain_log := [] } →
      i < size) ∧
    (∀ pkt : mlvpn_pkt_t,
      (0 ≤ insert_offset (insert_floor (run_unchecked L (mlvpn_reorder_create L size) ops) pkt) pkt.seq ∧
        insert_offset (insert_floor (run_unchecked L (mlvpn_reorder_create L size) ops) pkt) pkt.seq
          < (size : Int) →
        ((run_unchecked L (mlvpn_reorder_create L size) ops).order_buf.head +
          (insert_offset (insert_floor (run_unchecked L (mlvpn_reorder_create L size) ops) pkt)
            pkt.seq).toNat) % size < size ∧
        (mlvpn_reorder_insert (run_unchecked L (mlvpn_reorder_create L size) ops) pkt).1.order_buf.pkts
          = (run_unchecked L (mlvpn_reorder_create L size) ops).order_buf.pkts.set
              (((run_unchecked L (mlvpn_reorder_create L size) ops).order_buf.head +
                (insert_offset (insert_floor (run_unchecked L (mlvpn_reorder_create L size) ops) pkt)
                  pkt.seq).toNat) % size) (some pkt)) ∧
      (¬ (0 ≤ insert_offset (insert_floor (run_unchecked L (mlvpn_reorder_create L size) ops) pkt)
              pkt.seq ∧
          insert_offset (insert_floor (run_unchecked L (mlvpn_reorder_create L size) ops) pkt) pkt.seq
            < (size : Int)) →
        (mlvpn_reorder_insert (run_unchecked L (mlvpn_reorder_create L size) ops) pkt).1.order_buf.pkts
          = (run_unchecked L (mlvpn_reorder_create L size) ops).order_buf.pkts)) := by
  have hpos := pow2_pos _ hp
  have hc := run_ops_created L size hf hp ops (mlvpn_reorder_create L size)
    (by rw [create_eq L size hf hpos]; exact fresh_created L size hf hp) hs
  generalize run_unchecked L (mlvpn_reorder_create L size) ops = b at hc
  have hw := hc.wf
  have hsz := hc.size_eq
  refine ⟨hsz, hsz ▸ hw.head_lt, ?_, ?_, ?_⟩
  · intro m i hi
    rw [← hsz]; exact drain_reads_lt m b hw i hi
  · intro m i hi
    rw [← hsz] at hi ⊢
    exact force_drain_reads_lt m _ 0 _ hw i hi
  · intro pkt
    rw [← hsz]
    constructor
    · rintro ⟨h0, h1⟩
      refine ⟨Nat.mod_lt _ (hsz ▸ hpos), ?_⟩
      rw [insert_accept b pkt hw h0 h1]
    · intro h
      rw [insert_reject b pkt h]

theorem force_drain_body_acct (i : Nat) (v : force_drain_vars) :
    (force_drain_body i v).b.order_buf.size = v.b.order_buf.size ∧
    (force_drain_body i v).b.order_buf.mask = v.b.order_buf.mask ∧
    (force_drain_body i v).b.order_buf.head =
      (v.b.order_buf.head + 1) &&& v.b.order_buf.mask ∧
    (force_drain_body i v).drain_log = v.drain_log ++
      [(i, if (slot v.b v.b.order_buf.head).isSome then 46 else 69)] ∧
    (((slot v.b v.b.order_buf.head).isSome = true ∧
        (force_drain_body i v).drain_cnt = v.drain_cnt + 1 ∧
        (force_drain_body i v).skipped_holes = v.skipped_holes ∧
        (force_drain_body i v).last_packet = i ∧
        (force_drain_body i v).pkts.length = v.pkts.length + 1) ∨
     (slot v.b v.b.order_buf.head = none ∧
        (force_drain_body i v).drain_cnt = v.drain_cnt ∧
        (force_drain_body i v).skipped_holes = v.skipped_holes + 1 ∧
        (force_drain_body i v).last_packet = v.last_packet ∧
        (force_drain_body i v).pkts = v.pkts ∧
        (force_drain_body i v).b.min_seqn = v.b.min_seqn ∧
        (force_drain_body i v).b.order_buf.count = v.b.order_buf.count ∧
        (force_drain_body i v).b.order_buf.pkts = v.b.order_buf.pkts)) := by
  unfold force_drain_body
  cases hd : dequeue_from_order_buf v.b with
  | none =>
    have hs := (dequeue_eq_none _).1 hd
    rw [hs]
    exact ⟨rfl, rfl, rfl, rfl, Or.inr ⟨rfl, rfl, rfl, rfl, rfl, rfl, rfl, rfl⟩⟩
  | some r =>
    obtain ⟨b1, p⟩ := r
    obtain ⟨hs, _, _, _, h4, h5, _, h7, _, _⟩ := dequeue_eq_some _ b1 p hd
    rw [hs]
    exact ⟨h4, h5, h7, rfl, Or.inl ⟨rfl, rfl, rfl, rfl, by simp⟩⟩

theorem force_drain_loop_acct (max_pkts n i : Nat) (v : force_drain_vars) :
    ∃ t, t ≤ n ∧
      (force_drain_loop max_pkts n i v).drain_log.map Prod.fst =
        v.drain_log.map Prod.fst ++ List.range' i t ∧
      (force_drain_loop max_pkts n i v).drain_cnt +
          (force_drain_loop max_pkts n i v).skipped_holes =
        v.drain_cnt + v.skipped_holes + t ∧
      v.drain_cnt ≤ (force_drain_loop max_pkts n i v).drain_cnt ∧
      ((force_drain_loop max_pkts n i v).drain_cnt = v.drain_cnt ∧
          (force_drain_loop max_pkts n i v).last_packet = v.last_packet ∨
        v.drain_cnt < (force_drain_loop max_pkts n i v).drain_cnt ∧
          i ≤ (force_drain_loop max_pkts n i v).last_packet ∧
          (force_drain_loop max_pkts n i v).last_packet < i + t) ∧
      (v.drain_cnt ≤ max_pkts → (force_drain_loop max_pkts n i v).drain_cnt ≤ max_pkts) ∧
      (force_drain_loop max_pkts n i v).pkts.length + v.drain_cnt =
        v.pkts.length + (force_drain_loop max_pkts n i v).drain_cnt ∧
      (t = n ∨ max_pkts ≤ (force_drain_loop max_pkts n i v).drain_cnt) ∧
      (force_drain_loop max_pkts n i v).b.order_buf.size = v.b.order_buf.size := by
  induction n generalizing i v with
  | zero =>
    refine ⟨0, Nat.le_refl _, ?_, rfl, Nat.le_refl _, Or.inl ⟨rfl, rfl⟩, fun h => h, rfl,
      Or.inl rfl, rfl⟩
    simp [force_drain_loop]
  | succ n ih =>
    unfold force_drain_loop
    by_cases c : v.drain_cnt < max_pkts
    · rw [if_pos c]
      obtain ⟨b1, _, _, b4, b5⟩ := force_drain_body_acct i v
      obtain ⟨t, ht, h1, h2, h3, h4, h5, h6, h7, h8⟩ := ih (i + 1) (force_drain_body i v)
      refine ⟨t + 1, by omega, ?_, ?_, ?_, ?_, ?_, ?_, ?_, h8.trans b1⟩
      · rw [h1, b4, List.map_append, List.append_assoc]
        rfl
      · rcases b5 with ⟨_, c1, c2, _⟩ | ⟨_, c1, c2, _⟩ <;> omega
      · rcases b5 with ⟨_, c1, _⟩ | ⟨_, c1, _⟩ <;> omega
      · rcases b5 with ⟨_, c1, _, c3, _⟩ | ⟨_, c1, _, c3, _⟩
        · right
          rcases h4 with ⟨e1, e2⟩ | ⟨e1, e2, e3⟩
          · exact ⟨by omega, by omega, by omega⟩
          · exact ⟨by omega, by omega, by omega⟩
        · rcases h4 with ⟨e1, e2⟩ | ⟨e1, e2, e3⟩
          · left; exact ⟨by omega, by omega⟩
          · right; exact ⟨by omega, by omega, by omega⟩
      · intro _
        apply h5
        rcases b5 with ⟨_, c1, _⟩ | ⟨_, c1, _⟩ <;> omega
      · rcases b5 with ⟨_, c1, _, _, c4⟩ | ⟨_, c1, _, _, c4, _⟩
        · omega
        · rw [c4] at h6; omega
      · rcases h7 with h7 | h7
        · exact Or.inl (by omega)
        · exact Or.inr h7
    · rw [if_neg c]
      refine ⟨0, by omega, by simp, rfl, Nat.le_refl _, Or.inl ⟨rfl, rfl⟩, fun h => h, rfl,
        Or.inr (by omega), rfl⟩

theorem force_drain_reads_length (max_pkts n i : Nat) (v : force_drain_vars) :
    (force_drain_reads max_pkts n i v).length ≤ n := by
  induction n generalizing i v with
  | zero => simp [force_drain_reads]
  | succ n ih =>
    unfold force_drain_reads
    split
    · simp only [List.length_cons]
      have := ih (i + 1) (force_drain_body i v)
      omega
    · simp

theorem force_drain_acct (b : mlvpn_reorder_buffer) (max_pkts : Nat) :
    ∃ t, t ≤ b.order_buf.size ∧
      (force_drain_unchecked b max_pkts).drain_log.map Prod.fst =
        List.range' 0 t ++
          [((force_drain_loop max_pkts b.order_buf.size 0
              { b := b, pkts := [], first_drained := 0, drain_cnt := 0, skipped_holes := 0
                last_packet := b.order_buf.size, drain_log := [] }).last_packet + 1) % 2 ^ 64] ∧
      (force_drain_unchecked b max_pkts).pkts.length ≤ t ∧
      (force_drain_unchecked b max_pkts).pkts.length ≤ max_pkts ∧
      (force_drain_unchecked b max_pkts).log_drain_cnt =
        (force_drain_unchecked b max_pkts).pkts.length ∧
      ((force_drain_unchecked b max_pkts).pkts.length = 0 ∧
          (force_drain_loop max_pkts b.order_buf.size 0
            { b := b, pkts := [], first_drained := 0, drain_cnt := 0, skipped_holes := 0
              last_packet := b.order_buf.size, drain_log := [] }).last_packet
            = b.order_buf.size ∨
        (force_drain_loop max_pkts b.order_buf.size 0
            { b := b, pkts := [], first_drained := 0, drain_cnt := 0, skipped_holes := 0
              last_packet := b.order_buf.size, drain_log := [] }).last_packet < t) ∧
      (t = b.order_buf.size ∨ max_pkts ≤ (force_drain_unchecked b max_pkts).pkts.length) := by
  obtain ⟨t, ht, h1, h2, _, h4, h5, h6, h7, _⟩ := force_drain_loop_acct max_pkts b.order_buf.size 0
    { b := b, pkts := [], first_drained := 0, drain_cnt := 0, skipped_holes := 0
      last_packet := b.order_buf.size, drain_log := [] }
  simp only [List.map_nil, List.nil_append, List.length_nil, Nat.zero_add, Nat.add_zero] at *
  have h5 := h5 (Nat.zero_le _)
  refine ⟨t, ht, ?_, ?_, ?_, ?_, ?_, ?_⟩
  · show List.map Prod.fst ((force_drain_loop max_pkts b.order_buf.size 0 _).drain_log ++ _) = _
    rw [List.map_append, h1]
    rfl
  · show (force_drain_loop max_pkts b.order_buf.size 0 _).pkts.length ≤ t
    omega
  · show (force_drain_loop max_pkts b.order_buf.size 0 _).pkts.length ≤ max_pkts
    omega
  · show (force_drain_loop max_pkts b.order_buf.size 0 _).drain_cnt =
      (force_drain_loop max_pkts b.order_buf.size 0 _).pkts.length
    omega
  · show (force_drain_loop max_pkts b.order_buf.size 0 _).pkts.length = 0 ∧ _ ∨ _
    rcases h4 with ⟨e1, e2⟩ | ⟨e1, _, e3⟩
    · left; exact ⟨by omega, e2⟩
    · right; exact e3
  · show t = b.order_buf.size ∨
      max_pkts ≤ (force_drain_loop max_pkts b.order_buf.size 0 _).pkts.length
    rcases h7 with h7 | h7
    · exact Or.inl h7
    · right; omega

theorem force_drain_bounded_unchecked :
    (∀ (b : mlvpn_reorder_buffer) (max_pkts : Nat),
      (force_drain_reads max_pkts b.order_buf.size 0
        { b := b, pkts := [], first_drained := 0, drain_cnt := 0, skipped_holes := 0
          last_packet := b.order_buf.size, drain_log := [] }).length ≤ b.order_buf.size ∧
      (force_drain_unchecked b max_pkts).drain_log.length ≤ b.order_buf.size + 1 ∧
      (force_drain_unchecked b max_pkts).pkts.length ≤ min max_pkts b.order_buf.size ∧
      (force_drain_unchecked b max_pkts).ret ≤ min max_pkts b.order_buf.size) ∧
    (∀ (i : Nat) (v : force_drain_vars),
      (force_drain_body i v).b.order_buf.head =
        (v.b.order_buf.head + 1) &&& v.b.order_buf.mask) ∧
    (∀ (i : Nat) (v : force_drain_vars), WF v.b →
      (force_drain_body i v).b.order_buf.head =
        (v.b.order_buf.head + 1) % v.b.order_buf.size) := by
  refine ⟨?_, fun i v => (force_drain_body_acct i v).2.2.1, ?_⟩
  · intro b max_pkts
    obtain ⟨t, ht, h1, h2, h3, h4, _⟩ := force_drain_acct b max_pkts
    have hlen := congrArg List.length h1
    simp only [List.length_map, List.length_append, List.length_range', List.length_singleton]
      at hlen
    refine ⟨force_drain_reads_length _ _ _ _, by omega, by omega, ?_⟩
    have : (force_drain_unchecked b max_pkts).ret ≤
        (force_drain_unchecked b max_pkts).log_drain_cnt := Nat.mod_le _ _
    omega
  · intro i v hw
    rw [(force_drain_body_acct i v).2.2.1, hw.mask_eq]
    exact land_mask _ _ hw.pow2

theorem hollow_wf (c : Nat) (hp : ∃ k, c = 2 ^ k) (hc : c < 2 ^ 32) : WF (hollow c) :=
  ⟨hp, hc, rfl, pow2_pos _ hp, by simp [hollow], by simp [hollow]⟩

theorem hollow_slot (c q : Nat) : slot (hollow c) q = none := by
  simp only [slot, hollow, List.getD_eq_getElem?_getD, List.getElem?_replicate]
  split <;> rfl

theorem hollow_force_drain_pkts (c m : Nat) (hp : ∃ k, c = 2 ^ k) (hc : c < 2 ^ 32) :
    (force_drain_unchecked (hollow c) m).pkts = [] := by
  rw [(force_drain_pkts _ m (hollow_wf c hp hc)).1]
  have : window_pkts (hollow c) = [] := by
    unfold window_pkts
    rw [List.filterMap_eq_nil_iff]
    intro a _
    exact uninit_wslot _ (hollow_slot c) a
  rw [this, List.take_nil]

theorem trace_bounds_unchecked (c m : Nat) (hp : ∃ k, c = 2 ^ k) (hc : c < 2 ^ 32) :
    (∀ b : mlvpn_reorder_buffer, WF b → b.order_buf.size = c →
      ∀ e, e ∈ (force_drain_unchecked b m).drain_log → e.1 < m) ↔ c + 2 ≤ m := by
  constructor
  · intro h
    by_contra hlt
    have hw := hollow_wf c hp hc
    obtain ⟨t, _, h1, _, _, _, h5, _⟩ := force_drain_acct (hollow c) m
    have hpk := hollow_force_drain_pkts c m hp hc
    have hlast : (force_drain_loop m (hollow c).order_buf.size 0
        { b := hollow c, pkts := [], first_drained := 0, drain_cnt := 0, skipped_holes := 0
          last_packet := (hollow c).order_buf.size, drain_log := [] }).last_packet = c := by
      rcases h5 with ⟨_, e⟩ | e
      · exact e
      · exfalso
        obtain ⟨t', _, _, _, _, h4', _, h6', _⟩ := force_drain_loop_acct m
          (hollow c).order_buf.size 0
          { b := hollow c, pkts := [], first_drained := 0, drain_cnt := 0, skipped_holes := 0
            last_packet := (hollow c).order_buf.size, drain_log := [] }
        have hz : (force_drain_loop m (hollow c).order_buf.size 0
          { b := hollow c, pkts := [], first_drained := 0, drain_cnt := 0, skipped_holes := 0
            last_packet := (hollow c).order_buf.size, drain_log := [] }).pkts = [] := hpk
        rw [hz] at h6'
        simp only [List.length_nil, Nat.zero_add, Nat.add_zero] at h6' h4'
        rcases h4' with ⟨_, e2⟩ | ⟨e1, _⟩
        · have hsz : (hollow c).order_buf.size = c := rfl
          rw [e2] at e
          omega
        · omega
    rw [hlast] at h1
    have hmem : (c + 1) % 2 ^ 64 ∈
        (force_drain_unchecked (hollow c) m).drain_log.map Prod.fst := by
      rw [h1]; simp
    obtain ⟨e, he, hfst⟩ := List.mem_map.1 hmem
    have := h (hollow c) hw rfl e he
    rw [hfst, Nat.mod_eq_of_lt (by omega)] at this
    omega
  · intro hm b hw hsz e he
    obtain ⟨t, ht, h1, _, _, _, h5, _⟩ := force_drain_acct b m
    have hmem : e.1 ∈ (force_drain_unchecked b m).drain_log.map Prod.fst :=
      List.mem_map_of_mem _ he
    rw [h1] at hmem
    rcases List.mem_append.1 hmem with hmem | hmem
    · have := (List.mem_range'_1.1 hmem).2
      omega
    · rw [List.mem_singleton.1 hmem]
      have : ∀ x, x % 2 ^ 64 ≤ x := fun x => Nat.mod_le _ _
      have := this ((force_drain_loop m b.order_buf.size 0
        { b := b, pkts := [], first_drained := 0, drain_cnt := 0, skipped_holes := 0
          last_packet := b.order_buf.size, drain_log := [] }).last_packet + 1)
      rcases h5 with ⟨_, e2⟩ | e2 <;> omega

theorem dequeue_step (b b1 : mlvpn_reorder_buffer) (p : mlvpn_pkt_t) (g : Nat) (hw : WF b)
    (hg : WInvG g b) (hd : dequeue_from_order_buf b = some (b1, p)) :
    b1.min_seqn = (b.min_seqn + g + 1) % 2 ^ 64 ∧
    b1.order_buf.head = (b.order_buf.head + 1) % b.order_buf.size ∧
    WInvG 0 b1 := by
  have ha := advance_of_dequeue b b1 p hd
  obtain ⟨hs, h1, _⟩ := dequeue_eq_some b b1 p hd
  have h0 : wslot b 0 = some p := by rw [wslot_zero b hw]; exact hs
  have hseq := hg 0 (pow2_pos _ hw.pow2) p h0
  have hinv := advance_winvG b hw g hg
  rw [h0, ha] at hinv
  refine ⟨?_, ?_, hinv⟩
  · rw [h1, hseq, Nat.add_zero, Nat.mod_add_mod]
  · rw [← ha]; exact (advance_spec b hw).2.2.2.2.2.1

theorem skip_step (i : Nat) (v : force_drain_vars) (g : Nat) (hw : WF v.b)
    (hg : WInvG g v.b) (hs : slot v.b v.b.order_buf.head = none) :
    (force_drain_body i v).b.min_seqn = v.b.min_seqn ∧
    (force_drain_body i v).b.order_buf.head =
      (v.b.order_buf.head + 1) % v.b.order_buf.size ∧
    WInvG (g + 1) (force_drain_body i v).b := by
  obtain ⟨e1, _, _⟩ := force_drain_body_spec i v hw
  have h0 : wslot v.b 0 = none := by rw [wslot_zero _ hw]; exact hs
  have hinv := advance_winvG _ hw g hg
  have a8 := (advance_spec _ hw).2.2.2.2.2.2.2.1
  rw [h0] at hinv a8
  rw [e1]
  exact ⟨a8, (advance_spec _ hw).2.2.2.2.2.1, hinv⟩

/-- C14 (amended). On a buffer that satisfies the window invariant, each
dequeue of drain raises `min_seqn` by exactly 1 modulo `2 ^ 64` and moves `head`
on by one slot: after `i` dequeues `min_seqn` and `head` are advanced by `i`.  In
force-drain every pass moves `head` on by one slot; a skipped empty slot leaves
`min_seqn` unchanged, and a dequeue sets `min_seqn` to the sequence number of its
packet plus 1, which is `min_seqn + g + 1` when `g` holes were skipped since the
previous dequeue. -/
theorem C14_step_advance :
    (∀ (b b1 : mlvpn_reorder_buffer) (p : mlvpn_pkt_t), WF b → WInv b →
      dequeue_from_order_buf b = some (b1, p) →
      b1.min_seqn = (b.min_seqn + 1) % 2 ^ 64 ∧
      b1.order_buf.head = (b.order_buf.head + 1) % b.order_buf.size ∧ WInv b1) ∧
    (∀ (b : mlvpn_reorder_buffer) (m i : Nat), WF b → WInv b →
      i ≤ (mlvpn_reorder_drain b m).ret →
      (advance^[i] b).min_seqn = (b.min_seqn + i) % 2 ^ 64 ∧
      (advance^[i] b).order_buf.head = (b.order_buf.head + i) % b.order_buf.size ∧
      (i = (mlvpn_reorder_drain b m).ret → (mlvpn_reorder_drain b m).b = advance^[i] b)) ∧
    (∀ (b b1 : mlvpn_reorder_buffer) (p : mlvpn_pkt_t) (g : Nat), WF b → WInvG g b →
      dequeue_from_order_buf b = some (b1, p) →
      b1.min_seqn = (p.seq + 1) % 2 ^ 64 ∧
      b1.min_seqn = (b.min_seqn + g + 1) % 2 ^ 64 ∧
      b1.order_buf.head = (b.order_buf.head + 1) % b.order_buf.size ∧ WInvG 0 b1) ∧
    (∀ (i : Nat) (v : force_drain_vars) (g : Nat), WF v.b → WInvG g v.b →
      slot v.b v.b.order_buf.head = none →
      (force_drain_body i v).b.min_seqn = v.b.min_seqn ∧
      (force_drain_body i v).b.order_buf.head =
        (v.b.order_buf.head + 1) % v.b.order_buf.size ∧
      WInvG (g + 1) (force_drain_body i v).b) := by
  refine ⟨?_, ?_, ?_, fun i v g hw hg hs => skip_step i v g hw hg hs⟩
  · intro b b1 p hw hinv hd
    have hg := (winv_iff b hw).1 hinv
    obtain ⟨h1, h2, h3⟩ := dequeue_step b b1 p 0 hw hg hd
    have w1 : WF b1 := advance_of_dequeue b b1 p hd ▸ advance_wf b hw
    exact ⟨by rw [h1, Nat.add_zero], h2, (winv_iff b1 w1).2 h3⟩
  · intro b m i hw hinv hi
    have hg := (winv_iff b hw).1 hinv
    obtain ⟨o1, o2⟩ := drain_loop_occ m b hw
    have hi' : i ≤ (drain_loop m b).2.length := hi
    obtain ⟨_, d2⟩ := advance_iter_dequeues b hw hg i (by omega) (fun j hj => o2 j (by omega))
    refine ⟨d2, (advance_iter b hw i).2.2.2.2.2.2.1, ?_⟩
    intro e
    have := (drain_loop_spec m b hw).2.1
    rw [e]; exact this
  · intro b b1 p g hw hg hd
    obtain ⟨h1, h2, h3⟩ := dequeue_step b b1 p g hw hg hd
    exact ⟨(dequeue_eq_some b b1 p hd).2.1, h1, h2, h3⟩

theorem advance_hole (b : mlvpn_reorder_buffer) (hw : WF b)
    (hs : slot b b.order_buf.head = none) :
    advance b =
      { b with order_buf :=
          { b.order_buf with head := (b.order_buf.head + 1) % b.order_buf.size } } := by
  unfold advance
  rw [(dequeue_eq_none b).2 hs]
  simp only
  rw [hw.mask_eq, land_mask _ _ hw.pow2]

theorem advance_iter_holes (b : mlvpn_reorder_buffer) (hw : WF b) (t : Nat)
    (ht : t ≤ b.order_buf.size) (hs : ∀ j, j < t → wslot b j = none) :
    advance^[t] b =
      { b with order_buf :=
          { b.order_buf with head := (b.order_buf.head + t) % b.order_buf.size } } := by
  induction t with
  | zero =>
    simp only [Function.iterate_zero, id_eq, Nat.add_zero]
    rw [Nat.mod_eq_of_lt hw.head_lt]
  | succ t ih =>
    have ih := ih (by omega) (fun j hj => hs j (by omega))
    obtain ⟨w, _⟩ := advance_iter b hw t
    have h0 : wslot (advance^[t] b) 0 = wslot b t := by
      rw [advance_iter_wslot b hw t 0 (by omega), Nat.zero_add, if_pos (by omega)]
    have hn : slot (advance^[t] b) (advance^[t] b).order_buf.head = none := by
      rw [← wslot_zero _ w, h0]; exact hs t (by omega)
    rw [Function.iterate_succ_apply', advance_hole _ w hn, ih]
    simp only
    rw [Nat.mod_add_mod, Nat.add_assoc]

theorem force_drain_loop_zero (n i : Nat) (v : force_drain_vars) :
    force_drain_loop 0 n i v = v := by
  cases n with
  | zero => rfl
  | succ n =>
    unfold force_drain_loop
    rw [if_neg (Nat.not_lt_zero _)]

theorem force_drain_zero_max (b : mlvpn_reorder_buffer) :
    (force_drain_unchecked b 0).b = b ∧ (force_drain_unchecked b 0).ret = 0 ∧
    (force_drain_unchecked b 0).pkts = [] := by
  refine ⟨?_, ?_, ?_⟩ <;> simp [force_drain_unchecked, force_drain_loop_zero]

theorem occupied_zero_holes (b : mlvpn_reorder_buffer) (hw : WF b) (h : occupied b = 0) :
    ∀ j, j < b.order_buf.size → wslot b j = none := by
  have hl := window_pkts_length b hw
  rw [h] at hl
  have := List.length_eq_zero.1 hl
  unfold window_pkts at this
  rw [List.filterMap_eq_nil_iff] at this
  intro j hj
  exact this j (List.mem_range.2 hj)

theorem slot_as_wslot (b : mlvpn_reorder_buffer) (hw : WF b) (q : Nat)
    (hq : q < b.order_buf.size) :
    ∃ j, j < b.order_buf.size ∧ q = (b.order_buf.head + j) % b.order_buf.size := by
  obtain ⟨r1, r2⟩ := pos_off_roundtrip b.order_buf.head q _ hw.head_lt hq
  exact ⟨_, r1, r2.symm⟩

theorem full_scan_unchecked :
    (∀ (b : mlvpn_reorder_buffer) (max_pkts : Nat), WF b → occupied b < max_pkts →
      (force_drain_unchecked b max_pkts).ret = occupied b ∧
      (force_drain_unchecked b max_pkts).pkts.length = occupied b ∧
      (force_drain_unchecked b max_pkts).drain_log.length = b.order_buf.size + 1 ∧
      (∀ q, q < b.order_buf.size → slot (force_drain_unchecked b max_pkts).b q = none) ∧
      (force_drain_unchecked b max_pkts).b.order_buf.head = b.order_buf.head ∧
      (force_drain_unchecked b max_pkts).b.min_seqn =
        (match (force_drain_unchecked b max_pkts).pkts.getLast? with
         | some p => (p.seq + 1) % 2 ^ 64
         | none => b.min_seqn)) ∧
    (∀ (b : mlvpn_reorder_buffer) (max_pkts : Nat), WF b → occupied b = 0 →
      (force_drain_unchecked b max_pkts).ret = 0 ∧
      (force_drain_unchecked b max_pkts).pkts = [] ∧
      (force_drain_unchecked b max_pkts).b = b) := by
  have key : ∀ (b : mlvpn_reorder_buffer) (max_pkts : Nat), WF b → occupied b < max_pkts →
      (force_drain_unchecked b max_pkts).b = advance^[b.order_buf.size] b ∧
      (force_drain_unchecked b max_pkts).pkts =
        (List.range b.order_buf.size).filterMap (wslot b) ∧
      (force_drain_unchecked b max_pkts).pkts.length = occupied b ∧
      (force_drain_unchecked b max_pkts).ret = occupied b := by
    intro b max_pkts hw hlt
    obtain ⟨t, ht, e1, e2, e3⟩ := force_drain_shape b max_pkts hw
    obtain ⟨_, f2, f3⟩ := force_drain_pkts b max_pkts hw
    have hlen : (force_drain_unchecked b max_pkts).pkts.length = occupied b := by
      rw [f3, f2]; omega
    have htt : t = b.order_buf.size := by
      rcases e3 with e3 | e3
      · exact e3
      · omega
    subst htt
    exact ⟨e1, e2, hlen, by rw [f2]; omega⟩
  constructor
  · intro b max_pkts hw hlt
    obtain ⟨k1, k2, k3, k4⟩ := key b max_pkts hw hlt
    refine ⟨k4, k3, ?_, ?_, ?_, ?_⟩
    · obtain ⟨t, ht, h1, _, _, _, _, h7⟩ := force_drain_acct b max_pkts
      have hlen := congrArg List.length h1
      simp only [List.length_map, List.length_append, List.length_range',
        List.length_singleton] at hlen
      rcases h7 with h7 | h7
      · omega
      · omega
    · intro q hq
      obtain ⟨j, hj, e⟩ := slot_as_wslot b hw q hq
      rw [k1, advance_iter_slot b hw, if_pos ⟨j, hj, e⟩]
    · rw [k1, (advance_iter b hw _).2.2.2.2.2.2.1, win_pos_last _ _ hw.head_lt]
    · rw [k1, k2]
      exact advance_iter_min b hw _ (Nat.le_refl _)
  · intro b max_pkts hw h0
    by_cases hm : max_pkts = 0
    · subst hm
      obtain ⟨z1, z2, z3⟩ := force_drain_zero_max b
      exact ⟨z2, z3, z1⟩
    · obtain ⟨k1, k2, k3, k4⟩ := key b max_pkts hw (by omega)
      refine ⟨by rw [k4, h0], ?_, ?_⟩
      · apply List.length_eq_zero.1
        rw [k3, h0]
      · rw [k1, advance_iter_holes b hw _ (Nat.le_refl _)
          (fun j hj => occupied_zero_holes b hw h0 j hj), win_pos_last _ _ hw.head_lt]

theorem window_pkts_advance (b : mlvpn_reorder_buffer) (hw : WF b) (t : Nat)
    (ht : t ≤ b.order_buf.size) :
    (List.range t).filterMap (wslot b) ++ window_pkts (advance^[t] b) = window_pkts b := by
  have hsz := (advance_iter b hw t).2.2.2.1
  unfold window_pkts
  rw [hsz]
  have e1 : List.range b.order_buf.size = List.range t ++
      List.map (fun x => t + x) (List.range (b.order_buf.size - t)) := range_split t _ ht
  have e2 : List.range b.order_buf.size = List.range (b.order_buf.size - t) ++
      List.map (fun x => b.order_buf.size - t + x) (List.range (b.order_buf.size - (b.order_buf.size - t))) :=
    range_split (b.order_buf.size - t) _ (by omega)
  have h1 : (List.range b.order_buf.size).filterMap (wslot (advance^[t] b)) =
      (List.map (fun x => t + x) (List.range (b.order_buf.size - t))).filterMap (wslot b) := by
    rw [e2, List.filterMap_append, List.filterMap_map, List.filterMap_map]
    have hz : List.filterMap (wslot (advance^[t] b) ∘ fun x => b.order_buf.size - t + x)
        (List.range (b.order_buf.size - (b.order_buf.size - t))) = [] := by
      rw [List.filterMap_eq_nil_iff]
      intro a ha
      have := List.mem_range.1 ha
      simp only [Function.comp]
      rw [advance_iter_wslot b hw t _ (by omega), if_neg (by omega)]
    rw [hz, List.append_nil]
    apply List.filterMap_congr
    intro a ha
    have := List.mem_range.1 ha
    simp only [Function.comp]
    rw [advance_iter_wslot b hw t _ (by omega), if_pos (by omega), Nat.add_comm]
  rw [h1]
  conv_rhs => rw [e1, List.filterMap_append]

theorem window_pkts_mem (b : mlvpn_reorder_buffer) (hw : WF b) (p : mlvpn_pkt_t) :
    p ∈ window_pkts b ↔ ∃ q, q < b.order_buf.size ∧ slot b q = some p := by
  unfold window_pkts
  rw [List.mem_filterMap]
  constructor
  · rintro ⟨j, hj, e⟩
    exact ⟨_, Nat.mod_lt _ (pow2_pos _ hw.pow2), e⟩
  · rintro ⟨q, hq, e⟩
    obtain ⟨j, hj, rfl⟩ := slot_as_wslot b hw q hq
    exact ⟨j, List.mem_range.2 hj, e⟩

theorem window_pkts_nodup (b : mlvpn_reorder_buffer) (hw : WF b) (hinv : WInv b) :
    (window_pkts b).Nodup := by
  have hg := (winv_iff b hw).1 hinv
  apply List.Nodup.of_map mlvpn_pkt_t.seq
  unfold window_pkts
  rw [window_seqs b hg _ (fun j hj => List.mem_range.1 hj)]
  have h32 := hw.size_lt
  apply List.Nodup.map_on
  · intro x hx y hy e
    have hx := List.mem_range.1 (List.mem_of_mem_filter hx)
    have hy := List.mem_range.1 (List.mem_of_mem_filter hy)
    exact seq_mod_inj _ x y (by omega) (by omega) e
  · exact List.Nodup.filter _ (List.nodup_range _)

theorem conserve_of_shape (b b1 : mlvpn_reorder_buffer) (out : List mlvpn_pkt_t)
    (hw : WF b) (t : Nat) (ht : t ≤ b.order_buf.size) (e1 : b1 = advance^[t] b)
    (e2 : out = (List.range t).filterMap (wslot b)) :
    out ++ window_pkts b1 = window_pkts b ∧
    (∀ q, slot b1 q = none ∨ slot b1 q = slot b q) ∧
    ((window_pkts b).Nodup →
      out.Nodup ∧ ∀ p, p ∈ out → ∀ q, q < b.order_buf.size → slot b1 q ≠ some p) := by
  subst e1 e2
  have hc := window_pkts_advance b hw t ht
  refine ⟨hc, ?_, ?_⟩
  · intro q
    rw [advance_iter_slot b hw t q]
    split
    · left; rfl
    · right; rfl
  · intro hnd
    rw [← hc] at hnd
    obtain ⟨n1, _, n3⟩ := List.nodup_append.1 hnd
    refine ⟨n1, ?_⟩
    intro p hp q hq hs
    have w1 := (advance_iter b hw t).1
    have hsz := (advance_iter b hw t).2.2.2.1
    have : p ∈ window_pkts (advance^[t] b) :=
      (window_pkts_mem _ w1 p).2 ⟨q, by rw [hsz]; exact hq, hs⟩
    exact n3 hp this

theorem conservation_unchecked (b : mlvpn_reorder_buffer) (max_pkts : Nat) (hw : WF b) :
    ((mlvpn_reorder_drain b max_pkts).pkts ++ window_pkts (mlvpn_reorder_drain b max_pkts).b
        = window_pkts b ∧
      (∀ q, slot (mlvpn_reorder_drain b max_pkts).b q = none ∨
        slot (mlvpn_reorder_drain b max_pkts).b q = slot b q) ∧
      ((window_pkts b).Nodup →
        (mlvpn_reorder_drain b max_pkts).pkts.Nodup ∧
        ∀ p, p ∈ (mlvpn_reorder_drain b max_pkts).pkts → ∀ q, q < b.order_buf.size →
          slot (mlvpn_reorder_drain b max_pkts).b q ≠ some p)) ∧
    ((force_drain_unchecked b max_pkts).pkts ++
        window_pkts (force_drain_unchecked b max_pkts).b = window_pkts b ∧
      (∀ q, slot (force_drain_unchecked b max_pkts).b q = none ∨
        slot (force_drain_unchecked b max_pkts).b q = slot b q) ∧
      ((window_pkts b).Nodup →
        (force_drain_unchecked b max_pkts).pkts.Nodup ∧
        ∀ p, p ∈ (force_drain_unchecked b max_pkts).pkts → ∀ q, q < b.order_buf.size →
          slot (force_drain_unchecked b max_pkts).b q ≠ some p)) ∧
    (WInv b → (window_pkts b).Nodup) ∧
    (∀ p, p ∈ window_pkts b ↔ ∃ q, q < b.order_buf.size ∧ slot b q = some p) := by
  obtain ⟨t, ht, e1, e2⟩ := drain_shape b max_pkts hw
  obtain ⟨t', ht', f1, f2, _⟩ := force_drain_shape b max_pkts hw
  exact ⟨conserve_of_shape b _ _ hw t ht e1 e2, conserve_of_shape b _ _ hw t' ht' f1 f2,
    window_pkts_nodup b hw, window_pkts_mem b hw⟩

theorem advance_iter_floor (b : mlvpn_reorder_buffer) (hw : WF b) (hg : WInvG 0 b) (t : Nat)
    (ht : t ≤ b.order_buf.size) :
    ∃ l, l ≤ t ∧ (advance^[t] b).min_seqn = (b.min_seqn + l) % 2 ^ 64 ∧
      ∀ o, o < t → (wslot b o).isSome → o < l := by
  induction t with
  | zero =>
    refine ⟨0, Nat.le_refl _, ?_, fun o ho => absurd ho (Nat.not_lt_zero _)⟩
    simp only [Function.iterate_zero, id_eq, Nat.add_zero]
    exact (Nat.mod_eq_of_lt hw.min_lt).symm
  | succ t ih =>
    obtain ⟨l, hl, h1, h2⟩ := ih (by omega)
    obtain ⟨w, _⟩ := advance_iter b hw t
    have h0 : wslot (advance^[t] b) 0 = wslot b t := by
      rw [advance_iter_wslot b hw t 0 (by omega), Nat.zero_add, if_pos (by omega)]
    have a8 := (advance_spec _ w).2.2.2.2.2.2.2.1
    rw [h0] at a8
    rw [Function.iterate_succ_apply']
    cases hs : wslot b t with
    | none =>
      rw [hs] at a8
      refine ⟨l, by omega, a8.trans h1, ?_⟩
      intro o ho hso
      by_cases c : o = t
      · subst c; rw [hs] at hso; cases hso
      · exact h2 o (by omega) hso
    | some p =>
      rw [hs] at a8
      simp only at a8
      have hp := hg t (by omega) p hs
      refine ⟨t + 1, Nat.le_refl _, ?_, fun o ho _ => ho⟩
      rw [a8, hp, Nat.mod_add_mod, Nat.add_assoc, Nat.add_zero]

theorem stale_after (m j l : Nat) (hjl : j < l) (hl : l < 2 ^ 63) :
    insert_offset ((m + l) % 2 ^ 64) ((m + j) % 2 ^ 64) < 0 := by
  unfold insert_offset to_int64
  split <;> omega

theorem insert_stale (b : mlvpn_reorder_buffer) (pkt : mlvpn_pkt_t)
    (hi : b.is_initialized = true) (h : insert_offset b.min_seqn pkt.seq < 0) :
    (mlvpn_reorder_insert b pkt).2 = -2 ∧ (mlvpn_reorder_insert b pkt).1 = b := by
  have hfl : insert_floor b pkt = b.min_seqn := by unfold insert_floor; rw [if_pos hi]
  have hr := insert_reject b pkt (by rw [hfl]; omega)
  rw [hr, hfl, if_pos h]
  refine ⟨rfl, ?_⟩
  cases b
  simp only at hi
  subst hi
  rfl

theorem abandoned_holes (L : Layout) (size : Nat) (b : mlvpn_reorder_buffer)
    (hc : CreatedInv L size b) (max_pkts j o : Nat) (p pkt : mlvpn_pkt_t)
    (hjo : j < o) (ho : o < size)
    (hpo : wslot b o = some p) (hout : p ∈ (force_drain_unchecked b max_pkts).pkts)
    (hseq : pkt.seq = (b.min_seqn + j) % 2 ^ 64) :
    (mlvpn_reorder_insert (force_drain_unchecked b max_pkts).b pkt).2 = -2 ∧
    (mlvpn_reorder_insert (force_drain_unchecked b max_pkts).b pkt).1 =
      (force_drain_unchecked b max_pkts).b := by
  have hw := hc.wf
  have hsz := hc.size_eq
  have h32 := hw.size_lt
  obtain ⟨t, ht, e1, e2, _⟩ := force_drain_shape b max_pkts hw
  obtain ⟨l, hl, f1, f2⟩ := advance_iter_floor b hw hc.inv t ht
  rw [e2] at hout
  obtain ⟨o', ho', hpo'⟩ := List.mem_filterMap.1 hout
  have ho' := List.mem_range.1 ho'
  have hoo : o = o' := by
    have s1 := hc.inv o (by omega) p hpo
    have s2 := hc.inv o' (by omega) p hpo'
    rw [s1] at s2
    exact seq_mod_inj _ _ _ (by omega) (by omega) s2
  subst hoo
  have hlo := f2 o ho' (by rw [hpo]; rfl)
  have hinit : b.is_initialized = true := by
    cases hi : b.is_initialized
    · rw [uninit_wslot b (hc.uninit hi) o] at hpo; cases hpo
    · rfl
  apply insert_stale
  · rw [e1, (advance_iter b hw t).2.2.1]; exact hinit
  · rw [e1, f1, hseq]
    exact stale_after _ _ _ (by omega) (by omega)

theorem filter_flip (f g : Nat → Bool) (n pos : Nat) (hpos : pos < n)
    (hne : ∀ q, q < n → q ≠ pos → f q = g q) (hf : f pos = false) (hg : g pos = true) :
    ((List.range n).filter g).length = ((List.range n).filter f).length + 1 := by
  rw [range_split (pos + 1) n (by omega), List.range_succ]
  simp only [List.filter_append, List.length_append]
  have h1 : (List.range pos).filter g = (List.range pos).filter f := by
    apply List.filter_congr
    intro x hx
    have := List.mem_range.1 hx
    exact (hne x (by omega) (by omega)).symm
  have h2 : (List.map (fun x => pos + 1 + x) (List.range (n - (pos + 1)))).filter g =
      (List.map (fun x => pos + 1 + x) (List.range (n - (pos + 1)))).filter f := by
    apply List.filter_congr
    intro x hx
    obtain ⟨c, hc, rfl⟩ := List.mem_map.1 hx
    have := List.mem_range.1 hc
    exact (hne _ (by omega) (by omega)).symm
  rw [h1, h2]
  simp [hf, hg]
  omega

theorem occupied_le (b : mlvpn_reorder_buffer) : occupied b ≤ b.order_buf.size := by
  unfold occupied
  have := List.length_filter_le (fun p => (slot b p).isSome) (List.range b.order_buf.size)
  simpa using this

theorem occupied_fill (b b1 : mlvpn_reorder_buffer) (pos : Nat)
    (hsz : b1.order_buf.size = b.order_buf.size) (hpos : pos < b.order_buf.size)
    (hne : ∀ q, q ≠ pos → slot b1 q = slot b q) (h0 : slot b pos = none)
    (h1 : (slot b1 pos).isSome) : occupied b1 = occupied b + 1 := by
  unfold occupied
  rw [hsz]
  exact filter_flip _ _ _ pos hpos (fun q _ hq => by rw [hne q hq]) (by rw [h0]; rfl) h1

theorem occupied_same (b b1 : mlvpn_reorder_buffer)
    (hsz : b1.order_buf.size = b.order_buf.size)
    (hsl : ∀ q, q < b.order_buf.size → slot b1 q = slot b q) : occupied b1 = occupied b := by
  unfold occupied
  rw [hsz]
  congr 1
  apply List.filter_congr
  intro x hx
  rw [hsl x (List.mem_range.1 hx)]

theorem advance_count (b : mlvpn_reorder_buffer) (hw : WF b)
    (hc : b.order_buf.count = occupied b) :
    (advance b).order_buf.count = occupied (advance b) := by
  obtain ⟨_, _, h3, _, _, _, _, _, h9⟩ := advance_spec b hw
  cases hd : dequeue_from_order_buf b with
  | none =>
    have hs := (dequeue_eq_none b).1 hd
    have e : (advance b).order_buf.count = b.order_buf.count := by
      rw [advance_hole b hw hs]
    rw [e, hc]
    symm
    apply occupied_same _ _ h3
    intro q _
    rw [h9]
    split
    · rename_i c; rw [c, hs]
    · rfl
  | some r =>
    obtain ⟨b1, p⟩ := r
    have ha := advance_of_dequeue b b1 p hd
    obtain ⟨hs, _, _, _, _, _, _, _, h8, _⟩ := dequeue_eq_some b b1 p hd
    rw [ha] at h3 h9 ⊢
    have hfill : occupied b = occupied b1 + 1 := by
      apply occupied_fill b1 b b.order_buf.head h3.symm (by rw [h3]; exact hw.head_lt)
      · intro q hq
        rw [h9, if_neg hq]
      · rw [h9, if_pos rfl]
      · rw [hs]; rfl
    rw [h8, hc]
    omega

theorem advance_iter_count (b : mlvpn_reorder_buffer) (hw : WF b)
    (hc : b.order_buf.count = occupied b) (t : Nat) :
    (advance^[t] b).order_buf.count = occupied (advance^[t] b) := by
  induction t with
  | zero => exact hc
  | succ t ih =>
    rw [Function.iterate_succ_apply']
    exact advance_count _ (advance_iter b hw t).1 ih

theorem insert_count (b : mlvpn_reorder_buffer) (pkt : mlvpn_pkt_t) (hw : WF b)
    (hc : b.order_buf.count = occupied b)
    (hno : (mlvpn_reorder_insert b pkt).2 = 0 → slot b (insert_target b pkt) = none) :
    (mlvpn_reorder_insert b pkt).1.order_buf.count = occupied (mlvpn_reorder_insert b pkt).1 := by
  have hmask : ∀ x, x &&& b.order_buf.mask = x % b.order_buf.size := by
    intro x; rw [hw.mask_eq]; exact land_mask x _ hw.pow2
  have h32 := hw.size_lt
  by_cases h : 0 ≤ insert_offset (insert_floor b pkt) pkt.seq ∧
      insert_offset (insert_floor b pkt) pkt.seq < (b.order_buf.size : Int)
  · have e := insert_accept b pkt hw h.1 h.2
    have hposlt : (b.order_buf.head + (insert_offset (insert_floor b pkt) pkt.seq).toNat)
        % b.order_buf.size < b.order_buf.size := Nat.mod_lt _ (pow2_pos _ hw.pow2)
    have htgt : insert_target b pkt =
        (b.order_buf.head + (insert_offset (insert_floor b pkt) pkt.seq).toNat)
          % b.order_buf.size := by
      unfold insert_target
      rw [hmask]
      exact Nat.mod_eq_of_lt (by omega)
    have hempty := hno (by rw [e])
    rw [htgt] at hempty
    have hcells := hw.cells
    have hfill : occupied (mlvpn_reorder_insert b pkt).1 = occupied b + 1 := by
      apply occupied_fill b _ _ (insert_frame b pkt).1 hposlt
      · intro q hq
        rw [e]
        unfold slot
        simp only
        rw [getD_set_some _ _ _ _ (by omega), if_neg (fun c => hq c.symm)]
      · exact hempty
      · rw [e]
        unfold slot
        simp only
        rw [getD_set_some _ _ _ _ (by omega), if_pos rfl]
        rfl
    rw [hfill]
    rw [e]
    simp only
    rw [hc]
    have := occupied_le (mlvpn_reorder_insert b pkt).1
    rw [hfill, (insert_frame b pkt).1] at this
    exact Nat.mod_eq_of_lt (by omega)
  · rw [insert_reject b pkt h]
    simp only
    rw [hc]
    rfl

theorem fresh_count (L : Layout) (size : Nat) :
    (fresh L size).order_buf.count = occupied (fresh L size) := by
  unfold occupied
  have : (List.range (fresh L size).order_buf.size).filter
      (fun p => (slot (fresh L size) p).isSome) = [] := by
    rw [List.filter_eq_nil_iff]
    intro a _
    rw [fresh_slot]
    simp
  rw [this]
  rfl

theorem run_ops_count (L : Layout) (size : Nat) (hf : Fits L size) (hp : ∃ k, size = 2 ^ k)
    (ops : List Op) (b : mlvpn_reorder_buffer) (hc : CreatedInv L size b)
    (hcnt : b.order_buf.count = occupied b)
    (hs : ∀ pkt, Op.insert pkt ∈ ops → pkt.seq < 2 ^ 64)
    (hno : no_overwrite_unchecked L b ops) :
    (run_unchecked L b ops).order_buf.count = occupied (run_unchecked L b ops) := by
  induction ops generalizing b with
  | nil => exact hcnt
  | cons op ops ih =>
    have hs' : ∀ pkt, Op.insert pkt ∈ ops → pkt.seq < 2 ^ 64 :=
      fun pkt hm => hs pkt (List.mem_cons_of_mem _ hm)
    have hc' := apply_op_created L size hf hp b op hc
      (fun pkt e => hs pkt (by rw [e]; exact List.mem_cons_self _ _))
    have hw := hc.wf
    unfold run_unchecked
    rw [List.foldl_cons]
    cases op with
    | insert pkt =>
      obtain ⟨n1, n2⟩ := hno
      exact ih _ hc' (insert_count b pkt hw hcnt n1) hs' n2
    | drain m =>
      have hno' : no_overwrite_unchecked L (apply_unchecked L b (Op.drain m)) ops := hno
      refine ih _ hc' ?_ hs' hno'
      obtain ⟨t, _, e1, _⟩ := drain_shape b m hw
      show (mlvpn_reorder_drain b m).b.order_buf.count = occupied (mlvpn_reorder_drain b m).b
      rw [e1]
      exact advance_iter_count b hw hcnt t
    | force_drain m =>
      have hno' : no_overwrite_unchecked L (apply_unchecked L b (Op.force_drain m)) ops := hno
      refine ih _ hc' ?_ hs' hno'
      obtain ⟨t, _, e1, _⟩ := force_drain_shape b m hw
      show (force_drain_unchecked b m).b.order_buf.count =
        occupied (force_drain_unchecked b m).b
      rw [e1]
      exact advance_iter_count b hw hcnt t
    | reset =>
      have hno' : no_overwrite_unchecked L (apply_unchecked L b Op.reset) ops := hno
      refine ih _ hc' ?_ hs' hno'
      show (mlvpn_reorder_reset L b).order_buf.count = occupied (mlvpn_reorder_reset L b)
      rw [reset_eq L size hf (pow2_pos _ hp) b hc.size_eq hc.mem_eq hc.len_eq]
      exact fresh_count L size

theorem count_unchecked (L : Layout) (size : Nat) (ops : List Op)
    (hp : ∃ k, size = 2 ^ k) (hf : Fits L size)
    (hs : ∀ pkt, Op.insert pkt ∈ ops → pkt.seq < 2 ^ 64)
    (hno : no_overwrite_unchecked L (mlvpn_reorder_create L size) ops) :
    (run_unchecked L (mlvpn_reorder_create L size) ops).order_buf.count =
      occupied (run_unchecked L (mlvpn_reorder_create L size) ops) := by
  rw [create_eq L size hf (pow2_pos _ hp)] at hno ⊢
  exact run_ops_count L size hf hp ops (fresh L size) (fresh_created L size hf hp)
    (fresh_count L size) hs hno

theorem getD_set_str (l : List (Option String)) (i j : Nat) (a : Option String)
    (hi : i < l.length) :
    (l.set i a).getD j none = if i = j then a else l.getD j none := by
  simp only [List.getD_eq_getElem?_getD, List.getElem?_set]
  by_cases h : i = j
  · subst h; simp [hi]
  · simp [h]

theorem log_accept_loop_spec (tok : Option String) (reg : List String)
    (toks : List (Option String)) (h : TokInv reg toks) (n i : Nat) (hn : i + n = 40)
    (hi : i ≤ reg.length) :
    log_accept_loop tok n i toks =
      if reg.length < 40 then (toks.set (reg.length + 1) none).set reg.length tok else toks := by
  induction n generalizing i with
  | zero =>
    have := h.reg_le
    rw [if_neg (by omega)]
    rfl
  | succ n ih =>
    unfold log_accept_loop
    by_cases c : i < reg.length
    · have hc := h.cells i (by omega)
      rw [List.getElem?_eq_getElem c] at hc
      rw [hc]
      exact ih (i + 1) (by omega) (by omega)
    · have e : i = reg.length := by omega
      subst e
      have hc := h.cells reg.length (Nat.le_refl _)
      rw [List.getElem?_eq_none (Nat.le_refl _)] at hc
      rw [hc, if_pos (by omega)]

theorem tokinv_accept (t : String) (reg : List String) (toks : List (Option String))
    (h : TokInv reg toks) :
    TokInv (if reg.length < 40 then reg ++ [t] else reg)
      (log_accept_loop (some t) MAX_DBG_TOKENS 0 toks) := by
  have hl := h.len
  rw [show MAX_DBG_TOKENS = 40 from rfl,
    log_accept_loop_spec (some t) reg toks h 40 0 (by omega) (by omega)]
  by_cases c : reg.length < 40
  · rw [if_pos c, if_pos c]
    refine ⟨by simp [hl], by simp; omega, ?_⟩
    intro i hi
    simp only [List.length_append, List.length_singleton] at hi
    rw [getD_set_str _ _ _ _ (by simp; omega), getD_set_str _ _ _ _ (by omega)]
    by_cases c1 : reg.length = i
    · subst c1
      rw [if_pos rfl]
      simp
    · rw [if_neg c1]
      by_cases c2 : reg.length + 1 = i
      · subst c2
        rw [if_pos rfl, List.getElem?_eq_none (by simp)]
      · rw [if_neg c2, h.cells i (by omega), List.getElem?_append_left (by omega)]
  · rw [if_neg c, if_neg c]
    exact h

theorem tokinv_clear (toks : List (Option String)) (h : toks.length = 41) :
    TokInv [] (toks.set 0 none) := by
  refine ⟨by simp [h], by simp, ?_⟩
  intro i hi
  simp only [List.length_nil, Nat.le_zero_eq] at hi
  subst hi
  rw [getD_set_str _ _ _ _ (by omega), if_pos rfl]
  rfl

theorem tokinv_fold (l reg : List String) (s : log_state) (h : TokInv reg s.tokens) :
    TokInv ((reg ++ l).take 40) (l.foldl (fun st t => log_accept st (some t)) s).tokens ∧
    (l.foldl (fun st t => log_accept st (some t)) s).level = s.level ∧
    (l.foldl (fun st t => log_accept st (some t)) s).logh = s.logh := by
  induction l generalizing reg s with
  | nil =>
    rw [List.append_nil, List.take_of_length_le h.reg_le]
    exact ⟨h, rfl, rfl⟩
  | cons t l ih =>
    rw [List.foldl_cons]
    have h1 := tokinv_accept t reg s.tokens h
    have := ih (if reg.length < 40 then reg ++ [t] else reg) (log_accept s (some t)) h1
    obtain ⟨i1, i2, i3⟩ := this
    refine ⟨?_, i2, i3⟩
    have hr := h.reg_le
    by_cases c : reg.length < 40
    · rw [if_pos c, List.append_assoc] at i1
      exact i1
    · rw [if_neg c] at i1
      have e : reg.length = 40 := by omega
      rw [List.take_left' e] at i1 ⊢
      exact i1

theorem log_debug_accept_loop_spec (token : String) (reg : List String)
    (toks : List (Option String)) (h : TokInv reg toks) (n i : Nat) (hn : i + n = 40)
    (hi : i ≤ reg.length) :
    log_debug_accept_loop token n i toks = true ↔
      ∃ j, i ≤ j ∧ j < reg.length ∧ reg[j]? = some token := by
  induction n generalizing i with
  | zero =>
    have := h.reg_le
    constructor
    · intro hf; cases hf
    · rintro ⟨j, h1, h2, _⟩; omega
  | succ n ih =>
    unfold log_debug_accept_loop
    by_cases c : i < reg.length
    · have hc := h.cells i (by omega)
      rw [List.getElem?_eq_getElem c] at hc
      rw [hc]
      simp only
      by_cases e : reg[i] = token
      · rw [if_pos e]
        refine ⟨fun _ => ⟨i, Nat.le_refl _, c, ?_⟩, fun _ => rfl⟩
        rw [List.getElem?_eq_getElem c, e]
      · rw [if_neg e, ih (i + 1) (by omega) (by omega)]
        constructor
        · rintro ⟨j, h1, h2, h3⟩
          exact ⟨j, by omega, h2, h3⟩
        · rintro ⟨j, h1, h2, h3⟩
          refine ⟨j, ?_, h2, h3⟩
          by_contra hlt
          have : j = i := by omega
          subst this
          rw [List.getElem?_eq_getElem c] at h3
          exact e (Option.some.inj h3)
    · have e : i = reg.length := by omega
      subst e
      have hc := h.cells reg.length (Nat.le_refl _)
      rw [List.getElem?_eq_none (Nat.le_refl _)] at hc
      rw [hc]
      constructor
      · intro hf; cases hf
      · rintro ⟨j, h1, h2, _⟩; omega

theorem log_debug_accept_token_spec (s : log_state) (reg : List String)
    (h : TokInv reg s.tokens) (token : String) :
    log_debug_accept_token s (some token) = true ↔ token ∈ reg := by
  unfold log_debug_accept_token
  simp only
  have h0 := h.cells 0 (Nat.zero_le _)
  cases reg with
  | nil =>
    rw [h0]
    simp
  | cons r reg =>
    rw [h0]
    simp only [List.getElem?_cons_zero]
    rw [show MAX_DBG_TOKENS = 40 from rfl,
      log_debug_accept_loop_spec token (r :: reg) s.tokens h 40 0 (by omega) (by omega)]
    constructor
    · rintro ⟨j, _, h2, h3⟩
      rw [List.getElem?_eq_getElem h2] at h3
      exact List.mem_iff_getElem.2 ⟨j, h2, Option.some.inj h3⟩
    · intro hm
      obtain ⟨j, hj, e⟩ := List.getElem_of_mem hm
      exact ⟨j, Nat.zero_le _, hj, by rw [List.getElem?_eq_getElem hj, e]⟩

/-- C17 (amended). Debug-log filtering: after `log_clear_accept` and any list
of `log_accept` calls (of which the first 40 are kept), `log_debug` emits a
message with a token exactly when `level` is 2 and the token is one of the kept
tokens, or a log handler is registered, or `level > 2`; a message without token
is emitted exactly when a handler is registered or `level > 2`. -/
theorem C17_debug_filter (s : log_state) (toks : List String) (token : String)
    (hlen : s.tokens.length = 41) :
    (log_debug (accept_all s toks) (some token) = true ↔
      (s.level = 2 ∧ token ∈ toks.take 40) ∨ s.logh = true ∨ s.level > 2) ∧
    (log_debug (accept_all s toks) none = true ↔ s.logh = true ∨ s.level > 2) := by
  have hc : TokInv [] (log_clear_accept s).tokens := tokinv_clear s.tokens hlen
  obtain ⟨f1, f2, f3⟩ := tokinv_fold toks [] (log_clear_accept s) hc
  rw [List.nil_append] at f1
  have hacc := log_debug_accept_token_spec (accept_all s toks) (toks.take 40) f1 token
  have hlv : (accept_all s toks).level = s.level := f2
  have hlh : (accept_all s toks).logh = s.logh := f3
  unfold log_debug
  rw [hlv, hlh]
  constructor
  · simp only [Bool.or_eq_true, Bool.and_eq_true, decide_eq_true_eq]
    rw [hacc, or_assoc]
  · have : log_debug_accept_token (accept_all s toks) none = false := rfl
    rw [this]
    simp

theorem C17_debug_filter_witness :
    (log_debug (accept_all { level := 2, logh := false, tokens := List.replicate 41 none }
        ["reorder", "tuntap"]) (some "reorder") = true ↔
      ((2 : Int) = 2 ∧ "reorder" ∈ ["reorder", "tuntap"].take 40) ∨ false = true ∨ (2 : Int) > 2) :=
  (C17_debug_filter { level := 2, logh := false, tokens := List.replicate 41 none }
    ["reorder", "tuntap"] "reorder" (by decide)).1

/-- C17 (counterexample). With a handler registered, level 0 and only the token
"tuntap" accepted, `log_debug` emits a message whose token is "reorder". -/
theorem C17_handler_bypasses_filter :
    log_debug (accept_all { level := 0, logh := true, tokens := List.replicate 41 none }
      ["tuntap"]) (some "reorder") = true ∧
    "reorder" ∉ ["tuntap"].take 40 ∧ ¬ ((0 : Int) > 2) := by
  refine ⟨by decide, by decide, by decide⟩

theorem emit_inv_nil (L : Layout) (size : Nat) (b : mlvpn_reorder_buffer)
    (E : List mlvpn_pkt_t) (h : EmitInv L size b E) : EmitInv L size b [] :=
  ⟨h.created, h.nowrap, h.slots_bound, fun e he => (by cases he), (by simp), fun _ => rfl⟩

theorem run_ops_emit_inv (L : Layout) (size : Nat) (hf : Fits L size) (hp : ∃ k, size = 2 ^ k)
    (ops : List Op) (b : mlvpn_reorder_buffer) (h : EmitInv L size b [])
    (hs : ∀ pkt, Op.insert pkt ∈ ops → pkt.seq + size < 2 ^ 64) :
    EmitInv L size (run_unchecked L b ops) [] := by
  induction ops generalizing b with
  | nil => exact h
  | cons op ops ih =>
    have hs' : ∀ pkt, Op.insert pkt ∈ ops → pkt.seq + size < 2 ^ 64 :=
      fun pkt hm => hs pkt (List.mem_cons_of_mem _ hm)
    have hw := h.created.wf
    unfold run_unchecked
    rw [List.foldl_cons]
    apply ih _ _ hs'
    cases op with
    | insert pkt => exact emit_inv_insert L size b [] h pkt (hs pkt (List.mem_cons_self _ _))
    | drain m =>
      obtain ⟨t, ht, e1, _⟩ := drain_shape b m hw
      have hc := drain_created L size b m h.created
      show EmitInv L size (mlvpn_reorder_drain b m).b []
      rw [e1] at hc ⊢
      exact emit_inv_nil L size _ _
        (emit_inv_shape L size b [] h t (by rw [← h.created.size_eq]; exact ht) hc)
    | force_drain m =>
      obtain ⟨t, ht, e1, _⟩ := force_drain_shape b m hw
      have hc := force_drain_created L size b m h.created
      show EmitInv L size (force_drain_unchecked b m).b []
      rw [e1] at hc ⊢
      exact emit_inv_nil L size _ _
        (emit_inv_shape L size b [] h t (by rw [← h.created.size_eq]; exact ht) hc)
    | reset =>
      show EmitInv L size (mlvpn_reorder_reset L b) []
      rw [reset_eq L size hf (pow2_pos _ hp) b h.created.size_eq h.created.mem_eq
        h.created.len_eq]
      exact fresh_emit_inv L size hf hp

theorem run_emit_ge (L : Layout) (size : Nat) (ops : List Op) (b : mlvpn_reorder_buffer)
    (h : EmitInv L size b []) (hi : b.is_initialized = true) (hnr : Op.reset ∉ ops)
    (hs : ∀ pkt, Op.insert pkt ∈ ops → pkt.seq + size < 2 ^ 64) :
    ∀ e, e ∈ run_emit_unchecked L b ops → b.min_seqn ≤ e.seq := by
  intro e he
  by_cases hz : b.min_seqn = 0
  · omega
  · have hE : EmitInv L size b [⟨b.min_seqn - 1, 0⟩] :=
      ⟨h.created, h.nowrap, h.slots_bound,
        fun x hx => (by rw [List.mem_singleton.1 hx]; show b.min_seqn - 1 < b.min_seqn; omega),
        (by simp), fun hu => (by rw [hi] at hu; cases hu)⟩
    have hsort := run_emit_sorted L size ops b _ hE hnr hs
    rw [List.singleton_append, List.map_cons, List.pairwise_cons] at hsort
    have := hsort.1 e.seq (List.mem_map_of_mem _ he)
    show b.min_seqn ≤ e.seq
    have h2 : (mlvpn_pkt_t.mk (b.min_seqn - 1) 0).seq = b.min_seqn - 1 := rfl
    omega

theorem abandoned_later (L : Layout) (size : Nat) (hf : Fits L size) (b : mlvpn_reorder_buffer)
    (h : EmitInv L size b []) (max_pkts j o : Nat) (p : mlvpn_pkt_t)
    (hjo : j < o) (ho : o < size)
    (hpo : wslot b o = some p) (hout : p ∈ (force_drain_unchecked b max_pkts).pkts)
    (later : List Op) (hnr : Op.reset ∉ later)
    (hs : ∀ pkt, Op.insert pkt ∈ later → pkt.seq + size < 2 ^ 64) :
    ∀ e, e ∈ run_emit_unchecked L (force_drain_unchecked b max_pkts).b later →
      e.seq ≠ (b.min_seqn + j) % 2 ^ 64 := by
  have _ := hf
  have hc := h.created
  have hw := hc.wf
  obtain ⟨t, ht, e1, e2, _⟩ := force_drain_shape b max_pkts hw
  have hc' := force_drain_created L size b max_pkts hc
  rw [e1] at hc' ⊢
  rw [e2] at hout
  have hinv := emit_inv_shape L size b [] h t (by rw [← hc.size_eq]; exact ht) hc'
  obtain ⟨_, s2, _⟩ := emit_step b hw hc.inv size hc.size_eq h.nowrap h.slots_bound t
    (by rw [← hc.size_eq]; exact ht)
  have hp2 := (s2 p hout).2
  have hpseq := hc.inv o (by rw [hc.size_eq]; exact ho) p hpo
  have hnw := h.nowrap
  have hmod1 : (b.min_seqn + 0 + o) % 2 ^ 64 = b.min_seqn + o := Nat.mod_eq_of_lt (by omega)
  have hmod2 : (b.min_seqn + j) % 2 ^ 64 = b.min_seqn + j := Nat.mod_eq_of_lt (by omega)
  rw [hmod1] at hpseq
  have hinit : b.is_initialized = true := by
    cases hi : b.is_initialized
    · rw [uninit_wslot b (hc.uninit hi) o] at hpo; cases hpo
    · rfl
  have hinit' : (advance^[t] b).is_initialized = true := by
    rw [(advance_iter b hw t).2.2.1]; exact hinit
  intro e he
  have := run_emit_ge L size later _ (emit_inv_nil L size _ _ hinv) hinit' hnr hs e he
  rw [hmod2]
  omega

theorem abandoned_holes_unchecked (L : Layout) (size : Nat) (ops : List Op) (max_pkts j o : Nat)
    (p : mlvpn_pkt_t) (hp : ∃ k, size = 2 ^ k) (hf : Fits L size)
    (hs : ∀ q, Op.insert q ∈ ops → q.seq < 2 ^ 64)
    (hhole : wslot (run_unchecked L (mlvpn_reorder_create L size) ops) j = none)
    (hjo : j < o) (ho : o < size)
    (hpo : wslot (run_unchecked L (mlvpn_reorder_create L size) ops) o = some p)
    (hout : p ∈ (force_drain_unchecked
      (run_unchecked L (mlvpn_reorder_create L size) ops) max_pkts).pkts) :
    (∀ pkt : mlvpn_pkt_t,
      pkt.seq = ((run_unchecked L (mlvpn_reorder_create L size) ops).min_seqn + j) % 2 ^ 64 →
      (mlvpn_reorder_insert (force_drain_unchecked
        (run_unchecked L (mlvpn_reorder_create L size) ops) max_pkts).b pkt).2 = -2 ∧
      (mlvpn_reorder_insert (force_drain_unchecked
        (run_unchecked L (mlvpn_reorder_create L size) ops) max_pkts).b pkt).1 =
        (force_drain_unchecked
          (run_unchecked L (mlvpn_reorder_create L size) ops) max_pkts).b) ∧
    (∀ later : List Op, Op.reset ∉ later →
      (∀ q, Op.insert q ∈ ops ++ later → q.seq + size < 2 ^ 64) →
      ∀ e, e ∈ run_emit_unchecked L (force_drain_unchecked
          (run_unchecked L (mlvpn_reorder_create L size) ops) max_pkts).b later →
        e.seq ≠ ((run_unchecked L (mlvpn_reorder_create L size) ops).min_seqn + j) % 2 ^ 64) := by
  have _ := hhole
  have hpos := pow2_pos _ hp
  constructor
  · intro pkt hseq
    exact abandoned_holes L size _
      (run_ops_created L size hf hp ops (mlvpn_reorder_create L size)
        (by rw [create_eq L size hf hpos]; exact fresh_created L size hf hp) hs)
      max_pkts j o p pkt hjo ho hpo hout hseq
  · intro later hnr hs2
    have hE : EmitInv L size (run_unchecked L (mlvpn_reorder_create L size) ops) [] := by
      rw [create_eq L size hf hpos]
      exact run_ops_emit_inv L size hf hp ops _ (fresh_emit_inv L size hf hp)
        (fun q hq => hs2 q (List.mem_append_left _ hq))
    exact abandoned_later L size hf _ hE max_pkts j o p hjo ho hpo hout later hnr
      (fun q hq => hs2 q (List.mem_append_right _ hq))

theorem force_drain_eq_some (b : mlvpn_reorder_buffer) (m : Nat) (r : force_drain_result)
    (h : mlvpn_reorder_force_drain b m = some r) :
    r = force_drain_unchecked b m ∧ ∀ e, e ∈ r.drain_log → e.1 < m := by
  unfold mlvpn_reorder_force_drain at h
  split at h
  · rename_i hall
    cases h
    refine ⟨rfl, ?_⟩
    intro e he
    exact of_decide_eq_true (List.all_eq_true.1 hall e he)
  · cases h

theorem force_drain_of_writes (b : mlvpn_reorder_buffer) (m : Nat)
    (h : ∀ e, e ∈ (force_drain_unchecked b m).drain_log → e.1 < m) :
    mlvpn_reorder_force_drain b m = some (force_drain_unchecked b m) := by
  unfold mlvpn_reorder_force_drain
  rw [if_pos]
  rw [List.all_eq_true]
  intro e he
  exact decide_eq_true (h e he)

theorem force_drain_writes_lt (b : mlvpn_reorder_buffer) (m : Nat)
    (hm : b.order_buf.size + 2 ≤ m) :
    ∀ e, e ∈ (force_drain_unchecked b m).drain_log → e.1 < m := by
  intro e he
  obtain ⟨t, ht, h1, _, _, _, h5, _⟩ := force_drain_acct b m
  have hmem : e.1 ∈ (force_drain_unchecked b m).drain_log.map Prod.fst :=
    List.mem_map_of_mem _ he
  rw [h1] at hmem
  rcases List.mem_append.1 hmem with hmem | hmem
  · have := (List.mem_range'_1.1 hmem).2
    omega
  · rw [List.mem_singleton.1 hmem]
    have : ∀ x, x % 2 ^ 64 ≤ x := fun x => Nat.mod_le _ _
    have := this ((force_drain_loop m b.order_buf.size 0
      { b := b, pkts := [], first_drained := 0, drain_cnt := 0, skipped_holes := 0
        last_packet := b.order_buf.size, drain_log := [] }).last_packet + 1)
    rcases h5 with ⟨_, e2⟩ | e2 <;> omega

theorem force_drain_defined (b : mlvpn_reorder_buffer) (m : Nat)
    (hm : b.order_buf.size + 2 ≤ m) :
    mlvpn_reorder_force_drain b m = some (force_drain_unchecked b m) :=
  force_drain_of_writes b m (force_drain_writes_lt b m hm)

theorem apply_op_eq_some (L : Layout) (b : mlvpn_reorder_buffer) (op : Op)
    (b1 : mlvpn_reorder_buffer) (h : apply_op L b op = some b1) :
    b1 = apply_unchecked L b op := by
  cases op with
  | insert pkt => exact (Option.some.inj h).symm
  | drain m => exact (Option.some.inj h).symm
  | reset => exact (Option.some.inj h).symm
  | force_drain m =>
    simp only [apply_op] at h
    cases hr : mlvpn_reorder_force_drain b m with
    | none => rw [hr] at h; cases h
    | some r =>
      rw [hr] at h
      rw [(force_drain_eq_some b m r hr).1] at h
      exact (Option.some.inj h).symm

theorem apply_op_defined (L : Layout) (b : mlvpn_reorder_buffer) (op : Op)
    (hm : ∀ m, op = Op.force_drain m → b.order_buf.size + 2 ≤ m) :
    apply_op L b op = some (apply_unchecked L b op) := by
  cases op with
  | insert pkt => rfl
  | drain m => rfl
  | reset => rfl
  | force_drain m =>
    simp only [apply_op]
    rw [force_drain_defined b m (hm m rfl)]
    rfl

theorem run_ops_eq_some (L : Layout) (ops : List Op) (b b1 : mlvpn_reorder_buffer)
    (h : run_ops L b ops = some b1) : b1 = run_unchecked L b ops := by
  induction ops generalizing b with
  | nil => exact (Option.some.inj h).symm
  | cons op ops ih =>
    unfold run_ops at h
    cases ha : apply_op L b op with
    | none => rw [ha] at h; cases h
    | some b2 =>
      rw [ha] at h
      have := ih b2 h
      rw [apply_op_eq_some L b op b2 ha] at this
      rw [this]
      rfl

theorem run_ops_defined (L : Layout) (size : Nat) (hf : Fits L size) (hp : ∃ k, size = 2 ^ k)
    (ops : List Op) (b : mlvpn_reorder_buffer) (hc : CreatedInv L size b)
    (hs : ∀ pkt, Op.insert pkt ∈ ops → pkt.seq < 2 ^ 64)
    (hm : ∀ m, Op.force_drain m ∈ ops → size + 2 ≤ m) :
    run_ops L b ops = some (run_unchecked L b ops) := by
  induction ops generalizing b with
  | nil => rfl
  | cons op ops ih =>
    unfold run_ops
    rw [apply_op_defined L b op (fun m e => by
      rw [hc.size_eq]; exact hm m (by rw [e]; exact List.mem_cons_self _ _))]
    have hc1 := apply_op_created L size hf hp b op hc
      (fun pkt e => hs pkt (by rw [e]; exact List.mem_cons_self _ _))
    exact ih _ hc1 (fun pkt h => hs pkt (List.mem_cons_of_mem _ h))
      (fun m h => hm m (List.mem_cons_of_mem _ h))

theorem create_created (L : Layout) (size : Nat) (hf : Fits L size) (hp : ∃ k, size = 2 ^ k) :
    CreatedInv L size (mlvpn_reorder_create L size) := by
  rw [create_eq L size hf (pow2_pos _ hp)]
  exact fresh_created L size hf hp

theorem emit_op_eq_some (b : mlvpn_reorder_buffer) (op : Op) (out : List mlvpn_pkt_t)
    (h : emit_op b op = some out) : out = emit_unchecked b op := by
  cases op with
  | insert pkt => exact (Option.some.inj h).symm
  | drain m => exact (Option.some.inj h).symm
  | reset => exact (Option.some.inj h).symm
  | force_drain m =>
    simp only [emit_op] at h
    cases hr : mlvpn_reorder_force_drain b m with
    | none => rw [hr] at h; cases h
    | some r =>
      rw [hr] at h
      rw [(force_drain_eq_some b m r hr).1] at h
      exact (Option.some.inj h).symm

theorem emit_op_defined (b : mlvpn_reorder_buffer) (op : Op)
    (hm : ∀ m, op = Op.force_drain m → b.order_buf.size + 2 ≤ m) :
    emit_op b op = some (emit_unchecked b op) := by
  cases op with
  | insert pkt => rfl
  | drain m => rfl
  | reset => rfl
  | force_drain m =>
    simp only [emit_op]
    rw [force_drain_defined b m (hm m rfl)]
    rfl

theorem run_emit_eq_some (L : Layout) (ops : List Op) (b : mlvpn_reorder_buffer)
    (E : List mlvpn_pkt_t) (h : run_emit L b ops = some E) :
    E = run_emit_unchecked L b ops := by
  induction ops generalizing b E with
  | nil => exact (Option.some.inj h).symm
  | cons op ops ih =>
    unfold run_emit at h
    cases he : emit_op b op with
    | none => rw [he] at h; cases h
    | some out =>
      cases ha : apply_op L b op with
      | none => rw [he, ha] at h; cases h
      | some b2 =>
        rw [he, ha] at h
        simp only at h
        cases hr : run_emit L b2 ops with
        | none => rw [hr] at h; cases h
        | some rest =>
          rw [hr] at h
          have e1 := ih b2 rest hr
          rw [apply_op_eq_some L b op b2 ha] at e1
          rw [← Option.some.inj h, e1, emit_op_eq_some b op out he]
          rfl

theorem run_emit_defined (L : Layout) (size : Nat) (hf : Fits L size) (hp : ∃ k, size = 2 ^ k)
    (ops : List Op) (b : mlvpn_reorder_buffer) (hc : CreatedInv L size b)
    (hs : ∀ pkt, Op.insert pkt ∈ ops → pkt.seq < 2 ^ 64)
    (hm : ∀ m, Op.force_drain m ∈ ops → size + 2 ≤ m) :
    run_emit L b ops = some (run_emit_unchecked L b ops) := by
  induction ops generalizing b with
  | nil => rfl
  | cons op ops ih =>
    unfold run_emit
    have hb : ∀ m, op = Op.force_drain m → b.order_buf.size + 2 ≤ m := fun m e => by
      rw [hc.size_eq]; exact hm m (by rw [e]; exact List.mem_cons_self _ _)
    rw [apply_op_defined L b op hb, emit_op_defined b op hb]
    have hc1 := apply_op_created L size hf hp b op hc
      (fun pkt e => hs pkt (by rw [e]; exact List.mem_cons_self _ _))
    simp only
    rw [ih _ hc1 (fun pkt h => hs pkt (List.mem_cons_of_mem _ h))
      (fun m h => hm m (List.mem_cons_of_mem _ h))]
    rfl

theorem insert_all_run (L : Layout) (ps : List mlvpn_pkt_t) (b : mlvpn_reorder_buffer) :
    (insert_all b ps).1 = run_unchecked L b (ps.map Op.insert) := by
  induction ps generalizing b with
  | nil => rfl
  | cons p ps ih =>
    show (insert_all (mlvpn_reorder_insert b p).1 ps).1 = _
    rw [ih]
    rfl

/-- C1 (amended). Window invariant: take `mlvpn_reorder_create L size` with `size`
a power of two whose allocation fits 32 bits, and any finite sequence of insert,
drain, force-drain and reset calls.  If every force-drain of the sequence has
`max_pkts ≥ size + 2`, the sequence reaches a state; and in the state reached
by any sequence all of whose force-drain calls stay inside their trace array,
an occupied slot `p` holds a packet whose sequence number is
`min_seqn + ((p - head) mod size)` modulo `2 ^ 64`. -/
theorem C1_window_invariant (L : Layout) (size : Nat) (ops : List Op)
    (hp : ∃ k, size = 2 ^ k) (hf : Fits L size)
    (hs : ∀ pkt, Op.insert pkt ∈ ops → pkt.seq < 2 ^ 64) :
    ((∀ m, Op.force_drain m ∈ ops → size + 2 ≤ m) →
      ∃ b, run_ops L (mlvpn_reorder_create L size) ops = some b) ∧
    (∀ b, run_ops L (mlvpn_reorder_create L size) ops = some b →
      ∀ p, p < b.order_buf.size → ∀ pkt, slot b p = some pkt →
        pkt.seq =
          (b.min_seqn + (((p : Int) - (b.order_buf.head : Int)) % (b.order_buf.size : Int)).toNat)
            % 2 ^ 64) := by
  have hc0 := create_created L size hf hp
  refine ⟨fun hm => ⟨_, run_ops_defined L size hf hp ops _ hc0 hs hm⟩, ?_⟩
  intro b hb
  have hc := run_ops_created L size hf hp ops _ hc0 hs
  rw [← run_ops_eq_some L ops _ b hb] at hc
  exact (winv_iff _ hc.wf).2 hc.inv

theorem C1_window_invariant_witness :
    run_ops lp64 (mlvpn_reorder_create lp64 8)
        [Op.insert ⟨5, 0⟩, Op.insert ⟨7, 1⟩, Op.drain 10, Op.force_drain 10, Op.insert ⟨9, 2⟩]
      = some
        { min_seqn := 8, memsize := 184, is_initialized := true
          order_buf :=
            { size := 8, mask := 7, head := 1, tail := 0, count := 1
              pkts := [none, none, some ⟨9, 2⟩, none, none, none, none, none,
                none, none, none, none, none, none, none, none] } } ∧
    (mlvpn_pkt_t.mk 9 2).seq = (8 + (((2 : Int) - (1 : Nat)) % (8 : Nat)).toNat) % 2 ^ 64 :=
  ⟨by decide,
   (C1_window_invariant lp64 8
      [Op.insert ⟨5, 0⟩, Op.insert ⟨7, 1⟩, Op.drain 10, Op.force_drain 10, Op.insert ⟨9, 2⟩]
      ⟨3, rfl⟩ ⟨by decide, by decide⟩
      (by
        intro pkt h
        simp only [List.mem_cons, Op.insert.injEq, List.mem_singleton, reduceCtorEq, or_false,
          false_or, List.mem_nil_iff] at h
        rcases h with rfl | rfl | rfl <;> decide)).2
      { min_seqn := 8, memsize := 184, is_initialized := true
        order_buf :=
          { size := 8, mask := 7, head := 1, tail := 0, count := 1
            pkts := [none, none, some ⟨9, 2⟩, none, none, none, none, none,
              none, none, none, none, none, none, none, none] } }
      (by decide) 2 (by decide) ⟨9, 2⟩ (by decide)⟩

set_option maxRecDepth 100000 in
/-- C1 (counterexample). On 64 slots, after insert 100, insert 150 and drain(10)
a force-drain(2) passes over all 64 slots and writes the trace indices 0 to 63
into an array of 2 bytes: the call has no defined result, and so this finite
sequence of calls reaches no state.  With `size = 2 ^ 29` on LP64 the
allocation size of create wraps to 56 bytes, which hold no cell, while the
size field is `2 ^ 29`: the first insert targets cell 0, outside the
allocation. -/
theorem C1_trace_overrun :
    run_ops lp64 (mlvpn_reorder_create lp64 64)
      [Op.insert ⟨100, 0⟩, Op.insert ⟨150, 1⟩, Op.drain 10, Op.force_drain 2] = none ∧
    (force_drain_unchecked
      (mlvpn_reorder_drain (insert_all (mlvpn_reorder_create lp64 64) [⟨100, 0⟩, ⟨150, 1⟩]).1
        10).b 2).drain_log.map Prod.fst = List.range 64 ++ [50] ∧
    (mlvpn_reorder_create lp64 (2 ^ 29)).order_buf.size = 2 ^ 29 ∧
    (mlvpn_reorder_create lp64 (2 ^ 29)).memsize = 56 ∧
    (mlvpn_reorder_create lp64 (2 ^ 29)).order_buf.pkts.length = 0 ∧
    insert_target (mlvpn_reorder_create lp64 (2 ^ 29)) ⟨5, 0⟩ = 0 := by
  refine ⟨by decide, by decide, by decide, by decide, by decide, by decide⟩

theorem C5_drain_contiguous_witness :
    (mlvpn_reorder_drain
        (insert_all (mlvpn_reorder_create lp64 8) [⟨5, 0⟩, ⟨8, 1⟩, ⟨6, 2⟩]).1 10).b.min_seqn =
      ((insert_all (mlvpn_reorder_create lp64 8) [⟨5, 0⟩, ⟨8, 1⟩, ⟨6, 2⟩]).1.min_seqn +
        (mlvpn_reorder_drain
          (insert_all (mlvpn_reorder_create lp64 8) [⟨5, 0⟩, ⟨8, 1⟩, ⟨6, 2⟩]).1 10).ret)
        % 2 ^ 64 ∧
    (mlvpn_reorder_drain
        (insert_all (mlvpn_reorder_create lp64 8) [⟨5, 0⟩, ⟨8, 1⟩, ⟨6, 2⟩]).1 10).pkts =
      [⟨5, 0⟩, ⟨6, 2⟩] := by
  have hs : ∀ pkt, Op.insert pkt ∈ [Op.insert ⟨5, 0⟩, Op.insert ⟨8, 1⟩, Op.insert ⟨6, 2⟩] →
      pkt.seq < 2 ^ 64 := by
    intro pkt h
    simp only [List.mem_cons, Op.insert.injEq, List.mem_singleton, reduceCtorEq, or_false,
      List.mem_nil_iff] at h
    rcases h with rfl | rfl | rfl <;> decide
  have hc := created_wf_winv lp64 8 [Op.insert ⟨5, 0⟩, Op.insert ⟨8, 1⟩, Op.insert ⟨6, 2⟩]
    ⟨3, rfl⟩ ⟨by decide, by decide⟩ hs
  have e := insert_all_run lp64 [⟨5, 0⟩, ⟨8, 1⟩, ⟨6, 2⟩] (mlvpn_reorder_create lp64 8)
  simp only [List.map_cons, List.map_nil] at e
  rw [← e] at hc
  exact ⟨(C5_drain_contiguous _ 10 hc.1 hc.2).2.2.2.2.2.2.2.1, by decide⟩

/-- C14 (counterexample). After insert 5, insert 7, drain(10) on 8 slots the
slot at `head` is empty; the pass of force-drain that skips it moves `head` from
1 to 2 and leaves `min_seqn` at 6. -/
theorem C14_skip_keeps_min_seqn :
    slot (mlvpn_reorder_drain (insert_all (mlvpn_reorder_create lp64 8) [⟨5, 0⟩, ⟨7, 1⟩]).1 10).b
      (mlvpn_reorder_drain (insert_all (mlvpn_reorder_create lp64 8) [⟨5, 0⟩, ⟨7, 1⟩]).1
        10).b.order_buf.head = none ∧
    (force_drain_body 0
      { b := (mlvpn_reorder_drain (insert_all (mlvpn_reorder_create lp64 8) [⟨5, 0⟩, ⟨7, 1⟩]).1
          10).b
        pkts := [], first_drained := 0, drain_cnt := 0, skipped_holes := 0
        last_packet := 8, drain_log := [] }).b.order_buf.head = 2 ∧
    (force_drain_body 0
      { b := (mlvpn_reorder_drain (insert_all (mlvpn_reorder_create lp64 8) [⟨5, 0⟩, ⟨7, 1⟩]).1
          10).b
        pkts := [], first_drained := 0, drain_cnt := 0, skipped_holes := 0
        last_packet := 8, drain_log := [] }).b.min_seqn ≠
      ((mlvpn_reorder_drain (insert_all (mlvpn_reorder_create lp64 8) [⟨5, 0⟩, ⟨7, 1⟩]).1
        10).b.min_seqn + 1) % 2 ^ 64 := by
  refine ⟨by decide, by decide, by decide⟩

/-- C16 (evaluation). The hole count force-drain logs, on a buffer of 8 slots
and with a trace array of 10 bytes, which all writes stay inside: after insert
5, insert 7, drain(10) a force-drain(10) logs 1 hole; on a freshly created
buffer force-drain(10) passes over the 8 empty slots, emits nothing and logs 9
holes.  After insert 5, insert 7, drain(10) the statements of a force-drain(1)
skip one hole, emit packet 7 and compute `2 ^ 64 - 5` holes; that call writes
outside its trace array of 1 byte and has no defined result. -/
theorem C16_logged_holes_eval :
    (mlvpn_reorder_force_drain
      (mlvpn_reorder_drain (insert_all (mlvpn_reorder_create lp64 8) [⟨5, 0⟩, ⟨7, 1⟩]).1 10).b
        10).map (fun r => r.log_holes) = some 1 ∧
    (mlvpn_reorder_force_drain (mlvpn_reorder_create lp64 8) 10).map (fun r => r.log_holes)
      = some 9 ∧
    (mlvpn_reorder_force_drain (mlvpn_reorder_create lp64 8) 10).map (fun r => r.pkts)
      = some [] ∧
    (mlvpn_reorder_force_drain (mlvpn_reorder_create lp64 8) 10).map
      (fun r => (r.drain_log.filter (fun e => e.2 = 69)).length) = some 8 ∧
    (force_drain_unchecked
      (mlvpn_reorder_drain (insert_all (mlvpn_reorder_create lp64 8) [⟨5, 0⟩, ⟨7, 1⟩]).1 10).b
        1).log_holes = 2 ^ 64 - 5 ∧
    (force_drain_unchecked
      (mlvpn_reorder_drain (insert_all (mlvpn_reorder_create lp64 8) [⟨5, 0⟩, ⟨7, 1⟩]).1 10).b
        1).pkts = [⟨7, 1⟩] ∧
    ((force_drain_unchecked
      (mlvpn_reorder_drain (insert_all (mlvpn_reorder_create lp64 8) [⟨5, 0⟩, ⟨7, 1⟩]).1 10).b
        1).drain_log.filter (fun e => e.2 = 69)).length = 1 ∧
    mlvpn_reorder_force_drain
      (mlvpn_reorder_drain (insert_all (mlvpn_reorder_create lp64 8) [⟨5, 0⟩, ⟨7, 1⟩]).1 10).b
        1 = none := by
  refine ⟨by decide, by decide, by decide, by decide, by decide, by decide, by decide,
    by decide⟩

/-- C20. Trace-array bounds: for a power-of-two size `c` and a trace array of
length `m` (the `max_pkts` argument), every index force-drain writes into the
trace (the loop counter on each pass, and `last_packet + 1` at the end) is
below `m` for every buffer of that size if and only if `m ≥ c + 2`; that is,
force-drain has a defined result on every buffer of that size if and only if
`m ≥ c + 2`. -/
theorem C20_trace_bounds (c m : Nat) (hp : ∃ k, c = 2 ^ k) (hc : c < 2 ^ 32) :
    ((∀ b : mlvpn_reorder_buffer, WF b → b.order_buf.size = c →
      ∀ e, e ∈ (force_drain_unchecked b m).drain_log → e.1 < m) ↔ c + 2 ≤ m) ∧
    ((∀ b : mlvpn_reorder_buffer, WF b → b.order_buf.size = c →
      (mlvpn_reorder_force_drain b m).isSome = true) ↔ c + 2 ≤ m) := by
  have h1 := trace_bounds_unchecked c m hp hc
  refine ⟨h1, ?_⟩
  constructor
  · intro h
    apply h1.1
    intro b hw hsz e he
    have hsome := h b hw hsz
    cases hr : mlvpn_reorder_force_drain b m with
    | none => rw [hr] at hsome; cases hsome
    | some r =>
      obtain ⟨e1, e2⟩ := force_drain_eq_some b m r hr
      rw [e1] at e2
      exact e2 e he
  · intro hm b _ hsz
    rw [force_drain_defined b m (by omega)]
    rfl

theorem C20_trace_bounds_witness :
    ((∀ b : mlvpn_reorder_buffer, WF b → b.order_buf.size = 8 →
      ∀ e, e ∈ (force_drain_unchecked b 10).drain_log → e.1 < 10) ↔ 8 + 2 ≤ 10) ∧
    ((∀ b : mlvpn_reorder_buffer, WF b → b.order_buf.size = 8 →
      (mlvpn_reorder_force_drain b 10).isSome = true) ↔ 8 + 2 ≤ 10) :=
  C20_trace_bounds 8 10 ⟨3, rfl⟩ (by decide)

/-- C7 (amended). Force drain: on a buffer that satisfies the window invariant
and has `n` occupied slots, a force-drain whose trace writes stay inside the
array of `max_pkts` bytes returns `min max_pkts n` and outputs the first
`min max_pkts n` packets met when scanning the slots from `head`, empty slots
skipped; their sequence numbers are `min_seqn + o` for strictly increasing
window offsets `o`.  Every force-drain with `max_pkts ≥ size + 2` is of that
kind.  After inserting 5 and 7 into a fresh buffer of power-of-two size at
least 8 whose allocation fits 32 bits, drain(10) yields the packet 5 and a
following force-drain(m) with `m ≥ size + 2` the packet 7. -/
theorem C7_force_drain_skips_holes :
    (∀ (b : mlvpn_reorder_buffer) (max_pkts : Nat) (r : force_drain_result), WF b → WInv b →
      mlvpn_reorder_force_drain b max_pkts = some r →
      r.ret = min max_pkts (occupied b) ∧
      r.pkts =
        ((List.range b.order_buf.size).filterMap
          (fun j => slot b ((b.order_buf.head + j) % b.order_buf.size))).take
            (min max_pkts (occupied b)) ∧
      r.pkts.length = r.ret ∧
      ∃ offs : List Nat, offs.Pairwise (fun x y => x < y) ∧
        (∀ o, o ∈ offs → o < b.order_buf.size) ∧
        r.pkts.map mlvpn_pkt_t.seq = offs.map (fun o => (b.min_seqn + o) % 2 ^ 64)) ∧
    (∀ (b : mlvpn_reorder_buffer) (max_pkts : Nat), b.order_buf.size + 2 ≤ max_pkts →
      ∃ r, mlvpn_reorder_force_drain b max_pkts = some r) ∧
    (∀ (L : Layout) (size r1 r2 m : Nat), (∃ e, size = 2 ^ e) → Fits L size → 8 ≤ size →
      size + 2 ≤ m →
      (mlvpn_reorder_drain
        (insert_all (mlvpn_reorder_create L size) [⟨5, r1⟩, ⟨7, r2⟩]).1 10).pkts = [⟨5, r1⟩] ∧
      (mlvpn_reorder_force_drain
        (mlvpn_reorder_drain
          (insert_all (mlvpn_reorder_create L size) [⟨5, r1⟩, ⟨7, r2⟩]).1 10).b m).map
            (fun r => r.pkts) = some [⟨7, r2⟩]) := by
  refine ⟨?_, fun b m hm => ⟨_, force_drain_defined b m hm⟩, ?_⟩
  · intro b max_pkts r hw hinv hr
    rw [(force_drain_eq_some b max_pkts r hr).1]
    obtain ⟨h1, h2, h3⟩ := force_drain_pkts b max_pkts hw
    refine ⟨h2, ?_, h3, force_drain_order b max_pkts hw hinv⟩
    rw [h1]
    have hl := window_pkts_length b hw
    show List.take max_pkts (window_pkts b) = List.take (min max_pkts (occupied b)) (window_pkts b)
    rw [← hl, List.take_eq_take]
    omega
  · intro L size r1 r2 m hp hf h8 hm
    obtain ⟨k1, k2, k3⟩ := gap_scenario L size r1 r2 m hp hf h8 (by omega)
    refine ⟨k1, ?_⟩
    rw [force_drain_defined _ m (by rw [k2]; exact hm)]
    show some (force_drain_unchecked _ m).pkts = _
    rw [k3]

theorem C7_force_drain_skips_holes_witness :
    (mlvpn_reorder_drain
      (insert_all (mlvpn_reorder_create lp64 8) [⟨5, 0⟩, ⟨7, 1⟩]).1 10).pkts = [⟨5, 0⟩] ∧
    (mlvpn_reorder_force_drain
      (mlvpn_reorder_drain
        (insert_all (mlvpn_reorder_create lp64 8) [⟨5, 0⟩, ⟨7, 1⟩]).1 10).b 10).map
          (fun r => r.pkts) = some [⟨7, 1⟩] :=
  C7_force_drain_skips_holes.2.2 lp64 8 0 1 10 ⟨3, rfl⟩ ⟨by decide, by decide⟩ (by decide)
    (by decide)

/-- C7 (counterexample). On 16 slots, after insert 5, insert 7 and drain(10), a
force-drain(10) passes over all 16 slots (only one packet is held, so the limit
of 10 is never reached) and writes the trace indices 0 to 15 into an array of
10 bytes: the call has no defined result.  The same holds on 8 slots for a
force-drain(1), which is to return `min 1 1`.  With `size = 2 ^ 28` on LP64 the
allocation size of create wraps, the created buffer has size 0 and the inserts
of 5 and 7 are both rejected. -/
theorem C7_scenario_overrun :
    mlvpn_reorder_force_drain
      (mlvpn_reorder_drain
        (insert_all (mlvpn_reorder_create lp64 16) [⟨5, 0⟩, ⟨7, 1⟩]).1 10).b 10 = none ∧
    (force_drain_unchecked
      (mlvpn_reorder_drain
        (insert_all (mlvpn_reorder_create lp64 16) [⟨5, 0⟩, ⟨7, 1⟩]).1 10).b 10).drain_log.map
          Prod.fst = List.range 16 ++ [2] ∧
    mlvpn_reorder_force_drain
      (mlvpn_reorder_drain
        (insert_all (mlvpn_reorder_create lp64 8) [⟨5, 0⟩, ⟨7, 1⟩]).1 10).b 1 = none ∧
    (mlvpn_reorder_create lp64 (2 ^ 28)).order_buf.size = 0 ∧
    (insert_all (mlvpn_reorder_create lp64 (2 ^ 28)) [⟨5, 0⟩, ⟨7, 1⟩]).2 = [-1, -1] := by
  refine ⟨by decide, by decide, by decide, by decide, by decide⟩

/-- C12 (amended). Force-drain termination: a force-drain whose trace writes
stay inside the array of `max_pkts` bytes returns after examining at most
`size` slots (one per pass of its loop, and every pass moves `head` on by one
slot), and it emits at most `min max_pkts size` packets, whatever the window
holds.  Every force-drain with `max_pkts ≥ size + 2` is of that kind and
returns. -/
theorem C12_force_drain_bounded :
    (∀ (b : mlvpn_reorder_buffer) (max_pkts : Nat) (r : force_drain_result),
      mlvpn_reorder_force_drain b max_pkts = some r →
      (force_drain_reads max_pkts b.order_buf.size 0
        { b := b, pkts := [], first_drained := 0, drain_cnt := 0, skipped_holes := 0
          last_packet := b.order_buf.size, drain_log := [] }).length ≤ b.order_buf.size ∧
      r.drain_log.length ≤ b.order_buf.size + 1 ∧
      r.pkts.length ≤ min max_pkts b.order_buf.size ∧
      r.ret ≤ min max_pkts b.order_buf.size) ∧
    (∀ (b : mlvpn_reorder_buffer) (max_pkts : Nat), b.order_buf.size + 2 ≤ max_pkts →
      ∃ r, mlvpn_reorder_force_drain b max_pkts = some r) ∧
    (∀ (i : Nat) (v : force_drain_vars),
      (force_drain_body i v).b.order_buf.head =
        (v.b.order_buf.head + 1) &&& v.b.order_buf.mask) ∧
    (∀ (i : Nat) (v : force_drain_vars), WF v.b →
      (force_drain_body i v).b.order_buf.head =
        (v.b.order_buf.head + 1) % v.b.order_buf.size) := by
  obtain ⟨h1, h2, h3⟩ := force_drain_bounded_unchecked
  refine ⟨?_, fun b m hm => ⟨_, force_drain_defined b m hm⟩, h2, h3⟩
  intro b max_pkts r hr
  rw [(force_drain_eq_some b max_pkts r hr).1]
  exact h1 b max_pkts

/-- C12 (counterexample). On 8 slots holding the packets 5 and 7, a
force-drain(2) emits both after three passes and writes the trace indices 0, 1,
2 and then 3 into an array of 2 bytes: the call has no defined result. -/
theorem C12_no_result :
    mlvpn_reorder_force_drain
      (insert_all (mlvpn_reorder_create lp64 8) [⟨5, 0⟩, ⟨7, 1⟩]).1 2 = none ∧
    (force_drain_unchecked
      (insert_all (mlvpn_reorder_create lp64 8) [⟨5, 0⟩, ⟨7, 1⟩]).1 2).drain_log.map Prod.fst
        = [0, 1, 2, 3] := by
  refine ⟨by decide, by decide⟩

theorem force_drain_empty_bound (b : mlvpn_reorder_buffer) (m : Nat)
    (hpk : (force_drain_unchecked b m).pkts = []) (hsz : b.order_buf.size < 2 ^ 32)
    (hw : ∀ e, e ∈ (force_drain_unchecked b m).drain_log → e.1 < m) :
    b.order_buf.size + 2 ≤ m := by
  obtain ⟨t, ht, h1, _, _, _, h5, _⟩ := force_drain_acct b m
  have hlast : (force_drain_loop m b.order_buf.size 0
      { b := b, pkts := [], first_drained := 0, drain_cnt := 0, skipped_holes := 0
        last_packet := b.order_buf.size, drain_log := [] }).last_packet = b.order_buf.size := by
    rcases h5 with ⟨_, e⟩ | e
    · exact e
    · exfalso
      obtain ⟨t', _, _, _, _, h4', _, h6', _⟩ := force_drain_loop_acct m
        b.order_buf.size 0
        { b := b, pkts := [], first_drained := 0, drain_cnt := 0, skipped_holes := 0
          last_packet := b.order_buf.size, drain_log := [] }
      have hz : (force_drain_loop m b.order_buf.size 0
        { b := b, pkts := [], first_drained := 0, drain_cnt := 0, skipped_holes := 0
          last_packet := b.order_buf.size, drain_log := [] }).pkts = [] := hpk
      rw [hz] at h6'
      simp only [List.length_nil, Nat.zero_add, Nat.add_zero] at h6' h4'
      rcases h4' with ⟨_, e2⟩ | ⟨e1, _⟩
      · rw [e2] at e
        omega
      · omega
  rw [hlast] at h1
  have hmem : (b.order_buf.size + 1) % 2 ^ 64 ∈
      (force_drain_unchecked b m).drain_log.map Prod.fst := by
    rw [h1]; simp
  obtain ⟨e, he, hfst⟩ := List.mem_map.1 hmem
  have := hw e he
  rw [hfst, Nat.mod_eq_of_lt (by omega)] at this
  omega

/-- C19 (amended). Full scan: on a buffer of power-of-two size with `n` occupied
slots, a force-drain with `max_pkts > n` whose trace writes stay inside the
array of `max_pkts` bytes returns `n`, leaves every slot empty and `head` where
it was, and leaves `min_seqn` at the last emitted sequence number plus 1, or
unchanged when nothing was emitted.  On a buffer without occupied slot such a
force-drain returns 0 and leaves the whole state unchanged, and it has
`max_pkts ≥ size + 2`.  Every force-drain with `max_pkts ≥ size + 2` is of that
kind. -/
theorem C19_full_scan :
    (∀ (b : mlvpn_reorder_buffer) (max_pkts : Nat) (r : force_drain_result), WF b →
      occupied b < max_pkts → mlvpn_reorder_force_drain b max_pkts = some r →
      r.ret = occupied b ∧
      r.pkts.length = occupied b ∧
      r.drain_log.length = b.order_buf.size + 1 ∧
      (∀ q, q < b.order_buf.size → slot r.b q = none) ∧
      r.b.order_buf.head = b.order_buf.head ∧
      r.b.min_seqn =
        (match r.pkts.getLast? with
         | some p => (p.seq + 1) % 2 ^ 64
         | none => b.min_seqn)) ∧
    (∀ (b : mlvpn_reorder_buffer) (max_pkts : Nat) (r : force_drain_result), WF b →
      occupied b = 0 → mlvpn_reorder_force_drain b max_pkts = some r →
      r.ret = 0 ∧ r.pkts = [] ∧ r.b = b ∧ b.order_buf.size + 2 ≤ max_pkts) ∧
    (∀ (b : mlvpn_reorder_buffer) (max_pkts : Nat), b.order_buf.size + 2 ≤ max_pkts →
      ∃ r, mlvpn_reorder_force_drain b max_pkts = some r) := by
  obtain ⟨h1, h2⟩ := full_scan_unchecked
  refine ⟨?_, ?_, fun b m hm => ⟨_, force_drain_defined b m hm⟩⟩
  · intro b max_pkts r hw hlt hr
    rw [(force_drain_eq_some b max_pkts r hr).1]
    exact h1 b max_pkts hw hlt
  · intro b max_pkts r hw h0 hr
    obtain ⟨e1, e2⟩ := force_drain_eq_some b max_pkts r hr
    rw [e1] at e2 ⊢
    obtain ⟨k1, k2, k3⟩ := h2 b max_pkts hw h0
    exact ⟨k1, k2, k3, force_drain_empty_bound b max_pkts k2 hw.size_lt e2⟩

theorem C19_full_scan_witness :
    (mlvpn_reorder_force_drain
      (mlvpn_reorder_drain (insert_all (mlvpn_reorder_create lp64 8) [⟨5, 0⟩, ⟨7, 1⟩]).1 10).b
        10).map (fun r => (r.pkts, r.b.order_buf.head, r.b.min_seqn))
      = some ([⟨7, 1⟩], 1, 8) ∧
    (∀ r, mlvpn_reorder_force_drain (mlvpn_reorder_create lp64 8) 10 = some r →
      r.ret = 0 ∧ r.pkts = [] ∧ r.b = mlvpn_reorder_create lp64 8 ∧
      (mlvpn_reorder_create lp64 8).order_buf.size + 2 ≤ 10) := by
  have hw : WF (mlvpn_reorder_create lp64 8) :=
    ⟨⟨3, rfl⟩, by decide, rfl, by decide, by decide, by decide⟩
  exact ⟨by decide, fun r hr => C19_full_scan.2.1 _ 10 r hw (by decide) hr⟩

/-- C19 (counterexample). On 8 empty slots a force-drain(1) passes over all 8
slots and writes the trace indices 0 to 7 and then 9 into an array of 1 byte:
the call has no defined result, so it does not return 0 with the state
unchanged. -/
theorem C19_small_trace :
    mlvpn_reorder_force_drain (mlvpn_reorder_create lp64 8) 1 = none ∧
    (force_drain_unchecked (mlvpn_reorder_create lp64 8) 1).drain_log.map Prod.fst
      = [0, 1, 2, 3, 4, 5, 6, 7, 9] := by
  refine ⟨by decide, by decide⟩

/-- C18 (amended). Conservation: for drain, and for a force-drain whose trace
writes stay inside the array of `max_pkts` bytes (as with `max_pkts ≥ size + 2`),
on a buffer with power-of-two size, the packets output followed by the packets
still held afterwards are, in window order, exactly the packets held before the
call, and no slot gains a packet; when the held packets are pairwise distinct
(as they are under the window invariant), the output has no repetition and no
slot holds an output packet afterwards. -/
theorem C18_conservation (b : mlvpn_reorder_buffer) (max_pkts : Nat) (hw : WF b) :
    ((mlvpn_reorder_drain b max_pkts).pkts ++ window_pkts (mlvpn_reorder_drain b max_pkts).b
        = window_pkts b ∧
      (∀ q, slot (mlvpn_reorder_drain b max_pkts).b q = none ∨
        slot (mlvpn_reorder_drain b max_pkts).b q = slot b q) ∧
      ((window_pkts b).Nodup →
        (mlvpn_reorder_drain b max_pkts).pkts.Nodup ∧
        ∀ p, p ∈ (mlvpn_reorder_drain b max_pkts).pkts → ∀ q, q < b.order_buf.size →
          slot (mlvpn_reorder_drain b max_pkts).b q ≠ some p)) ∧
    (∀ r, mlvpn_reorder_force_drain b max_pkts = some r →
      r.pkts ++ window_pkts r.b = window_pkts b ∧
      (∀ q, slot r.b q = none ∨ slot r.b q = slot b q) ∧
      ((window_pkts b).Nodup →
        r.pkts.Nodup ∧
        ∀ p, p ∈ r.pkts → ∀ q, q < b.order_buf.size → slot r.b q ≠ some p)) ∧
    (b.order_buf.size + 2 ≤ max_pkts → ∃ r, mlvpn_reorder_force_drain b max_pkts = some r) ∧
    (WInv b → (window_pkts b).Nodup) ∧
    (∀ p, p ∈ window_pkts b ↔ ∃ q, q < b.order_buf.size ∧ slot b q = some p) := by
  obtain ⟨h1, h2, h3, h4⟩ := conservation_unchecked b max_pkts hw
  refine ⟨h1, ?_, fun hm => ⟨_, force_drain_defined b max_pkts hm⟩, h3, h4⟩
  intro r hr
  rw [(force_drain_eq_some b max_pkts r hr).1]
  exact h2

theorem C18_conservation_witness :
    (∃ r, mlvpn_reorder_force_drain
        (insert_all (mlvpn_reorder_create lp64 8) [⟨5, 0⟩, ⟨7, 1⟩, ⟨9, 2⟩]).1 10 = some r) ∧
    (mlvpn_reorder_force_drain
        (insert_all (mlvpn_reorder_create lp64 8) [⟨5, 0⟩, ⟨7, 1⟩, ⟨9, 2⟩]).1 10).map
          (fun r => r.pkts ++ window_pkts r.b) = some [⟨5, 0⟩, ⟨7, 1⟩, ⟨9, 2⟩] ∧
    window_pkts (insert_all (mlvpn_reorder_create lp64 8) [⟨5, 0⟩, ⟨7, 1⟩, ⟨9, 2⟩]).1 =
      [⟨5, 0⟩, ⟨7, 1⟩, ⟨9, 2⟩] := by
  have hs : ∀ pkt, Op.insert pkt ∈ [Op.insert ⟨5, 0⟩, Op.insert ⟨7, 1⟩, Op.insert ⟨9, 2⟩] →
      pkt.seq < 2 ^ 64 := by
    intro pkt h
    simp only [List.mem_cons, Op.insert.injEq, List.mem_singleton, reduceCtorEq, or_false,
      List.mem_nil_iff] at h
    rcases h with rfl | rfl | rfl <;> decide
  have hc := created_wf_winv lp64 8 [Op.insert ⟨5, 0⟩, Op.insert ⟨7, 1⟩, Op.insert ⟨9, 2⟩]
    ⟨3, rfl⟩ ⟨by decide, by decide⟩ hs
  have e := insert_all_run lp64 [⟨5, 0⟩, ⟨7, 1⟩, ⟨9, 2⟩] (mlvpn_reorder_create lp64 8)
  simp only [List.map_cons, List.map_nil] at e
  rw [← e] at hc
  exact ⟨(C18_conservation _ 10 hc.1).2.2.1 (by decide), by decide, by decide⟩

/-- C18 (counterexample). A buffer of 4 slots that holds the same packet in the
slots 0 and 2: drain(10) outputs that packet once, from slot 0, and slot 2 still
holds it afterwards.  On 8 slots holding the packets 5, 7 and 9, a
force-drain(2) writes the trace indices 0 to 3 into an array of 2 bytes and
has no defined result. -/
theorem C18_twin_packet :
    WF { min_seqn := 5, memsize := 120, is_initialized := true
         order_buf := { size := 4, mask := 3, head := 0, tail := 0, count := 2
                        pkts := [some ⟨5, 0⟩, none, some ⟨5, 0⟩, none,
                          none, none, none, none] } } ∧
    (mlvpn_reorder_drain
      { min_seqn := 5, memsize := 120, is_initialized := true
        order_buf := { size := 4, mask := 3, head := 0, tail := 0, count := 2
                       pkts := [some ⟨5, 0⟩, none, some ⟨5, 0⟩, none,
                         none, none, none, none] } } 10).pkts = [⟨5, 0⟩] ∧
    slot (mlvpn_reorder_drain
      { min_seqn := 5, memsize := 120, is_initialized := true
        order_buf := { size := 4, mask := 3, head := 0, tail := 0, count := 2
                       pkts := [some ⟨5, 0⟩, none, some ⟨5, 0⟩, none,
                         none, none, none, none] } } 10).b 2 = some ⟨5, 0⟩ ∧
    mlvpn_reorder_force_drain
      (insert_all (mlvpn_reorder_create lp64 8) [⟨5, 0⟩, ⟨7, 1⟩, ⟨9, 2⟩]).1 2 = none ∧
    (force_drain_unchecked
      (insert_all (mlvpn_reorder_create lp64 8) [⟨5, 0⟩, ⟨7, 1⟩, ⟨9, 2⟩]).1 2).drain_log.map
        Prod.fst = [0, 1, 2, 3] :=
  ⟨⟨⟨2, rfl⟩, by decide, rfl, by decide, by decide, by decide⟩, by decide, by decide,
    by decide, by decide⟩

theorem no_overwrite_of_run (L : Layout) (ops : List Op) (b b1 : mlvpn_reorder_buffer)
    (h : run_ops L b ops = some b1) (hno : no_overwrite L b ops) :
    no_overwrite_unchecked L b ops := by
  induction ops generalizing b with
  | nil => trivial
  | cons op ops ih =>
    unfold run_ops at h
    cases ha : apply_op L b op with
    | none => rw [ha] at h; cases h
    | some b2 =>
      rw [ha] at h
      have e2 := apply_op_eq_some L b op b2 ha
      cases op with
      | insert pkt =>
        obtain ⟨n1, n2⟩ := hno
        refine ⟨n1, ?_⟩
        have : b2 = (mlvpn_reorder_insert b pkt).1 := e2
        rw [← this]
        rw [← this] at n2
        exact ih b2 h n2
      | drain m =>
        unfold no_overwrite at hno
        rw [ha] at hno
        unfold no_overwrite_unchecked
        rw [← e2]
        exact ih b2 h hno
      | force_drain m =>
        unfold no_overwrite at hno
        rw [ha] at hno
        unfold no_overwrite_unchecked
        rw [← e2]
        exact ih b2 h hno
      | reset =>
        unfold no_overwrite at hno
        rw [ha] at hno
        unfold no_overwrite_unchecked
        rw [← e2]
        exact ih b2 h hno

/-- C8 (amended). Ordering: take a buffer created with a power-of-two size whose
allocation fits 32 bits, and a sequence of insert, drain and force-drain calls
in which every inserted sequence number `s` has `s + size < 2 ^ 64`.  If every
force-drain of the sequence has `max_pkts ≥ size + 2`, all calls have a result;
and whenever all force-drain calls stay inside their trace array, the sequence
numbers of the emitted packets are non-decreasing in emission order, within one
call and across calls. -/
theorem C8_emission_order (L : Layout) (size : Nat) (ops : List Op)
    (hp : ∃ k, size = 2 ^ k) (hf : Fits L size) (hnr : Op.reset ∉ ops)
    (hs : ∀ pkt, Op.insert pkt ∈ ops → pkt.seq + size < 2 ^ 64) :
    ((∀ m, Op.force_drain m ∈ ops → size + 2 ≤ m) →
      ∃ E, run_emit L (mlvpn_reorder_create L size) ops = some E) ∧
    (∀ E, run_emit L (mlvpn_reorder_create L size) ops = some E →
      (E.map mlvpn_pkt_t.seq).Pairwise (fun x y => x ≤ y)) := by
  have hc0 := create_created L size hf hp
  have hs1 : ∀ pkt, Op.insert pkt ∈ ops → pkt.seq < 2 ^ 64 := fun pkt h => by
    have := hs pkt h
    omega
  refine ⟨fun hm => ⟨_, run_emit_defined L size hf hp ops _ hc0 hs1 hm⟩, ?_⟩
  intro E hE
  rw [run_emit_eq_some L ops _ E hE]
  exact emission_order_unchecked L size ops hp hf hnr hs

theorem C8_emission_order_witness :
    (∃ E, run_emit lp64 (mlvpn_reorder_create lp64 8)
        [Op.insert ⟨5, 0⟩, Op.insert ⟨7, 1⟩, Op.drain 10, Op.insert ⟨9, 2⟩,
          Op.force_drain 10] = some E) ∧
    run_emit lp64 (mlvpn_reorder_create lp64 8)
        [Op.insert ⟨5, 0⟩, Op.insert ⟨7, 1⟩, Op.drain 10, Op.insert ⟨9, 2⟩,
          Op.force_drain 10] = some [⟨5, 0⟩, ⟨7, 1⟩, ⟨9, 2⟩] :=
  ⟨(C8_emission_order lp64 8
      [Op.insert ⟨5, 0⟩, Op.insert ⟨7, 1⟩, Op.drain 10, Op.insert ⟨9, 2⟩, Op.force_drain 10]
      ⟨3, rfl⟩ ⟨by decide, by decide⟩ (by decide)
      (by
        intro pkt h
        simp only [List.mem_cons, Op.insert.injEq, List.mem_singleton, reduceCtorEq, or_false,
          false_or, List.mem_nil_iff] at h
        rcases h with rfl | rfl | rfl <;> decide)).1
      (by
        intro m h
        simp only [List.mem_cons, Op.force_drain.injEq, List.mem_singleton, reduceCtorEq,
          or_false, false_or, List.mem_nil_iff] at h
        rw [h]),
    by decide⟩

/-- C8 (counterexample). On 8 slots: insert `2 ^ 64 - 2`, insert `2 ^ 64 - 1`,
drain(10), insert 3, force-drain(10).  The drain emits the first two packets
and leaves `min_seqn` at 0, so the older packet 3 is accepted and the
force-drain, whose trace writes stay inside its array, emits it after them: the
emitted sequence numbers decrease although no inserted sequence number is the
result of a wrap-around.  A sequence of calls that ends in a force-drain(1)
writing outside its trace array has no defined output.  With `size = 2 ^ 29`
on LP64 the allocation of create holds no cell and the first insert targets
cell 0, outside the allocation. -/
theorem C8_order_at_wrap :
    run_emit lp64 (mlvpn_reorder_create lp64 8)
        [Op.insert ⟨2 ^ 64 - 2, 0⟩, Op.insert ⟨2 ^ 64 - 1, 1⟩, Op.drain 10, Op.insert ⟨3, 2⟩,
          Op.force_drain 10] = some [⟨2 ^ 64 - 2, 0⟩, ⟨2 ^ 64 - 1, 1⟩, ⟨3, 2⟩] ∧
    ¬ (([⟨2 ^ 64 - 2, 0⟩, ⟨2 ^ 64 - 1, 1⟩, ⟨3, 2⟩] : List mlvpn_pkt_t).map
        mlvpn_pkt_t.seq).Pairwise (fun x y => x ≤ y) ∧
    run_emit lp64 (mlvpn_reorder_create lp64 8) [Op.insert ⟨5, 0⟩, Op.force_drain 1] = none ∧
    (mlvpn_reorder_create lp64 (2 ^ 29)).order_buf.size = 2 ^ 29 ∧
    (mlvpn_reorder_create lp64 (2 ^ 29)).order_buf.pkts.length = 0 ∧
    insert_target (mlvpn_reorder_create lp64 (2 ^ 29)) ⟨5, 0⟩ = 0 := by
  refine ⟨by decide, by decide, by decide, by decide, by decide, by decide⟩

/-- C9 (amended). Reset: take `mlvpn_reorder_create L size` with `size` a power
of two whose allocation fits 32 bits.  In every state reached from it by insert,
drain, force-drain and reset calls of which the force-drain calls stay inside
their trace array (as they do with `max_pkts ≥ size + 2`), reset gives back the
state `mlvpn_reorder_create L size` produces (all cells empty, head 0, count 0,
not initialized, same size and mask), so any later sequence of calls runs alike
on both; the next insert of any packet is accepted and sets `min_seqn` to its
sequence number. -/
theorem C9_reset_is_create (L : Layout) (size : Nat) (ops : List Op)
    (hp : ∃ k, size = 2 ^ k) (hf : Fits L size)
    (hs : ∀ pkt, Op.insert pkt ∈ ops → pkt.seq < 2 ^ 64) :
    ((∀ m, Op.force_drain m ∈ ops → size + 2 ≤ m) →
      ∃ b, run_ops L (mlvpn_reorder_create L size) ops = some b) ∧
    (∀ b, run_ops L (mlvpn_reorder_create L size) ops = some b →
      mlvpn_reorder_reset L b = mlvpn_reorder_create L size ∧
      (∀ q, slot (mlvpn_reorder_reset L b) q = none) ∧
      (mlvpn_reorder_reset L b).order_buf.head = 0 ∧
      (mlvpn_reorder_reset L b).order_buf.count = 0 ∧
      (mlvpn_reorder_reset L b).is_initialized = false ∧
      (mlvpn_reorder_reset L b).order_buf.size = size ∧
      (mlvpn_reorder_reset L b).order_buf.mask = size - 1 ∧
      (∀ later : List Op,
        run_ops L (mlvpn_reorder_reset L b) later =
          run_ops L (mlvpn_reorder_create L size) later) ∧
      (∀ later : List Op,
        run_emit L (mlvpn_reorder_reset L b) later =
          run_emit L (mlvpn_reorder_create L size) later) ∧
      (∀ p : mlvpn_pkt_t,
        (mlvpn_reorder_insert (mlvpn_reorder_reset L b) p).2 = 0 ∧
        (mlvpn_reorder_insert (mlvpn_reorder_reset L b) p).1.min_seqn = p.seq)) := by
  have hpos := pow2_pos _ hp
  have hc0 := create_created L size hf hp
  refine ⟨fun hm => ⟨_, run_ops_defined L size hf hp ops _ hc0 hs hm⟩, ?_⟩
  intro b hb
  have hc := run_ops_created L size hf hp ops _ hc0 hs
  rw [← run_ops_eq_some L ops _ b hb] at hc
  have e : mlvpn_reorder_reset L b = fresh L size :=
    reset_eq L size hf hpos _ hc.size_eq hc.mem_eq hc.len_eq
  rw [e, create_eq L size hf hpos]
  exact ⟨rfl, fresh_slot L size, rfl, rfl, rfl, rfl, rfl, fun _ => rfl, fun _ => rfl,
    fresh_insert_accepted L size hf hp⟩

theorem C9_reset_is_create_witness :
    (∃ b, run_ops lp64 (mlvpn_reorder_create lp64 8)
        [Op.insert ⟨5, 0⟩, Op.insert ⟨7, 1⟩, Op.drain 10, Op.force_drain 10] = some b) ∧
    (run_ops lp64 (mlvpn_reorder_create lp64 8)
        [Op.insert ⟨5, 0⟩, Op.insert ⟨7, 1⟩, Op.drain 10, Op.force_drain 10]).map
          (mlvpn_reorder_reset lp64) = some (mlvpn_reorder_create lp64 8) :=
  ⟨(C9_reset_is_create lp64 8
      [Op.insert ⟨5, 0⟩, Op.insert ⟨7, 1⟩, Op.drain 10, Op.force_drain 10]
      ⟨3, rfl⟩ ⟨by decide, by decide⟩
      (by
        intro pkt h
        simp only [List.mem_cons, Op.insert.injEq, List.mem_singleton, reduceCtorEq, or_false,
          List.mem_nil_iff] at h
        rcases h with rfl | rfl <;> decide)).1
      (by
        intro m h
        simp only [List.mem_cons, Op.force_drain.injEq, List.mem_singleton, reduceCtorEq,
          or_false, false_or, List.mem_nil_iff] at h
        rw [h]),
    by decide⟩

/-- C9 (counterexample). With `size = 2 ^ 28` on LP64 the allocation size wraps
to 56 bytes, `mlvpn_reorder_init` refuses it and the created buffer has size 0
and `memsize` 0.  The first insert is rejected as future, and a reset after it
is refused as well, so it leaves the buffer initialized with `min_seqn` 5, not
in the state create produced.  On 8 slots a sequence of calls with a
force-drain(1), which writes outside its trace array, reaches no state that
reset could be applied to. -/
theorem C9_refused_create :
    (mlvpn_reorder_create lp64 (2 ^ 28)).order_buf.size = 0 ∧
    (mlvpn_reorder_insert (mlvpn_reorder_create lp64 (2 ^ 28)) ⟨5, 0⟩).2 = -1 ∧
    mlvpn_reorder_reset lp64 (mlvpn_reorder_insert (mlvpn_reorder_create lp64 (2 ^ 28)) ⟨5, 0⟩).1
      ≠ mlvpn_reorder_create lp64 (2 ^ 28) ∧
    run_ops lp64 (mlvpn_reorder_create lp64 (2 ^ 28)) [Op.insert ⟨5, 0⟩, Op.reset] =
      some (mlvpn_reorder_insert (mlvpn_reorder_create lp64 (2 ^ 28)) ⟨5, 0⟩).1 ∧
    run_ops lp64 (mlvpn_reorder_create lp64 8) [Op.insert ⟨5, 0⟩, Op.force_drain 1] = none := by
  refine ⟨by decide, by decide, by decide, by decide, by decide⟩

/-- C6 (counterexample). With `size = 2 ^ 28` on LP64 the allocation size wraps
to 56 bytes, `mlvpn_reorder_init` refuses it and the created buffer has size 0:
the insert of the single packet 5 into the freshly created buffer is rejected
as future. -/
theorem C6_create_wraps :
    (mlvpn_reorder_create lp64 (2 ^ 28)).order_buf.size = 0 ∧
    (insert_all (mlvpn_reorder_create lp64 (2 ^ 28)) [⟨5, 0⟩]).2 = [-1] ∧
    (insert_all (mlvpn_reorder_create lp64 (2 ^ 28)) [⟨5, 0⟩]).2 ≠ List.replicate 1 0 := by
  refine ⟨by decide, by decide, by decide⟩

/-- C11 (amended). Index safety: take `mlvpn_reorder_create L size` with `size`
a power of two whose allocation fits 32 bits.  If every force-drain of a
sequence of insert, drain, force-drain and reset calls has
`max_pkts ≥ size + 2`, the sequence reaches a state; and in every state reached
by calls whose force-drain calls stay inside their trace array, the size is
`size`, `head < size`, and the cell array holds at least `size` cells; every
index that drain reads or clears, and that a force-drain inside its trace
array reads or clears, is below `size`; an insert whose offset `d` satisfies
`0 ≤ d < size` writes the one cell `(head + d) mod size`, which is below `size`,
and an insert whose offset is outside `[0, size)` writes no cell. -/
theorem C11_index_safety (L : Layout) (size : Nat) (ops : List Op)
    (hp : ∃ k, size = 2 ^ k) (hf : Fits L size)
    (hs : ∀ pkt, Op.insert pkt ∈ ops → pkt.seq < 2 ^ 64) :
    ((∀ m, Op.force_drain m ∈ ops → size + 2 ≤ m) →
      ∃ b, run_ops L (mlvpn_reorder_create L size) ops = some b) ∧
    (∀ b, run_ops L (mlvpn_reorder_create L size) ops = some b →
      b.order_buf.size = size ∧
      b.order_buf.head < size ∧
      size ≤ b.order_buf.pkts.length ∧
      (∀ m i, i ∈ drain_reads m b → i < size) ∧
      (∀ m r, mlvpn_reorder_force_drain b m = some r →
        ∀ i, i ∈ force_drain_reads m size 0
          { b := b, pkts := [], first_drained := 0
            drain_cnt := 0, skipped_holes := 0, last_packet := size, drain_log := [] } →
        i < size) ∧
      (∀ pkt : mlvpn_pkt_t,
        (0 ≤ insert_offset (insert_floor b pkt) pkt.seq ∧
          insert_offset (insert_floor b pkt) pkt.seq < (size : Int) →
          (b.order_buf.head + (insert_offset (insert_floor b pkt) pkt.seq).toNat) % size
            < size ∧
          (mlvpn_reorder_insert b pkt).1.order_buf.pkts =
            b.order_buf.pkts.set
              ((b.order_buf.head + (insert_offset (insert_floor b pkt) pkt.seq).toNat) % size)
              (some pkt)) ∧
        (¬ (0 ≤ insert_offset (insert_floor b pkt) pkt.seq ∧
            insert_offset (insert_floor b pkt) pkt.seq < (size : Int)) →
          (mlvpn_reorder_insert b pkt).1.order_buf.pkts = b.order_buf.pkts))) := by
  have hc0 := create_created L size hf hp
  refine ⟨fun hm => ⟨_, run_ops_defined L size hf hp ops _ hc0 hs hm⟩, ?_⟩
  intro b hb
  have h := index_safety_unchecked L size ops hp hf hs
  have hc := run_ops_created L size hf hp ops _ hc0 hs
  rw [← run_ops_eq_some L ops _ b hb] at h hc
  obtain ⟨h1, h2, h3, h4, h5⟩ := h
  refine ⟨h1, h2, ?_, h3, fun m _ _ i hi => h4 m i hi, h5⟩
  have := hc.len_eq
  omega

theorem C11_index_safety_witness :
    (∃ b, run_ops lp64 (mlvpn_reorder_create lp64 8)
      [Op.insert ⟨5, 0⟩, Op.drain 10, Op.force_drain 10, Op.insert ⟨10, 1⟩] = some b) ∧
    (run_ops lp64 (mlvpn_reorder_create lp64 8)
      [Op.insert ⟨5, 0⟩, Op.drain 10, Op.force_drain 10, Op.insert ⟨10, 1⟩]).map
        (fun b => b.order_buf.head) = some 1 :=
  ⟨(C11_index_safety lp64 8
      [Op.insert ⟨5, 0⟩, Op.drain 10, Op.force_drain 10, Op.insert ⟨10, 1⟩]
      ⟨3, rfl⟩ ⟨by decide, by decide⟩
      (by
        intro pkt h
        simp only [List.mem_cons, Op.insert.injEq, List.mem_singleton, reduceCtorEq, or_false,
          false_or, List.mem_nil_iff] at h
        rcases h with rfl | rfl <;> decide)).1
      (by
        intro m h
        simp only [List.mem_cons, Op.force_drain.injEq, List.mem_singleton, reduceCtorEq,
          or_false, false_or, List.mem_nil_iff] at h
        rw [h]),
    by decide⟩

/-- C11 (counterexample). On LP64 the allocation size of create wraps for the
powers of two `2 ^ 28` and `2 ^ 29`.  With `size = 2 ^ 28` the created buffer
has size 0, so `head < size` fails.  With `size = 2 ^ 29` the created buffer has
size `2 ^ 29` and an allocation of 56 bytes, which holds no cell: the first
insert has offset 0 and its target cell 0 lies outside the allocation.  On 8
slots a sequence of calls with a force-drain(1), which writes outside its trace
array, reaches no state. -/
theorem C11_storage_overrun :
    (mlvpn_reorder_create lp64 (2 ^ 28)).order_buf.size = 0 ∧
    ¬ (mlvpn_reorder_create lp64 (2 ^ 28)).order_buf.head <
        (mlvpn_reorder_create lp64 (2 ^ 28)).order_buf.size ∧
    (mlvpn_reorder_create lp64 (2 ^ 29)).order_buf.size = 2 ^ 29 ∧
    (mlvpn_reorder_create lp64 (2 ^ 29)).memsize = 56 ∧
    (mlvpn_reorder_create lp64 (2 ^ 29)).order_buf.pkts.length = 0 ∧
    insert_offset (insert_floor (mlvpn_reorder_create lp64 (2 ^ 29)) ⟨5, 0⟩) 5 = 0 ∧
    insert_target (mlvpn_reorder_create lp64 (2 ^ 29)) ⟨5, 0⟩ = 0 ∧
    ¬ insert_target (mlvpn_reorder_create lp64 (2 ^ 29)) ⟨5, 0⟩ <
        (mlvpn_reorder_create lp64 (2 ^ 29)).order_buf.pkts.length ∧
    run_ops lp64 (mlvpn_reorder_create lp64 8) [Op.insert ⟨5, 0⟩, Op.force_drain 1] = none := by
  refine ⟨by decide, by decide, by decide, by decide, by decide, by decide, by decide,
    by decide, by decide⟩

/-- C13 (amended). Take `mlvpn_reorder_create L size` with `size` a power of two
whose allocation fits 32 bits, and a sequence of insert, drain, force-drain and
reset calls of which no insert is accepted into an occupied slot.  If every
force-drain of the sequence has `max_pkts ≥ size + 2`, the sequence reaches a
state; and in the state reached when all force-drain calls stay inside their
trace array, the `count` field equals the number of occupied slots. -/
theorem C13_count_without_overwrite (L : Layout) (size : Nat) (ops : List Op)
    (hp : ∃ k, size = 2 ^ k) (hf : Fits L size)
    (hs : ∀ pkt, Op.insert pkt ∈ ops → pkt.seq < 2 ^ 64)
    (hno : no_overwrite L (mlvpn_reorder_create L size) ops) :
    ((∀ m, Op.force_drain m ∈ ops → size + 2 ≤ m) →
      ∃ b, run_ops L (mlvpn_reorder_create L size) ops = some b) ∧
    (∀ b, run_ops L (mlvpn_reorder_create L size) ops = some b →
      b.order_buf.count = occupied b) := by
  have hc0 := create_created L size hf hp
  refine ⟨fun hm => ⟨_, run_ops_defined L size hf hp ops _ hc0 hs hm⟩, ?_⟩
  intro b hb
  have hno1 := no_overwrite_of_run L ops _ b hb hno
  rw [run_ops_eq_some L ops _ b hb]
  exact count_unchecked L size ops hp hf hs hno1

theorem C13_count_without_overwrite_witness :
    (∃ b, run_ops lp64 (mlvpn_reorder_create lp64 8)
      [Op.insert ⟨5, 0⟩, Op.insert ⟨7, 1⟩, Op.insert ⟨9, 2⟩, Op.drain 10, Op.force_drain 10,
        Op.insert ⟨12, 3⟩] = some b) ∧
    (run_ops lp64 (mlvpn_reorder_create lp64 8)
      [Op.insert ⟨5, 0⟩, Op.insert ⟨7, 1⟩, Op.insert ⟨9, 2⟩, Op.drain 10, Op.force_drain 10,
        Op.insert ⟨12, 3⟩]).map (fun b => (b.order_buf.count, occupied b)) = some (1, 1) :=
  ⟨(C13_count_without_overwrite lp64 8
      [Op.insert ⟨5, 0⟩, Op.insert ⟨7, 1⟩, Op.insert ⟨9, 2⟩, Op.drain 10, Op.force_drain 10,
        Op.insert ⟨12, 3⟩]
      ⟨3, rfl⟩ ⟨by decide, by decide⟩
      (by
        intro pkt h
        simp only [List.mem_cons, Op.insert.injEq, List.mem_singleton, reduceCtorEq, or_false,
          false_or, List.mem_nil_iff] at h
        rcases h with rfl | rfl | rfl | rfl <;> decide)
      ⟨fun _ => by decide, fun _ => by decide, fun _ => by decide, fun _ => by decide, trivial⟩).1
      (by
        intro m h
        simp only [List.mem_cons, Op.force_drain.injEq, List.mem_singleton, reduceCtorEq,
          or_false, false_or, List.mem_nil_iff] at h
        rw [h]),
    by decide⟩

/-- C13 (counterexample). On 8 slots, two inserts of sequence number 5 are both
accepted; afterwards one slot is occupied and `count` is 2.  A sequence of
calls with a force-drain(1), which writes outside its trace array, reaches no
state; and with `size = 2 ^ 29` on LP64 the allocation of create holds no
cell, so that the first insert targets cell 0 outside the allocation. -/
theorem C13_count_after_overwrite :
    (insert_all (mlvpn_reorder_create lp64 8) [⟨5, 0⟩, ⟨5, 1⟩]).2 = [0, 0] ∧
    run_ops lp64 (mlvpn_reorder_create lp64 8) [Op.insert ⟨5, 0⟩, Op.insert ⟨5, 1⟩] =
      some (insert_all (mlvpn_reorder_create lp64 8) [⟨5, 0⟩, ⟨5, 1⟩]).1 ∧
    (insert_all (mlvpn_reorder_create lp64 8) [⟨5, 0⟩, ⟨5, 1⟩]).1.order_buf.count = 2 ∧
    occupied (insert_all (mlvpn_reorder_create lp64 8) [⟨5, 0⟩, ⟨5, 1⟩]).1 = 1 ∧
    (insert_all (mlvpn_reorder_create lp64 8) [⟨5, 0⟩, ⟨5, 1⟩]).1.order_buf.count ≠
      occupied (insert_all (mlvpn_reorder_create lp64 8) [⟨5, 0⟩, ⟨5, 1⟩]).1 ∧
    run_ops lp64 (mlvpn_reorder_create lp64 8) [Op.insert ⟨5, 0⟩, Op.force_drain 1] = none ∧
    (mlvpn_reorder_create lp64 (2 ^ 29)).order_buf.size = 2 ^ 29 ∧
    (mlvpn_reorder_create lp64 (2 ^ 29)).order_buf.pkts.length = 0 ∧
    insert_target (mlvpn_reorder_create lp64 (2 ^ 29)) ⟨5, 0⟩ = 0 := by
  refine ⟨by decide, by decide, by decide, by decide, by decide, by decide, by decide,
    by decide, by decide⟩

/-- C15 (amended). Abandoned holes: take `mlvpn_reorder_create L size` with `size`
a power of two whose allocation fits 32 bits, and a state reached from it by
calls whose force-drain calls stay inside their trace array.  On such a state
every force-drain with `max_pkts ≥ size + 2` stays inside its trace array.
When a force-drain that stays inside its trace array emits a packet that sat
at window offset `o`,
the sequence number of every empty slot it skipped before it (window offset
`j < o`) is given up: an insert of a packet bearing that sequence number
directly after the call returns -2 (stale) and leaves the buffer as it is; and
if every sequence number `s` inserted before or after the call has
`s + size < 2 ^ 64`, no later drain or force-drain emits that sequence number
as long as the buffer is not reset. -/
theorem C15_abandoned_holes (L : Layout) (size : Nat) (ops : List Op) (max_pkts j o : Nat)
    (p : mlvpn_pkt_t) (b : mlvpn_reorder_buffer) (r : force_drain_result)
    (hp : ∃ k, size = 2 ^ k) (hf : Fits L size)
    (hs : ∀ q, Op.insert q ∈ ops → q.seq < 2 ^ 64)
    (hb : run_ops L (mlvpn_reorder_create L size) ops = some b)
    (hhole : wslot b j = none) (hjo : j < o) (ho : o < size) (hpo : wslot b o = some p)
    (hr : mlvpn_reorder_force_drain b max_pkts = some r) (hout : p ∈ r.pkts) :
    (∀ pkt : mlvpn_pkt_t, pkt.seq = (b.min_seqn + j) % 2 ^ 64 →
      (mlvpn_reorder_insert r.b pkt).2 = -2 ∧ (mlvpn_reorder_insert r.b pkt).1 = r.b) ∧
    (∀ later : List Op, Op.reset ∉ later →
      (∀ q, Op.insert q ∈ ops ++ later → q.seq + size < 2 ^ 64) →
      ∀ E, run_emit L r.b later = some E →
        ∀ e, e ∈ E → e.seq ≠ (b.min_seqn + j) % 2 ^ 64) ∧
    (∀ m, size + 2 ≤ m → ∃ r1, mlvpn_reorder_force_drain b m = some r1) := by
  have hb1 := run_ops_eq_some L ops _ b hb
  have hc := run_ops_created L size hf hp ops _ (create_created L size hf hp) hs
  rw [← hb1] at hc
  have hr1 := (force_drain_eq_some b max_pkts r hr).1
  have h := abandoned_holes_unchecked L size ops max_pkts j o p hp hf hs
    (by rw [← hb1]; exact hhole) hjo ho (by rw [← hb1]; exact hpo)
    (by rw [← hb1, ← hr1]; exact hout)
  rw [← hb1, ← hr1] at h
  refine ⟨h.1, ?_, fun m hm => ⟨_, force_drain_defined b m (by rw [hc.size_eq]; exact hm)⟩⟩
  intro later hnr hs2 E hE e he
  rw [run_emit_eq_some L later _ E hE] at he
  exact h.2 later hnr hs2 e he

theorem C15_abandoned_holes_witness :
    (mlvpn_reorder_insert
      { min_seqn := 8, memsize := 184, is_initialized := true
        order_buf :=
          { size := 8, mask := 7, head := 1, tail := 0, count := 0
            pkts := List.replicate 16 none } } ⟨6, 2⟩).2 = -2 :=
  ((C15_abandoned_holes lp64 8 [Op.insert ⟨5, 0⟩, Op.insert ⟨7, 1⟩, Op.drain 10] 10 0 1
    ⟨7, 1⟩
    { min_seqn := 6, memsize := 184, is_initialized := true
      order_buf :=
        { size := 8, mask := 7, head := 1, tail := 0, count := 1
          pkts := [none, none, some ⟨7, 1⟩, none, none, none, none, none,
            none, none, none, none, none, none, none, none] } }
    { b :=
        { min_seqn := 8, memsize := 184, is_initialized := true
          order_buf :=
            { size := 8, mask := 7, head := 1, tail := 0, count := 0
              pkts := List.replicate 16 none } }
      pkts := [⟨7, 1⟩], ret := 1, log_min_seqn := 6, log_first_drained := 7
      log_drain_cnt := 1, log_holes := 1
      drain_log := [(0, 69), (1, 46), (2, 69), (3, 69), (4, 69), (5, 69), (6, 69), (7, 69),
        (2, 0)] }
    ⟨3, rfl⟩ ⟨by decide, by decide⟩
    (by
      intro pkt h
      simp only [List.mem_cons, Op.insert.injEq, List.mem_singleton, reduceCtorEq, or_false,
        List.mem_nil_iff] at h
      rcases h with rfl | rfl <;> decide)
    (by decide) (by decide) (by decide) (by decide) (by decide) (by decide) (by decide)).1
      ⟨6, 2⟩ (by decide)).1

/-- C15 (counterexample). On 8 slots, after insert 5 and drain(10) the window is
empty with `min_seqn = 6`; force-drain(10), whose trace writes stay inside its
array, passes over the empty slot of sequence 6 (and emits nothing), and an
insert of sequence 6 after that call is accepted and then drained.  After
insert 5, insert 7 and drain(10), a force-drain(10) skips the hole 6 and emits
7; after a reset, an insert of sequence 6 is accepted and drained.  In the same
state a force-drain(1) writes the trace indices 0, 1 and 2 into an array of 1
byte and has no defined result.  With `size = 2 ^ 29` on LP64 the allocation
of create holds no cell and the first insert targets cell 0, outside the
allocation. -/
theorem C15_trailing_hole_delivered :
    slot (mlvpn_reorder_drain (insert_all (mlvpn_reorder_create lp64 8) [⟨5, 0⟩]).1 10).b
      (mlvpn_reorder_drain (insert_all (mlvpn_reorder_create lp64 8) [⟨5, 0⟩]).1
        10).b.order_buf.head = none ∧
    (mlvpn_reorder_drain (insert_all (mlvpn_reorder_create lp64 8) [⟨5, 0⟩]).1 10).b.min_seqn
      = 6 ∧
    (mlvpn_reorder_force_drain
      (mlvpn_reorder_drain (insert_all (mlvpn_reorder_create lp64 8) [⟨5, 0⟩]).1 10).b
        10).map (fun r => (r.pkts, r.drain_log.head?)) = some ([], some (0, 69)) ∧
    (mlvpn_reorder_force_drain
      (mlvpn_reorder_drain (insert_all (mlvpn_reorder_create lp64 8) [⟨5, 0⟩]).1 10).b
        10).map (fun r => (mlvpn_reorder_insert r.b ⟨6, 1⟩).2) = some 0 ∧
    (mlvpn_reorder_force_drain
      (mlvpn_reorder_drain (insert_all (mlvpn_reorder_create lp64 8) [⟨5, 0⟩]).1 10).b
        10).map (fun r => (mlvpn_reorder_drain (mlvpn_reorder_insert r.b ⟨6, 1⟩).1 10).pkts)
      = some [⟨6, 1⟩] ∧
    run_emit lp64 (mlvpn_reorder_create lp64 8)
      [Op.insert ⟨5, 0⟩, Op.drain 10, Op.force_drain 10, Op.insert ⟨6, 1⟩, Op.drain 10]
      = some [⟨5, 0⟩, ⟨6, 1⟩] ∧
    run_emit lp64 (mlvpn_reorder_create lp64 8)
      [Op.insert ⟨5, 0⟩, Op.insert ⟨7, 1⟩, Op.drain 10, Op.force_drain 10, Op.reset,
        Op.insert ⟨6, 2⟩, Op.drain 10] = some [⟨5, 0⟩, ⟨7, 1⟩, ⟨6, 2⟩] ∧
    mlvpn_reorder_force_drain
      (mlvpn_reorder_drain (insert_all (mlvpn_reorder_create lp64 8) [⟨5, 0⟩, ⟨7, 1⟩]).1 10).b
        1 = none ∧
    (mlvpn_reorder_create lp64 (2 ^ 29)).order_buf.size = 2 ^ 29 ∧
    (mlvpn_reorder_create lp64 (2 ^ 29)).order_buf.pkts.length = 0 ∧
    insert_target (mlvpn_reorder_create lp64 (2 ^ 29)) ⟨5, 0⟩ = 0 := by
  refine ⟨by decide, by decide, by decide, by decide, by decide, by decide, by decide,
    by decide, by decide, by decide, by decide⟩

end MLVPN
